import Mathlib

/-!
# NETPLAN / NETSCORE decomposition engine (`src/solver.cpp`)

Shallow embedding of the solution decoder, the metrics engine and the
decomposition / resiliency driver of `solver.cpp`.

Conventions of the embedding.

* `double` values are rationals (`ℚ`): every arithmetic statement below is a
  statement in exact arithmetic.  `1.0e30`, `1.0e10`, `1.0e9`, `0.999` and
  `0.01` are the rationals `10^30`, `10^10`, `10^9`, `999/1000`, `1/100`.
* `IloNumArray` / `vector<double>` / `double[]` are lists of rationals; a read
  `v[i]` is `rd v i`, which yields `0` outside the array (C++ leaves such a
  read undefined; no theorem below depends on the value chosen there unless
  it says so).
* The CPLEX library is an external collaborator.  A call `cplex[i].solve()`
  consumes the next answer of an arbitrary oracle; the queries
  `getCplexStatus`, `getObjValue`, `getValues`, `getDuals` return the data of
  the latest answer for that model.  Solver faults (C++ exceptions) are not
  part of the model.
-/

namespace NETPLAN

/-! ## Index registry -/

/-- Modelled from the spec: one record of an Index Registry table (the class
`Index` of `index.h` is not part of the sources); the spec describes a table
as an ordered sequence of records `{year, position}`. -/
structure IndexEntry where
  year : Nat
  position : Int
deriving DecidableEq, Repr

/-- Modelled from the spec: an Index Registry table, an ordered sequence of
records (`index.h` is not part of the sources). -/
abbrev Index := List IndexEntry

/-- Modelled from the spec: `Index::GetSize()`, the number of records. -/
def Index.GetSize (Idx : Index) : Nat := Idx.length

/-- Modelled from the spec: `Index::GetYear(i)`, the year of record `i`. -/
def Index.GetYear (Idx : Index) (i : Nat) : Nat := (Idx.getD i ⟨0, 0⟩).year

/-- Modelled from the spec: `Index::GetPosition(i)`, the stored position of
record `i`. -/
def Index.GetPosition (Idx : Index) (i : Nat) : Int := (Idx.getD i ⟨0, 0⟩).position

/-- Array read `v[i]`. -/
def rd (v : List ℚ) (i : Nat) : ℚ := v.getD i 0

/-! ## Metrics engine: `SumByRow` (solver.cpp 614-635) -/

/-- Local variables of `SumByRow`. -/
structure RowAcc where
  last_index : Int
  j : Nat
  sum : ℚ
  result : List ℚ

/-- One pass through the body of the `for` loop of `SumByRow`. -/
def SumByRowStep (v : List ℚ) (Idx : Index) (start : Nat) (a : RowAcc) (i : Nat) : RowAcc :=
  if a.last_index ≠ Idx.GetPosition i ∧ a.last_index ≠ -1 then
    { last_index := Idx.GetPosition i, j := 0, sum := 0, result := a.result ++ [a.sum] }
  else
    { last_index := if a.last_index = -1 then Idx.GetPosition i else a.last_index,
      j := a.j + 1,
      sum := a.sum + rd v (start + i),
      result := a.result }

/-- The function `SumByRow(v, Idx, start)`. -/
def SumByRow (v : List ℚ) (Idx : Index) (start : Nat) : List ℚ :=
  let a := (List.range Idx.GetSize).foldl (SumByRowStep v Idx start) ⟨-1, 0, 0, []⟩
  a.result ++ [a.sum]

/-- Specification side of `SumByRow`: the maximal contiguous runs of equal
stored position, each run as the list of the table offsets it contains. -/
def rowRuns (Idx : Index) : List (List Nat) :=
  (List.range Idx.GetSize).splitBy (fun a b => Idx.GetPosition a = Idx.GetPosition b)

/-- Specification side of `SumByRow`: one exact sum per maximal run. -/
def rowSums (v : List ℚ) (Idx : Index) (start : Nat) : List ℚ :=
  (rowRuns Idx).map (fun run => (run.map (fun i => rd v (start + i))).sum)

/-! ## Metrics engine: `EmissionIndex` (solver.cpp 590-612) -/

/-- Local variables of `EmissionIndex` that change in the loop. -/
structure EmAcc where
  max : ℚ
  min : ℚ
  sum : ℚ
  j : Nat

/-- Body of the `for` loop of `EmissionIndex` at loop index `i`
(`increase = 0.01`, `first_year = 5`). -/
def EmissionStep (v : List ℚ) (start : Nat) (reduction : ℚ) (a : EmAcc) (i : Nat) : EmAcc :=
  let max := a.max * (1 + 1 / 100)
  let min := a.min - reduction
  if i > 5 ∧ max > min then
    { max := max, min := min, sum := a.sum + (rd v (start + i) - min) / (max - min), j := a.j + 1 }
  else
    { max := max, min := min, sum := a.sum, j := a.j }

/-- State of `EmissionIndex` after the loop indices `1 .. n` have run. -/
def EmissionLoop (v : List ℚ) (start : Nat) (n : Nat) : EmAcc :=
  (List.range n).foldl (fun a k => EmissionStep v start (1 / 100 * rd v start) a (k + 1))
    ⟨rd v start, rd v start, 0, 0⟩

/-- The function `EmissionIndex(v, start)`; `H` is the global `SLength[0]`.
The loop runs for `i = 1 .. H - 1`. -/
def EmissionIndex (H : Nat) (v : List ℚ) (start : Nat) : ℚ :=
  let a := EmissionLoop v start (H - 1)
  if a.j = 0 then 0 else a.sum / a.j

/-- Worst-case envelope of year `i`: `e0 * 1.01 ^ i`. -/
def worstCase (v : List ℚ) (start i : Nat) : ℚ := rd v start * (101 / 100) ^ i

/-- Best-case envelope of year `i`: `e0 - 0.01 * e0 * i`. -/
def bestCase (v : List ℚ) (start i : Nat) : ℚ := rd v start - 1 / 100 * rd v start * i

/-- The qualifying years of a horizon of length `H`: the years `i` with
`5 < i < H` whose worst-case envelope exceeds the best-case envelope. -/
def qualifying (H : Nat) (v : List ℚ) (start : Nat) : List Nat :=
  ((List.range (H - 1)).map (· + 1)).filter
    (fun i => decide (5 < i ∧ bestCase v start i < worstCase v start i))

/-- Normalized position of year `i` inside the envelope band. -/
def normPos (v : List ℚ) (start i : Nat) : ℚ :=
  (rd v (start + i) - bestCase v start i) / (worstCase v start i - bestCase v start i)


/-- Years `1 .. n` that qualify. -/
def qualUpTo (v : List ℚ) (start n : Nat) : List Nat :=
  ((List.range n).map (· + 1)).filter
    (fun i => decide (5 < i ∧ bestCase v start i < worstCase v start i))

/-! ## Global configuration (global.h) -/

/-- The global variables of `global.h` read by `solver.cpp`.  `nyears` is
`SLength[0]`; `startEm` is the offset of the emission segment in the solution
vector (a global declared outside the sources at hand). -/
structure Globals where
  nyears : Nat
  useBenders : Bool
  Nobj : Nat
  Nevents : Nat
  SustObj : List String
  SustMet : List String
  IdxNode : Index
  IdxUd : Index
  IdxRm : Index
  IdxArc : Index
  IdxInv : Index
  IdxCap : Index
  IdxEm : Index
  IdxDc : Index
  startEm : Nat

/-! ## Solver adapter -/

/-- Outcome class of one `IloCplex::solve()`: `optimal` (the call returns
true and `getCplexStatus()` is `CPX_STAT_OPTIMAL`), `feasible` (the call
returns true with another status) and `infeasible` (the call returns false). -/
inductive Status where
  | optimal
  | feasible
  | infeasible
deriving DecidableEq, Repr

/-- Everything the engine reads back from a model after one solve. -/
structure SolveResult where
  status : Status
  objval : ℚ
  values : List ℚ
  duals : List ℚ
  capduals : List ℚ

/-- Return value of `IloCplex::solve()`. -/
def SolveResult.solved (r : SolveResult) : Bool := decide (r.status ≠ Status.infeasible)

/-- Values of `IloCplex::RootAlg` used by the engine. -/
inductive RootAlg where
  | Dual
  | Primal
deriving DecidableEq, Repr

/-- The three solver parameters the engine toggles. -/
structure SolverParams where
  PreInd : Int
  ScaInd : Int
  RootAlg : RootAlg
deriving DecidableEq, Repr

/-- A linear expression over the master variables `var[0][k]`. -/
structure LinExpr where
  const : ℚ
  terms : List (ℚ × Nat)

/-- A master cut `expr <= 0`, named `Cut_y<year>_iter<iter>`. -/
structure Cut where
  expr : LinExpr
  year : Nat
  iter : Nat

/-- Observable effects of the engine on its collaborators, recorded in
program order: a solve of model `model` (while evaluating contingency event
`event`, `0` for the baseline), a rewrite of the upper bound of slot `slot` of
the Capacity-Linking set `CapCuts[row]`, and a modification of the dual vector
of an event. -/
inductive Effect where
  | solve (event model : Nat) (status : Status)
  | setUB (row slot : Nat) (rhs : ℚ)
  | dualWrite (event : Nat)
deriving DecidableEq

/-- The member variables of class `CPLEX` (solver.h), with the state of each
`cplex[i]` represented by its latest answer.  `calls` counts the oracle
answers consumed so far; `trace` records the effects of the current
invocation. -/
structure CPLEX where
  cplex : Nat → SolveResult
  params : Nat → SolverParams
  rngUB : Nat → List ℚ
  CapCuts : List (List ℚ)
  MasterCuts : List Cut
  solution : List ℚ
  dualsolution : Nat → List ℚ
  calls : Nat
  trace : List Effect

/-- The call `cplex[i].solve()`: the model takes the next answer of the oracle. -/
def solve (orc : Nat → SolveResult) (event i : Nat) (e : CPLEX) : CPLEX :=
  { e with
    cplex := Function.update e.cplex i (orc e.calls)
    calls := e.calls + 1
    trace := e.trace ++ [Effect.solve event i (orc e.calls).status] }

/-- The three `setParam` calls on `cplex[i]`. -/
def setParams (i : Nat) (p : SolverParams) (e : CPLEX) : CPLEX :=
  { e with params := Function.update e.params i p }

/-- Increment `position[y]`. -/
def bump (position : Nat → Nat) (y : Nat) : Nat → Nat :=
  Function.update position y (position y + 1)

/-! ## `LoadProblem`: the Capacity-Linking slots (solver.cpp 61-74) -/

/-- The loop of `LoadProblem` that adds one slot `var[year][k] <= 0` to
`CapCuts[year-1]` for every entry of the capacity table. -/
def LoadCapCuts (g : Globals) : List (List ℚ) :=
  (List.range g.IdxCap.GetSize).foldl
    (fun cc i => cc.set (g.IdxCap.GetYear i - 1) (cc.getD (g.IdxCap.GetYear i - 1) [] ++ [0]))
    (List.replicate g.nyears [])

/-- The engine as `LoadProblem` leaves it: no model solved yet, default
parameters with the dual algorithm on the year models, the slots of
`LoadCapCuts`, empty cut set, solution and dual vectors. -/
def LoadProblem (g : Globals) (rngUB : Nat → List ℚ) : CPLEX :=
  { cplex := fun _ => ⟨Status.infeasible, 0, [], [], []⟩
    params := fun _ => ⟨1, 0, RootAlg.Dual⟩
    rngUB := rngUB
    CapCuts := LoadCapCuts g
    MasterCuts := []
    solution := []
    dualsolution := fun _ => []
    calls := 0
    trace := [] }

/-! ## `CapacityConstraints` (solver.cpp 571-588) -/

/-- Loop state of `CapacityConstraints`: the engine and the vector `copied`. -/
structure CapAcc where
  eng : CPLEX
  copied : Nat → Nat

/-- Body of the loop of `CapacityConstraints` at table entry `i`. -/
def CapacityStep (g : Globals) (events : Nat → ℚ) (event offset : Nat) (a : CapAcc) (i : Nat) :
    CapAcc :=
  let year := g.IdxCap.GetYear i
  let rhs := events (i * (g.Nevents + 1) + event) * rd a.eng.solution (offset + i)
  { eng := { a.eng with
      CapCuts := a.eng.CapCuts.set (year - 1)
        ((a.eng.CapCuts.getD (year - 1) []).set (a.copied (year - 1)) rhs)
      trace := a.eng.trace ++ [Effect.setUB (year - 1) (a.copied (year - 1)) rhs] }
    copied := bump a.copied (year - 1) }

/-- The method `CPLEX::CapacityConstraints(events, event, offset)`. -/
def CapacityConstraints (g : Globals) (events : Nat → ℚ) (event offset : Nat) (e : CPLEX) : CPLEX :=
  ((List.range g.IdxCap.GetSize).foldl (CapacityStep g events event offset) ⟨e, fun _ => 0⟩).eng

/-! ## `StoreSolution` (solver.cpp 373-446) -/

/-- Loop state of the Benders branch of `StoreSolution`. -/
structure DecodeAcc where
  solution : List ℚ
  position : Nat → Nat

/-- Body of the "recover capacities" loop. -/
def decodeCap (g : Globals) (varsol : Nat → List ℚ) (a : DecodeAcc) (j : Nat) : DecodeAcc :=
  let tempYear := g.IdxCap.GetYear j
  { solution := a.solution ++ [rd (varsol 0) (a.position 0)]
    position := bump (bump a.position 0) tempYear }

/-- Body of the loops that read the master array (investments, reserve margin). -/
def decodeMaster (varsol : Nat → List ℚ) (a : DecodeAcc) (_j : Nat) : DecodeAcc :=
  { solution := a.solution ++ [rd (varsol 0) (a.position 0)]
    position := bump a.position 0 }

/-- Body of the loops that read a year array; `yearOf` is the table whose
`GetYear(j)` the loop consults. -/
def decodeYear (yearOf : Index) (varsol : Nat → List ℚ) (a : DecodeAcc) (j : Nat) : DecodeAcc :=
  let tempYear := yearOf.GetYear j
  { solution := a.solution ++ [rd (varsol tempYear) (a.position tempYear)]
    position := bump a.position tempYear }

/-- The Benders branch of `StoreSolution`: the seven loops in source order.
The emission loop runs `IdxEm.GetSize()` times and consults
`IdxArc.GetYear(j)` (solver.cpp 408-409). -/
def StoreSolutionBenders (g : Globals) (varsol : Nat → List ℚ) : List ℚ :=
  let a0 : DecodeAcc := ⟨[], Function.update (fun _ => 0) 0 g.nyears⟩
  let a1 := (List.range g.IdxCap.GetSize).foldl (decodeCap g varsol) a0
  let a2 := (List.range g.IdxInv.GetSize).foldl (decodeMaster varsol) a1
  let a3 := (List.range g.IdxEm.GetSize).foldl (decodeYear g.IdxArc varsol) a2
  let a4 := (List.range g.IdxRm.GetSize).foldl (decodeMaster varsol) a3
  let a5 := (List.range g.IdxArc.GetSize).foldl (decodeYear g.IdxArc varsol) a4
  let a6 := (List.range g.IdxUd.GetSize).foldl (decodeYear g.IdxUd varsol) a5
  let a7 := (List.range g.IdxDc.GetSize).foldl (decodeYear g.IdxDc varsol) a6
  a7.solution

/-- The method `CPLEX::StoreSolution(onlymaster)`. -/
def StoreSolution (g : Globals) (onlymaster : Bool) (e : CPLEX) : CPLEX :=
  if !g.useBenders || onlymaster then
    { e with solution := (e.cplex 0).values }
  else
    { e with solution := StoreSolutionBenders g (fun i => (e.cplex i).values) }

/-- Specification side of the decoder: the values a year-owned table pulls,
entry by entry, each the next unconsumed value of the year the table itself
records for the entry; `position` holds the read cursors on entry. -/
def pullOwnYear (table : Index) (varsol : Nat → List ℚ) (position : Nat → Nat) : DecodeAcc :=
  (List.range table.GetSize).foldl (decodeYear table varsol) ⟨[], position⟩

/-! ## `StoreDualSolution` (solver.cpp 449-521) -/

/-- Loop state of the dual decoders: the dual vector set and the cursors. -/
structure DualAcc where
  eng : CPLEX
  position : Nat → Nat
  globalposition : Nat

/-- The call `dualsolution[event].add(x)`. -/
def dualAdd (event : Nat) (x : ℚ) (e : CPLEX) : CPLEX :=
  { e with
    dualsolution := Function.update e.dualsolution event (e.dualsolution event ++ [x])
    trace := e.trace ++ [Effect.dualWrite event] }

/-- The call `dualsolution[i].clear()`. -/
def dualClear (e : CPLEX) (i : Nat) : CPLEX :=
  { e with
    dualsolution := Function.update e.dualsolution i []
    trace := e.trace ++ [Effect.dualWrite i] }

/-- The method `CPLEX::StoreDualSolution()`; the clearing loop runs for
`i = 0 .. Nevents - 1`. -/
def StoreDualSolution (g : Globals) (e : CPLEX) : CPLEX :=
  let e1 := (List.range g.Nevents).foldl dualClear e
  if !g.useBenders then
    let tempdual := (e1.cplex 0).duals
    let start := g.IdxEm.GetSize + g.IdxRm.GetSize
    (List.range g.IdxNode.GetSize).foldl (fun e2 i => dualAdd 0 (rd tempdual (start + i)) e2) e1
  else
    let dualsol : Nat → List ℚ := fun k => (e1.cplex (k + 1)).duals
    ((List.range g.IdxNode.GetSize).foldl
      (fun (a : DualAcc) j =>
        let tempYear := g.IdxNode.GetYear j
        { eng := dualAdd 0 (rd (dualsol (tempYear - 1)) (a.position (tempYear - 1))) a.eng
          position := bump a.position (tempYear - 1)
          globalposition := a.globalposition })
      ⟨e1, fun _ => g.SustMet.length, 0⟩).eng

/-- The method `CPLEX::StoreDualSolution(event, years)`. -/
def StoreDualSolutionEvent (g : Globals) (event : Nat) (years : Nat → ℚ) (e : CPLEX) : CPLEX :=
  let dualsol : Nat → List ℚ := fun k => if years k = 1 then (e.cplex (k + 1)).duals else []
  ((List.range g.IdxNode.GetSize).foldl
    (fun (a : DualAcc) j =>
      let tempYear := g.IdxNode.GetYear j
      { eng :=
          if years (tempYear - 1) = 1 then
            dualAdd event (rd (dualsol (tempYear - 1)) (a.position (tempYear - 1))) a.eng
          else
            dualAdd event (rd (a.eng.dualsolution 0) a.globalposition) a.eng
        position := bump a.position (tempYear - 1)
        globalposition := a.globalposition + 1 })
    ⟨e, fun _ => g.SustMet.length, 0⟩).eng

/-! ## `SolveIndividual`: the decomposition loop (solver.cpp 111-223) -/

/-- The sum `Σ_k dual[k] * rng[j][k].getUB()` over `k < dual.getSize()`. -/
def dotUB (dual ub : List ℚ) : ℚ :=
  (List.range dual.length).foldl (fun s k => s + rd dual k * rd ub k) 0

/-- Variables of `SolveIndividual` that live across the iterations of the
decomposition loop, and the locals of the current iteration (`status`,
`expr_cut`, indexed by `year - 1`).  `broke` records that the loop was left
through `break`. -/
structure LoopState where
  eng : CPLEX
  OptCuts : Nat
  FeasCuts : Nat
  iter : Nat
  dualcap : Nat → List ℚ
  status : Nat → Bool
  expr_cut : Nat → LinExpr
  broke : Bool

/-- Body of the loop over the years `j = 1 .. nyears` (solver.cpp 145-179). -/
def yearStep (orc : Nat → SolveResult) (s : LoopState) (j : Nat) : LoopState :=
  let e1 := solve orc 0 j s.eng
  if (e1.cplex j).status ≠ Status.optimal then
    let e2 := setParams j ⟨0, -1, RootAlg.Primal⟩ e1
    let e3 := solve orc 0 j e2
    { s with
      eng := e3
      FeasCuts := s.FeasCuts + 1
      status := Function.update s.status (j - 1) true
      expr_cut := Function.update s.expr_cut (j - 1)
        ⟨dotUB (e3.cplex j).duals (e3.rngUB j), []⟩
      dualcap := Function.update s.dualcap (j - 1) (e3.cplex j).capduals }
  else if rd e1.solution (j - 1) ≤ (e1.cplex j).objval * (999 / 1000) then
    { s with
      eng := e1
      OptCuts := s.OptCuts + 1
      status := Function.update s.status (j - 1) true
      expr_cut := Function.update s.expr_cut (j - 1)
        ⟨dotUB (e1.cplex j).duals (e1.rngUB j), [(-1, j - 1)]⟩
      dualcap := Function.update s.dualcap (j - 1) (e1.cplex j).capduals }
  else
    { s with
      eng := e1
      status := Function.update s.status (j - 1) false }

/-- Loop state of the "finalize cuts" loop (solver.cpp 183-189). -/
structure FinAcc where
  expr_cut : Nat → LinExpr
  copied : Nat → Nat

/-- Body of the "finalize cuts" loop at capacity-table entry `i`. -/
def finalizeStep (g : Globals) (s : LoopState) (a : FinAcc) (i : Nat) : FinAcc :=
  let year := g.IdxCap.GetYear i
  { expr_cut :=
      if s.status (year - 1) then
        Function.update a.expr_cut (year - 1)
          { a.expr_cut (year - 1) with
            terms := (a.expr_cut (year - 1)).terms ++
              [(rd (s.dualcap (year - 1)) (a.copied (year - 1)), g.nyears + i)] }
      else a.expr_cut
    copied := bump a.copied (year - 1) }

/-- Body of the "apply cuts to master" loop for year `j` (solver.cpp 192-204). -/
def applyStep (iter : Nat) (status : Nat → Bool) (expr_cut : Nat → LinExpr) (e : CPLEX) (j : Nat) :
    CPLEX :=
  let e1 := if status (j - 1) then
      { e with MasterCuts := e.MasterCuts ++ [⟨expr_cut (j - 1), j, iter⟩] }
    else e
  if (e1.cplex j).status ≠ Status.optimal then setParams j ⟨1, 0, RootAlg.Dual⟩ e1 else e1

/-- One pass through the body of the `while` loop (solver.cpp 121-214). -/
def BendersIter (g : Globals) (orc : Nat → SolveResult) (events : Nat → ℚ) (s : LoopState) :
    LoopState :=
  let s0 : LoopState := { s with iter := s.iter + 1, OptCuts := 0, FeasCuts := 0 }
  let e1 := solve orc 0 0 s0.eng
  if !(e1.cplex 0).solved then
    { s0 with eng := e1, broke := true }
  else
    let e2 := StoreSolution g true e1
    let e3 := CapacityConstraints g events 0 g.nyears e2
    let s1 := (List.range g.nyears).foldl (fun a k => yearStep orc a (k + 1)) { s0 with eng := e3 }
    if s1.OptCuts + s1.FeasCuts > 0 then
      let fin := (List.range g.IdxCap.GetSize).foldl (finalizeStep g s1) ⟨s1.expr_cut, fun _ => 0⟩
      let e4 := (List.range g.nyears).foldl
        (fun e k => applyStep s1.iter s1.status fin.expr_cut e (k + 1)) s1.eng
      { s1 with eng := e4, expr_cut := fin.expr_cut }
    else
      { s1 with eng := StoreDualSolution g (StoreSolution g false s1.eng) }

/-- The `while ((OptCuts+FeasCuts > 0) && (iter <= 1000))` loop.  `fuel` bounds
the number of passes the definition may unfold; when it is used up the state
reached so far is returned.  `BendersWhile_fuel` shows that 1001 units are
never used up before the loop condition fails or the loop is left by
`break`. -/
def BendersWhile (g : Globals) (orc : Nat → SolveResult) (events : Nat → ℚ) :
    Nat → LoopState → LoopState
  | 0, s => s
  | fuel + 1, s =>
    if s.OptCuts + s.FeasCuts > 0 ∧ s.iter ≤ 1000 then
      let s1 := BendersIter g orc events s
      if s1.broke then s1 else BendersWhile g orc events fuel s1
    else s

/-- The state in which `SolveIndividual` enters the loop:
`OptCuts = 1, FeasCuts = 1, iter = 0` and empty `dualcap` arrays. -/
def loopInit (e : CPLEX) : LoopState :=
  { eng := e, OptCuts := 1, FeasCuts := 1, iter := 0, dualcap := fun _ => [],
    status := fun _ => false, expr_cut := fun _ => ⟨0, []⟩, broke := false }

/-- The decomposition loop of `SolveIndividual` run to its end. -/
def Benders (g : Globals) (orc : Nat → SolveResult) (events : Nat → ℚ) (e : CPLEX) : LoopState :=
  BendersWhile g orc events 1001 (loopInit e)

/-- Whether an effect is a solve of the master model `cplex[0]`. -/
def isMasterSolve : Effect → Bool
  | Effect.solve _ 0 _ => true
  | _ => false

/-- Number of solves of the master model recorded in a trace. -/
def masterSolves (t : List Effect) : Nat := t.countP isMasterSolve

/-! ## `SolveIndividual`: baseline solve, metrics and resiliency -/

/-- What `SolveIndividual` leaves behind: the engine, the caller's
`objective` array and `returnString`.  `returnString` is `none` for the
string "skip" and `some l` for the comma-separated rendering of the figures
`l`.  `ResilObj` exposes the local array of per-event totals (indexed by
`event - 1`). -/
structure Output where
  eng : CPLEX
  objective : Nat → ℚ
  returnString : Option (List ℚ)
  ResilObj : Nat → ℚ

/-- Result of the baseline solve (solver.cpp 93-223): the engine, the flag
`optimal` and the `objective` array. -/
structure Baseline where
  eng : CPLEX
  optimal : Bool
  objective : Nat → ℚ

/-- The baseline solve: the single combined model, or the decomposition loop
followed by the test of the master status. -/
def baseline (g : Globals) (orc : Nat → SolveResult) (events : Nat → ℚ) (objective : Nat → ℚ)
    (e : CPLEX) : Baseline :=
  if !g.useBenders then
    let e1 := solve orc 0 0 e
    if (e1.cplex 0).solved then
      { eng := StoreDualSolution g (StoreSolution g false e1)
        optimal := true
        objective := Function.update objective 0 (e1.cplex 0).objval }
    else
      { eng := e1, optimal := false, objective := objective }
  else
    let L := Benders g orc events e
    if (L.eng.cplex 0).status = Status.optimal then
      { eng := L.eng, optimal := true
        objective := Function.update objective 0 (L.eng.cplex 0).objval }
    else
      { eng := L.eng, optimal := false, objective := objective }

/-- The sentinel loop `for (i < Nobj) objective[i] = 1.0e30`. -/
def sentinel (g : Globals) (objective : Nat → ℚ) : Nat → ℚ :=
  (List.range g.Nobj).foldl (fun o i => Function.update o i ((10 : ℚ) ^ 30)) objective

/-- The sustainability-metric loop (solver.cpp 235-253). -/
def metrics (g : Globals) (solution : List ℚ) (objective : Nat → ℚ) : Nat → ℚ :=
  let emissions := SumByRow solution g.IdxEm g.startEm
  (List.range g.SustObj.length).foldl
    (fun o i =>
      if g.SustObj.getD i "" = "EmCO2" ∨ g.SustObj.getD i "" = "CO2" then
        Function.update o (1 + i) (EmissionIndex g.nyears solution (g.startEm + g.nyears * i))
      else
        Function.update o (1 + i) (rd emissions i))
    objective

/-- The emission part of `returnString` (solver.cpp 256-267). -/
def metricsString (g : Globals) (solution : List ℚ) (returnString : Option (List ℚ)) :
    Option (List ℚ) :=
  match returnString with
  | none => none
  | some _ =>
    let emissions := SumByRow solution g.IdxEm g.startEm
    some ((List.range g.SustMet.length).foldl (fun l i => l ++ [rd emissions i]) [])

/-- Locals of the resiliency block. -/
structure ResilState where
  eng : CPLEX
  ResilObj : Nat → ℚ
  ResilOptimal : Bool

/-- Body of the baseline accumulation loop for year `j` (solver.cpp 283-294). -/
def resilBaseStep (g : Globals) (orc : Nat → SolveResult) (events : Nat → ℚ) (r : ResilState)
    (j : Nat) : ResilState :=
  let startPos := g.IdxCap.GetSize * (g.Nevents + 1)
  if events (startPos + (j - 1) * (g.Nevents + 1)) = 1 then
    let e1 := if !g.useBenders then solve orc 0 j (CapacityConstraints g events 0 0 r.eng) else r.eng
    { r with
      eng := e1
      ResilObj := (List.range g.Nevents).foldl
        (fun ro k =>
          if events (startPos + (j - 1) * (g.Nevents + 1) + (k + 1)) = 1 then
            Function.update ro k (ro k - (e1.cplex j).objval)
          else ro)
        r.ResilObj }
  else r

/-- Locals of the evaluation of one event. -/
structure EventState where
  rs : ResilState
  current_feasible : Bool
  years_changed : Nat → ℚ

/-- Body of the loop over the years for event `event` (solver.cpp 304-323);
the loop condition `current_feasible` is part of the step. -/
def eventYearStep (g : Globals) (orc : Nat → SolveResult) (events : Nat → ℚ) (event : Nat)
    (a : EventState) (j : Nat) : EventState :=
  let startPos := g.IdxCap.GetSize * (g.Nevents + 1)
  if !a.current_feasible then a
  else if events (startPos + (j - 1) * (g.Nevents + 1) + event) = 1 then
    let e1 := solve orc event j a.rs.eng
    let yc := Function.update a.years_changed (j - 1) 1
    if (e1.cplex j).status ≠ Status.optimal then
      { rs := { eng := e1
                ResilObj := Function.update a.rs.ResilObj (event - 1) ((10 : ℚ) ^ 10)
                ResilOptimal := false }
        current_feasible := false
        years_changed := yc }
    else
      { rs := { a.rs with
                eng := e1
                ResilObj := Function.update a.rs.ResilObj (event - 1)
                  (a.rs.ResilObj (event - 1) + (e1.cplex j).objval) }
        current_feasible := true
        years_changed := yc }
  else
    { a with years_changed := Function.update a.years_changed (j - 1) 0 }

/-- Body of the loop over the events (solver.cpp 297-328).  `years_changed`
is not initialised by the source; it is read only when every entry has been
assigned. -/
def eventStep (g : Globals) (orc : Nat → SolveResult) (events : Nat → ℚ) (r : ResilState)
    (event : Nat) : ResilState :=
  let e1 := CapacityConstraints g events event 0 r.eng
  let a := (List.range g.nyears).foldl (fun a k => eventYearStep g orc events event a (k + 1))
    ⟨{ r with eng := e1 }, true, fun _ => 0⟩
  if a.current_feasible then
    { a.rs with eng := StoreDualSolutionEvent g event a.years_changed a.rs.eng }
  else a.rs

/-- The two passes of the resiliency block (solver.cpp 279-328). -/
def resilPasses (g : Globals) (orc : Nat → SolveResult) (events : Nat → ℚ) (e : CPLEX) :
    ResilState :=
  let r0 : ResilState := ⟨e, fun _ => 0, true⟩
  let r1 := (List.range g.nyears).foldl (fun r k => resilBaseStep g orc events r (k + 1)) r0
  (List.range g.Nevents).foldl (fun r k => eventStep g orc events r (k + 1)) r1

/-- The accumulation `resiliency += ResilObj[j]` for `j < Nevents`. -/
def resilSum (g : Globals) (ResilObj : Nat → ℚ) : ℚ :=
  (List.range g.Nevents).foldl (fun s j => s + ResilObj j) 0

/-- The method `CPLEX::SolveIndividual(objective, events, returnString)`.
The trace is started afresh; the last step is `MasterCuts.endElements()`. -/
def SolveIndividual (g : Globals) (orc : Nat → SolveResult) (objective : Nat → ℚ)
    (events : Nat → ℚ) (returnString : Option (List ℚ)) (e : CPLEX) : Output :=
  let b := baseline g orc events objective { e with trace := [] }
  if !b.optimal then
    { eng := { b.eng with MasterCuts := [] }
      objective := sentinel g b.objective
      returnString := returnString
      ResilObj := fun _ => 0 }
  else
    let obj1 := metrics g b.eng.solution b.objective
    let str1 := metricsString g b.eng.solution returnString
    if g.Nevents > 0 then
      let r := resilPasses g orc events b.eng
      let obj2 :=
        if r.ResilOptimal then
          Function.update obj1 (g.SustObj.length + 1) (resilSum g r.ResilObj / g.Nevents)
        else
          Function.update obj1 (g.SustObj.length + 1) ((10 : ℚ) ^ 9)
      let str2 := match str1 with
        | none => none
        | some l => some ((List.range g.Nevents).foldl (fun t k => t ++ [r.ResilObj k]) [] ++ l)
      { eng := { r.eng with MasterCuts := [] }
        objective := obj2
        returnString := str2
        ResilObj := r.ResilObj }
    else
      { eng := { b.eng with MasterCuts := [] }
        objective := obj1
        returnString := str1
        ResilObj := fun _ => 0 }

/-! ## Trace bookkeeping -/

/-- The engine `e2` extends the trace of `e1` by effects that all satisfy `ok`. -/
def ExtBy (ok : Effect → Bool) (e1 e2 : CPLEX) : Prop :=
  ∃ t, e2.trace = e1.trace ++ t ∧ ∀ x ∈ t, ok x = true

/-- The effects of the baseline phase other than a solve of the master: a
solve of a year model for event `0`, a bound rewrite, a dual-vector write. -/
def mild : Effect → Bool
  | Effect.solve 0 (_ + 1) _ => true
  | Effect.setUB _ _ _ => true
  | Effect.dualWrite _ => true
  | _ => false

/-- The effects of an iteration that does not leave the loop: the mild ones
and a master solve that succeeded. -/
def calm : Effect → Bool
  | Effect.solve 0 0 st => decide (st ≠ Status.infeasible)
  | x => mild x

/-- A solve made while evaluating an event `1 .. Nevents` that did not end
with status optimal. -/
def isEventFailure : Effect → Bool
  | Effect.solve (_ + 1) _ st => decide (st ≠ Status.optimal)
  | _ => false

/-- Whether an effect rewrites a Capacity-Linking bound, solves a year model
or modifies a dual vector. -/
def isResilWork : Effect → Bool
  | Effect.solve _ (_ + 1) _ => true
  | Effect.setUB _ _ _ => true
  | Effect.dualWrite _ => true
  | _ => false

/-- Invariant of the resiliency block relative to the trace `base` it started
from: the effects added are bound rewrites, year solves and dual writes, and
the flag `ResilOptimal` is still true exactly when none of them is a failed
event solve. -/
def ResilInv (base : List Effect) (eng : CPLEX) (flag : Bool) : Prop :=
  ∃ t, eng.trace = base ++ t ∧ (∀ x ∈ t, isResilWork x = true) ∧
    (flag = true ↔ ∀ x ∈ t, isEventFailure x = false)

/-! ## Concrete instances -/

/-- A one-year instance in Benders mode: one capacity, one emission, one flow
and one node-balance entry, one contingency event. -/
def gOne : Globals :=
  { nyears := 1, useBenders := true, Nobj := 3, Nevents := 1,
    SustObj := ["EmCO2"], SustMet := ["EmCO2"],
    IdxNode := [⟨1, 0⟩], IdxUd := [], IdxRm := [], IdxArc := [⟨1, 0⟩], IdxInv := [],
    IdxCap := [⟨1, 0⟩], IdxEm := [⟨1, 0⟩], IdxDc := [], startEm := 1 }

/-- A solver that always answers "optimal, objective 10" with an estimate
(`values[0] = 0`) below the objective: every iteration generates a cut. -/
def orcCuts : Nat → SolveResult := fun _ => ⟨Status.optimal, 10, [0, 5, 7], [2], [1]⟩

/-- A solver that always answers "optimal, objective 10" with the estimate
`values[0] = 10`: the first iteration generates no cut. -/
def orcConv : Nat → SolveResult := fun _ => ⟨Status.optimal, 10, [10, 5, 7], [2], [1]⟩

/-- The engine of `gOne` right after `LoadProblem`. -/
def engOne : CPLEX := LoadProblem gOne (fun _ => [4])

/-- A contingency pattern with every multiplier and every bit equal to 1. -/
def evOne : Nat → ℚ := fun _ => 1

/-- A solver whose every solve fails. -/
def orcFail : Nat → SolveResult := fun _ => ⟨Status.infeasible, 0, [], [], []⟩

/-- An index table with two maximal runs of stored positions, `0 0` and `1 1`. -/
def idxRows : Index := [⟨1, 0⟩, ⟨2, 0⟩, ⟨1, 1⟩, ⟨2, 1⟩]

/-- A two-year instance in Benders mode with one emission entry per year and
two flow entries per year, and no capacity, investment, reserve-margin,
unserved-demand or angle entry. -/
def gEm : Globals :=
  { nyears := 2, useBenders := true, Nobj := 2, Nevents := 0,
    SustObj := ["EmCO2"], SustMet := ["EmCO2"],
    IdxNode := [], IdxUd := [], IdxRm := [],
    IdxArc := [⟨1, 0⟩, ⟨1, 1⟩, ⟨2, 0⟩, ⟨2, 1⟩], IdxInv := [],
    IdxCap := [], IdxEm := [⟨1, 0⟩, ⟨2, 0⟩], IdxDc := [], startEm := 0 }

/-- Primal arrays for `gEm`: the master holds the two estimates; each year
holds its emission followed by its two flows. -/
def varsolEm : Nat → List ℚ
  | 0 => [0, 0]
  | 1 => [100, 1, 2]
  | 2 => [200, 3, 4]
  | _ => []

/-- A one-year instance solved directly (no decomposition), without
contingency events, with one node-balance entry. -/
def gDual : Globals :=
  { nyears := 1, useBenders := false, Nobj := 1, Nevents := 0,
    SustObj := [], SustMet := [],
    IdxNode := [⟨1, 0⟩], IdxUd := [], IdxRm := [], IdxArc := [], IdxInv := [],
    IdxCap := [], IdxEm := [], IdxDc := [], startEm := 0 }

/-- A solver that always answers "optimal" with node-balance dual 3. -/
def orcDual : Nat → SolveResult := fun _ => ⟨Status.optimal, 10, [1], [3], []⟩

/-- The engine of `gDual` after one invocation of `SolveIndividual` on the
freshly loaded problem. -/
def engDual1 : CPLEX :=
  (SolveIndividual gDual orcDual (fun _ => 0) (fun _ => 0) none (LoadProblem gDual (fun _ => []))).eng

/-- The engine of `gDual` after a second invocation on the same engine. -/
def engDual2 : CPLEX :=
  (SolveIndividual gDual orcDual (fun _ => 0) (fun _ => 0) none engDual1).eng

/-! ## Capacity-Linking slots: bookkeeping for `CapacityConstraints` -/

/-- Row of `CapCuts` that holds the slot of capacity-table entry `i`
(`year - 1`). -/
def capRow (g : Globals) (i : Nat) : Nat := g.IdxCap.GetYear i - 1

/-- Number of capacity-table entries among the first `n` whose row is `r`. -/
def capCount (g : Globals) (n r : Nat) : Nat :=
  ((List.range n).filter (fun j => decide (capRow g j = r))).length

/-- Position of capacity-table entry `i` among the entries of its own year,
in table order (counted from 0). -/
def capSlot (g : Globals) (i : Nat) : Nat :=
  ((List.range i).filter (fun j => decide (g.IdxCap.GetYear j = g.IdxCap.GetYear i))).length

/-- The right-hand side `events[i*(Nevents+1)+event] * solution[offset+i]`. -/
def capRhs (g : Globals) (events : Nat → ℚ) (event offset : Nat) (solution : List ℚ) (i : Nat) : ℚ :=
  events (i * (g.Nevents + 1) + event) * rd solution (offset + i)

/-- State of the loop of `CapacityConstraints` after its first `n` passes. -/
def CapacityLoop (g : Globals) (events : Nat → ℚ) (event offset : Nat) (e : CPLEX) (n : Nat) :
    CapAcc :=
  (List.range n).foldl (CapacityStep g events event offset) ⟨e, fun _ => 0⟩

/-- State of the slot-building loop of `LoadProblem` after its first `n` passes. -/
def LoadCapLoop (g : Globals) (n : Nat) : List (List ℚ) :=
  (List.range n).foldl
    (fun cc i => cc.set (g.IdxCap.GetYear i - 1) (cc.getD (g.IdxCap.GetYear i - 1) [] ++ [0]))
    (List.replicate g.nyears [])

/-! ## Resiliency totals: bookkeeping for the two passes -/

/-- The trigger bit of year `k + 1`: `events[startPos + k*(Nevents+1)] == 1`. -/
def trigBit (g : Globals) (events : Nat → ℚ) (k : Nat) : Bool :=
  decide (events (g.IdxCap.GetSize * (g.Nevents + 1) + k * (g.Nevents + 1)) = 1)

/-- The bit of event `ev + 1` in year `k + 1`:
`events[startPos + k*(Nevents+1) + (ev+1)] == 1`. -/
def eventBit (g : Globals) (events : Nat → ℚ) (k ev : Nat) : Bool :=
  decide (events (g.IdxCap.GetSize * (g.Nevents + 1) + k * (g.Nevents + 1) + (ev + 1)) = 1)

/-- The resiliency block after the baseline accumulation loop (solver.cpp 282-295). -/
def resilBase (g : Globals) (orc : Nat → SolveResult) (events : Nat → ℚ) (e : CPLEX) : ResilState :=
  (List.range g.nyears).foldl (fun r k => resilBaseStep g orc events r (k + 1)) ⟨e, fun _ => 0, true⟩

/-- The resiliency block after the events `1 .. n` have been evaluated. -/
def resilUpTo (g : Globals) (orc : Nat → SolveResult) (events : Nat → ℚ) (e : CPLEX) (n : Nat) :
    ResilState :=
  (List.range n).foldl (fun r k => eventStep g orc events r (k + 1)) (resilBase g orc events e)

/-- The years (as `year - 1`) among the first `n` whose bit of event `ev + 1` is 1. -/
def eventYears (g : Globals) (events : Nat → ℚ) (ev n : Nat) : List Nat :=
  (List.range n).filter (fun k => eventBit g events k ev)

/-- The years (as `year - 1`) among the first `n` whose trigger bit and bit
of event `ev + 1` are both 1. -/
def baseYears (g : Globals) (events : Nat → ℚ) (ev n : Nat) : List Nat :=
  (List.range n).filter (fun k => trigBit g events k && eventBit g events k ev)

/-- Objective of year `k + 1` as re-solved under event `ev + 1`: the
objective of the model of that year when the evaluation of the event is over. -/
def eventObjective (g : Globals) (orc : Nat → SolveResult) (events : Nat → ℚ) (e : CPLEX)
    (ev k : Nat) : ℚ :=
  ((resilUpTo g orc events e (ev + 1)).eng.cplex (k + 1)).objval

/-- Baseline objective of year `k + 1`: the objective of the model of that
year when the baseline accumulation loop is over. -/
def baseObjective (g : Globals) (orc : Nat → SolveResult) (events : Nat → ℚ) (e : CPLEX)
    (k : Nat) : ℚ :=
  ((resilBase g orc events e).eng.cplex (k + 1)).objval

/-- A contingency pattern for `gOne` whose year 1 carries the bit of event 1
but not the trigger bit (`events[2] = 0`, every other entry 1). -/
def evGate : Nat → ℚ := fun n => if n = 2 then 0 else 1

/-- Invariant of the loop over the years of event `ev + 1`, after the years
`1 .. n`, started from the resiliency state `r`: the totals of the other
events are those of `r`; while the event is feasible its total is that of
`r` plus the objectives of the years re-solved so far, each of them an answer
of the solver; once it is infeasible some re-solved year has a status other
than optimal. -/
def EventInv (g : Globals) (orc : Nat → SolveResult) (events : Nat → ℚ) (r : ResilState)
    (ev n : Nat) (a : EventState) : Prop :=
  (∀ ev2, ev2 ≠ ev → a.rs.ResilObj ev2 = r.ResilObj ev2) ∧
  (a.current_feasible = true →
    a.rs.ResilObj ev = r.ResilObj ev +
      ((eventYears g events ev n).map (fun k => (a.rs.eng.cplex (k + 1)).objval)).sum ∧
    ∀ k ∈ eventYears g events ev n, ∃ m, a.rs.eng.cplex (k + 1) = orc m) ∧
  (a.current_feasible = false →
    ∃ k, k < n ∧ eventBit g events k ev = true ∧
      (a.rs.eng.cplex (k + 1)).status ≠ Status.optimal ∧ ∃ m, a.rs.eng.cplex (k + 1) = orc m)

/-- Invariant of the loop over the years of event `ev + 1` for the flag
`ResilOptimal`, after the years `1 .. n`, started from the resiliency state
`r`: while the event is feasible the flag is that of `r` and every year
re-solved so far holds a state with status optimal; once the event is
infeasible the flag is false and some re-solved year holds a state with
another status. -/
def EventFlagInv (g : Globals) (events : Nat → ℚ) (r : ResilState) (ev n : Nat)
    (a : EventState) : Prop :=
  (a.current_feasible = true →
    a.rs.ResilOptimal = r.ResilOptimal ∧
    ∀ k ∈ eventYears g events ev n, (a.rs.eng.cplex (k + 1)).status = Status.optimal) ∧
  (a.current_feasible = false →
    a.rs.ResilOptimal = false ∧
    ∃ k, k < n ∧ eventBit g events k ev = true ∧
      (a.rs.eng.cplex (k + 1)).status ≠ Status.optimal)

/-- A one-year instance solved directly, with two contingency events, one
capacity entry and one node-balance entry. -/
def gTwo : Globals :=
  { nyears := 1, useBenders := false, Nobj := 2, Nevents := 2,
    SustObj := [], SustMet := [],
    IdxNode := [⟨1, 0⟩], IdxUd := [], IdxRm := [], IdxArc := [], IdxInv := [],
    IdxCap := [⟨1, 0⟩], IdxEm := [], IdxDc := [], startEm := 0 }

/-- A solver whose fourth answer is "infeasible" and whose other answers are
"optimal, objective 10".  On `gTwo` with the pattern `evOne` the answers go,
in order, to the combined model, to year 1 in the baseline accumulation, to
year 1 under event 1 and to year 1 under event 2. -/
def orcTwo : Nat → SolveResult := fun n =>
  if n = 3 then ⟨Status.infeasible, 0, [], [], []⟩ else ⟨Status.optimal, 10, [5], [3], [1]⟩

/-- The engine of `gTwo` right after `LoadProblem`. -/
def engTwo : CPLEX := LoadProblem gTwo (fun _ => [])

/-! # Theorems -/

theorem qualifying_eq (H : Nat) (v : List ℚ) (start : Nat) :
    qualifying H v start = qualUpTo v start (H - 1) := rfl

theorem EmissionLoop_succ (v : List ℚ) (start n : Nat) :
    EmissionLoop v start (n + 1) =
      EmissionStep v start (1 / 100 * rd v start) (EmissionLoop v start n) (n + 1) := by
  simp [EmissionLoop, List.range_succ, List.foldl_append]

theorem worstCase_succ (v : List ℚ) (start n : Nat) :
    worstCase v start (n + 1) = worstCase v start n * (1 + 1 / 100) := by
  simp only [worstCase, pow_succ]; ring

theorem bestCase_succ (v : List ℚ) (start n : Nat) :
    bestCase v start (n + 1) = bestCase v start n - 1 / 100 * rd v start := by
  simp only [bestCase]; push_cast; ring

theorem qualUpTo_succ (v : List ℚ) (start n : Nat) :
    qualUpTo v start (n + 1) =
      qualUpTo v start n ++
        (if 5 < n + 1 ∧ bestCase v start (n + 1) < worstCase v start (n + 1) then [n + 1] else []) := by
  simp only [qualUpTo, List.range_succ, List.map_append, List.filter_append, List.map_cons,
    List.map_nil]
  congr 1
  by_cases h : 5 < n + 1 ∧ bestCase v start (n + 1) < worstCase v start (n + 1)
  · simp [List.filter, h]
  · simp [List.filter, h]

/-- Loop invariant of `EmissionIndex`. -/
theorem EmissionLoop_inv (v : List ℚ) (start n : Nat) :
    (EmissionLoop v start n).max = worstCase v start n ∧
    (EmissionLoop v start n).min = bestCase v start n ∧
    (EmissionLoop v start n).sum = ((qualUpTo v start n).map (normPos v start)).sum ∧
    (EmissionLoop v start n).j = (qualUpTo v start n).length := by
  induction n with
  | zero => simp [EmissionLoop, worstCase, bestCase, qualUpTo]
  | succ n ih =>
    obtain ⟨h1, h2, h3, h4⟩ := ih
    rw [EmissionLoop_succ, qualUpTo_succ]
    have hw := worstCase_succ v start n
    have hb := bestCase_succ v start n
    unfold EmissionStep
    simp only [h1, h2, h3, h4, ← hw, ← hb, gt_iff_lt]
    by_cases h : 5 < n + 1 ∧ bestCase v start (n + 1) < worstCase v start (n + 1)
    · simp [h, normPos]
    · simp [h]

theorem j_zero (v : List ℚ) (start n : Nat) (hn : n ≤ 5) : (EmissionLoop v start n).j = 0 := by
  rw [(EmissionLoop_inv v start n).2.2.2]
  simp only [qualUpTo, List.length_eq_zero, List.filter_eq_nil_iff, List.mem_map, List.mem_range]
  rintro a ⟨k, hk, rfl⟩
  simp
  intro h; omega


theorem sum_unit_bounds (l : List ℚ) (h : ∀ x ∈ l, 0 ≤ x ∧ x ≤ 1) :
    0 ≤ l.sum ∧ l.sum ≤ l.length := by
  induction l with
  | nil => simp
  | cons a t ih =>
    have ha := h a (List.mem_cons_self a t)
    have ht := ih (fun x hx => h x (List.mem_cons_of_mem a hx))
    simp only [List.sum_cons, List.length_cons]
    push_cast
    constructor <;> linarith [ha.1, ha.2, ht.1, ht.2]

theorem mem_qualUpTo (v : List ℚ) (start n i : Nat) (hi : i ∈ qualUpTo v start n) :
    5 < i ∧ i ≤ n ∧ bestCase v start i < worstCase v start i := by
  simp only [qualUpTo, List.mem_filter, List.mem_map, List.mem_range, decide_eq_true_eq] at hi
  obtain ⟨⟨k, hk, rfl⟩, h5, hlt⟩ := hi
  exact ⟨h5, by omega, hlt⟩

/-- C6: when the horizon length `SLength[0]` is at most 6, `EmissionIndex`
returns exactly 0, whatever the emission values and the offset are. -/
theorem C6_EmissionIndex_short_horizon (H : Nat) (v : List ℚ) (start : Nat) (hH : H ≤ 6) :
    EmissionIndex H v start = 0 := by
  unfold EmissionIndex
  simp [j_zero v start (H - 1) (by omega)]

theorem C6_EmissionIndex_short_horizon_witness :
    (6 : Nat) ≤ 6 ∧ EmissionIndex 6 [100, 250, 3, 7, 90, 1000] 0 = 0 :=
  ⟨le_refl 6, C6_EmissionIndex_short_horizon 6 [100, 250, 3, 7, 90, 1000] 0 (le_refl 6)⟩

/-- C5: if at least one year qualifies and every actual value `v[start+i]`
with `5 < i < H` lies between the best-case envelope `e0 - 0.01*e0*i` and the
worst-case envelope `e0 * 1.01^i`, then `EmissionIndex` returns the arithmetic
mean of the normalized positions of the qualifying years, and that value lies
in `[0, 1]` (exact arithmetic). -/
theorem C5_EmissionIndex_mean_in_unit_interval (H : Nat) (v : List ℚ) (start : Nat)
    (hq : qualifying H v start ≠ [])
    (henv : ∀ i, 5 < i → i < H →
      bestCase v start i ≤ rd v (start + i) ∧ rd v (start + i) ≤ worstCase v start i) :
    EmissionIndex H v start =
        ((qualifying H v start).map (normPos v start)).sum / ((qualifying H v start).length : ℚ) ∧
      0 ≤ EmissionIndex H v start ∧ EmissionIndex H v start ≤ 1 := by
  obtain ⟨-, -, hs, hj⟩ := EmissionLoop_inv v start (H - 1)
  have hlen : 0 < (qualifying H v start).length := List.length_pos.mpr hq
  have hmean : EmissionIndex H v start =
      ((qualifying H v start).map (normPos v start)).sum / ((qualifying H v start).length : ℚ) := by
    unfold EmissionIndex
    simp only [hs, hj, qualifying_eq]
    rw [if_neg]
    rw [← qualifying_eq]; omega
  have hb := sum_unit_bounds ((qualifying H v start).map (normPos v start)) (by
    intro x hx
    obtain ⟨i, hi, rfl⟩ := List.mem_map.mp hx
    obtain ⟨h5, hle, hlt⟩ := mem_qualUpTo v start (H - 1) i hi
    obtain ⟨e1, e2⟩ := henv i h5 (by omega)
    have hpos : 0 < worstCase v start i - bestCase v start i := by linarith
    unfold normPos
    exact ⟨div_nonneg (by linarith) hpos.le, by rw [div_le_one hpos]; linarith⟩)
  rw [List.length_map] at hb
  have hL : (0 : ℚ) < ((qualifying H v start).length : ℚ) := by exact_mod_cast hlen
  refine ⟨hmean, ?_, ?_⟩
  · rw [hmean]; exact div_nonneg hb.1 hL.le
  · rw [hmean, div_le_one hL]; exact hb.2

theorem C5_EmissionIndex_mean_in_unit_interval_witness :
    qualifying 7 [100, 100, 100, 100, 100, 100, 97] 0 ≠ [] ∧
    0 ≤ EmissionIndex 7 [100, 100, 100, 100, 100, 100, 97] 0 ∧
    EmissionIndex 7 [100, 100, 100, 100, 100, 100, 97] 0 ≤ 1 := by
  have hq : qualifying 7 [100, 100, 100, 100, 100, 100, 97] 0 ≠ [] := by
    have : (6 : Nat) ∈ qualifying 7 [100, 100, 100, 100, 100, 100, 97] 0 := by
      simp only [qualifying, List.mem_filter, List.mem_map, List.mem_range, decide_eq_true_eq]
      refine ⟨⟨5, by norm_num, rfl⟩, by norm_num, ?_⟩
      norm_num [bestCase, worstCase, rd]
    exact List.ne_nil_of_mem this
  refine ⟨hq, (C5_EmissionIndex_mean_in_unit_interval 7 [100, 100, 100, 100, 100, 100, 97] 0 hq ?_).2⟩
  intro i h5 h7
  have hi : i = 6 := by omega
  subst hi
  norm_num [bestCase, worstCase, rd]

/-! ## Generic loop lemmas -/

theorem foldl_inv {α β : Type} (P : α → Prop) (f : α → β → α) (l : List β) (a : α)
    (h0 : P a) (hstep : ∀ x b, P x → P (f x b)) : P (l.foldl f a) := by
  induction l generalizing a with
  | nil => exact h0
  | cons b t ih => exact ih (f a b) (hstep a b h0)

theorem foldl_rel {α β γ : Type} (R : γ → γ → Prop) (proj : α → γ)
    (hrefl : ∀ c, R c c) (htrans : ∀ a b c, R a b → R b c → R a c)
    (f : α → β → α) (l : List β) (a : α)
    (hstep : ∀ x b, R (proj x) (proj (f x b))) : R (proj a) (proj (l.foldl f a)) := by
  induction l generalizing a with
  | nil => exact hrefl _
  | cons b t ih => exact htrans _ _ _ (hstep a b) (ih (f a b))

/-! ## Trace lemmas -/

theorem ExtBy.refl {ok : Effect → Bool} (e : CPLEX) : ExtBy ok e e := ⟨[], by simp, by simp⟩

theorem ExtBy.trans {ok : Effect → Bool} (a b c : CPLEX) (h1 : ExtBy ok a b) (h2 : ExtBy ok b c) :
    ExtBy ok a c := by
  obtain ⟨t1, e1, p1⟩ := h1
  obtain ⟨t2, e2, p2⟩ := h2
  refine ⟨t1 ++ t2, by rw [e2, e1, List.append_assoc], ?_⟩
  intro x hx
  rcases List.mem_append.mp hx with h | h
  · exact p1 x h
  · exact p2 x h

theorem ExtBy.of_trace_eq {ok : Effect → Bool} (a b : CPLEX) (h : b.trace = a.trace) :
    ExtBy ok a b :=
  ⟨[], by simp [h], by simp⟩

theorem ExtBy.foldl {ok : Effect → Bool} {α β : Type} (proj : α → CPLEX) (f : α → β → α)
    (l : List β) (a : α) (hstep : ∀ x b, ExtBy ok (proj x) (proj (f x b))) :
    ExtBy ok (proj a) (proj (l.foldl f a)) :=
  foldl_rel (ExtBy ok) proj ExtBy.refl ExtBy.trans f l a hstep

theorem ExtBy.mono {ok1 ok2 : Effect → Bool} (h : ∀ x, ok1 x = true → ok2 x = true) (a b : CPLEX)
    (hab : ExtBy ok1 a b) : ExtBy ok2 a b := by
  obtain ⟨t, e, p⟩ := hab
  exact ⟨t, e, fun x hx => h x (p x hx)⟩

theorem mild_not_master (x : Effect) (h : mild x = true) : isMasterSolve x = false := by
  cases x with
  | solve ev m st =>
    cases m with
    | zero => cases ev <;> simp [mild] at h
    | succ k => rfl
  | setUB r sl q => rfl
  | dualWrite ev => rfl

theorem masterSolves_of_ext (a b : CPLEX) (h : ExtBy (fun x => !isMasterSolve x) a b) :
    masterSolves b.trace = masterSolves a.trace := by
  obtain ⟨t, e, p⟩ := h
  rw [e, masterSolves, List.countP_append]
  have : List.countP isMasterSolve t = 0 := by
    rw [List.countP_eq_zero]
    intro x hx
    simpa using p x hx
  simp [this, masterSolves]

theorem solve_year_ext (orc : Nat → SolveResult) (k : Nat) (e : CPLEX) :
    ExtBy mild e (solve orc 0 (k + 1) e) :=
  ⟨[Effect.solve 0 (k + 1) (orc e.calls).status], rfl, by simp [mild]⟩

theorem setParams_ext (i : Nat) (p : SolverParams) (e : CPLEX) : ExtBy mild e (setParams i p e) :=
  ExtBy.of_trace_eq _ _ rfl

theorem StoreSolution_ext (g : Globals) (b : Bool) (e : CPLEX) : ExtBy mild e (StoreSolution g b e) := by
  apply ExtBy.of_trace_eq
  unfold StoreSolution
  split <;> rfl

theorem dualAdd_ext (ev : Nat) (x : ℚ) (e : CPLEX) : ExtBy mild e (dualAdd ev x e) :=
  ⟨[Effect.dualWrite ev], rfl, by simp [mild]⟩

theorem dualClear_ext (e : CPLEX) (i : Nat) : ExtBy mild e (dualClear e i) :=
  ⟨[Effect.dualWrite i], rfl, by simp [mild]⟩

theorem CapacityConstraints_ext (g : Globals) (events : Nat → ℚ) (event offset : Nat) (e : CPLEX) :
    ExtBy mild e (CapacityConstraints g events event offset e) := by
  unfold CapacityConstraints
  apply ExtBy.foldl (fun a : CapAcc => a.eng)
  intro x b
  exact ⟨[_], rfl, by simp [mild]⟩

theorem StoreDualSolution_ext (g : Globals) (e : CPLEX) : ExtBy mild e (StoreDualSolution g e) := by
  unfold StoreDualSolution
  have h1 : ExtBy mild e ((List.range g.Nevents).foldl dualClear e) :=
    ExtBy.foldl (fun a : CPLEX => a) _ _ _ (fun x b => dualClear_ext x b)
  refine ExtBy.trans _ _ _ h1 ?_
  simp only
  split
  · exact ExtBy.foldl (fun a : CPLEX => a) _ _ _ (fun x b => dualAdd_ext _ _ x)
  · exact ExtBy.foldl (fun a : DualAcc => a.eng) _ _ _ (fun x b => dualAdd_ext _ _ x.eng)

theorem StoreDualSolutionEvent_ext (g : Globals) (event : Nat) (years : Nat → ℚ) (e : CPLEX) :
    ExtBy mild e (StoreDualSolutionEvent g event years e) := by
  unfold StoreDualSolutionEvent
  apply ExtBy.foldl (fun a : DualAcc => a.eng)
  intro x b
  simp only
  split
  · exact dualAdd_ext _ _ _
  · exact dualAdd_ext _ _ _

theorem yearStep_ext (orc : Nat → SolveResult) (s : LoopState) (k : Nat) :
    ExtBy mild s.eng (yearStep orc s (k + 1)).eng := by
  unfold yearStep
  simp only
  split
  · exact ExtBy.trans _ _ _ (solve_year_ext orc k s.eng)
      (ExtBy.trans _ _ _ (setParams_ext _ _ _) (solve_year_ext orc k _))
  · split
    · exact solve_year_ext orc k s.eng
    · exact solve_year_ext orc k s.eng

theorem applyStep_ext (iter : Nat) (status : Nat → Bool) (expr_cut : Nat → LinExpr) (e : CPLEX)
    (j : Nat) : ExtBy mild e (applyStep iter status expr_cut e j) := by
  apply ExtBy.of_trace_eq
  unfold applyStep
  simp only
  split <;> split <;> rfl

/-! ## Frame lemmas of the engine methods -/

theorem CapacityConstraints_frame (g : Globals) (events : Nat → ℚ) (event offset : Nat) (e : CPLEX) :
    (CapacityConstraints g events event offset e).cplex = e.cplex ∧
    (CapacityConstraints g events event offset e).solution = e.solution ∧
    (CapacityConstraints g events event offset e).dualsolution = e.dualsolution := by
  unfold CapacityConstraints
  apply foldl_inv (fun a : CapAcc =>
    a.eng.cplex = e.cplex ∧ a.eng.solution = e.solution ∧ a.eng.dualsolution = e.dualsolution)
  · exact ⟨rfl, rfl, rfl⟩
  · intro x b h
    exact h

theorem dualAdd_frame (ev : Nat) (x : ℚ) (e : CPLEX) :
    (dualAdd ev x e).cplex = e.cplex ∧ (dualAdd ev x e).solution = e.solution ∧
    (dualAdd ev x e).CapCuts = e.CapCuts := ⟨rfl, rfl, rfl⟩

theorem StoreDualSolution_frame (g : Globals) (e : CPLEX) :
    (StoreDualSolution g e).cplex = e.cplex ∧ (StoreDualSolution g e).solution = e.solution ∧
    (StoreDualSolution g e).CapCuts = e.CapCuts := by
  unfold StoreDualSolution
  have h1 : ((List.range g.Nevents).foldl dualClear e).cplex = e.cplex ∧
      ((List.range g.Nevents).foldl dualClear e).solution = e.solution ∧
      ((List.range g.Nevents).foldl dualClear e).CapCuts = e.CapCuts :=
    foldl_inv (fun a : CPLEX => a.cplex = e.cplex ∧ a.solution = e.solution ∧
      a.CapCuts = e.CapCuts) _ _ _ ⟨rfl, rfl, rfl⟩ (fun x b h => h)
  simp only
  split
  · exact foldl_inv (fun a : CPLEX => a.cplex = e.cplex ∧ a.solution = e.solution ∧
      a.CapCuts = e.CapCuts) _ _ _ h1 (fun x b h => h)
  · exact foldl_inv (fun a : DualAcc => a.eng.cplex = e.cplex ∧ a.eng.solution = e.solution ∧
      a.eng.CapCuts = e.CapCuts) _ _ _ h1 (fun x b h => h)

theorem StoreSolution_cplex (g : Globals) (b : Bool) (e : CPLEX) :
    (StoreSolution g b e).cplex = e.cplex := by
  unfold StoreSolution
  split <;> rfl

theorem StoreSolution_master (g : Globals) (e : CPLEX) :
    (StoreSolution g true e).solution = (e.cplex 0).values := by
  simp [StoreSolution]

theorem applyStep_frame (iter : Nat) (status : Nat → Bool) (expr_cut : Nat → LinExpr) (e : CPLEX)
    (j : Nat) :
    (applyStep iter status expr_cut e j).cplex = e.cplex ∧
    (applyStep iter status expr_cut e j).solution = e.solution := by
  unfold applyStep
  simp only
  split <;> split <;> exact ⟨rfl, rfl⟩

/-- What the loop over the years leaves untouched. -/
theorem yearStep_frame (orc : Nat → SolveResult) (s : LoopState) (k : Nat) :
    (yearStep orc s (k + 1)).iter = s.iter ∧
    (yearStep orc s (k + 1)).broke = s.broke ∧
    (yearStep orc s (k + 1)).eng.cplex 0 = s.eng.cplex 0 ∧
    (yearStep orc s (k + 1)).eng.solution = s.eng.solution := by
  unfold yearStep
  simp only
  split
  · simp [solve, setParams]
  · split <;> simp [solve]

/-- The cut counters never decrease in the loop over the years. -/
theorem yearStep_mono (orc : Nat → SolveResult) (s : LoopState) (j : Nat) :
    s.OptCuts + s.FeasCuts ≤ (yearStep orc s j).OptCuts + (yearStep orc s j).FeasCuts := by
  unfold yearStep
  simp only
  split
  · simp
  · split
    · simp only; omega
    · simp

/-- A pass for year `k+1` that raises no counter solved the year to
optimality with an objective the estimate `solution[k]` covers; the other
models keep their state. -/
theorem yearStep_nocut (orc : Nat → SolveResult) (s : LoopState) (k : Nat)
    (h : (yearStep orc s (k + 1)).OptCuts + (yearStep orc s (k + 1)).FeasCuts = 0) :
    s.OptCuts + s.FeasCuts = 0 ∧
    ((yearStep orc s (k + 1)).eng.cplex (k + 1)).status = Status.optimal ∧
    ((yearStep orc s (k + 1)).eng.cplex (k + 1)).objval * (999 / 1000) < rd s.eng.solution k ∧
    (yearStep orc s (k + 1)).eng.cplex (k + 1) = orc s.eng.calls ∧
    ∀ i, i ≠ k + 1 → (yearStep orc s (k + 1)).eng.cplex i = s.eng.cplex i := by
  have hm := yearStep_mono orc s (k + 1)
  refine ⟨by omega, ?_⟩
  revert h
  unfold yearStep
  simp only
  split
  · intro h; simp at h
  · rename_i hopt
    split
    · intro h; simp only at h; omega
    · rename_i hle
      intro _
      simp only [Nat.add_sub_cancel, not_le] at hle
      refine ⟨by simpa using hopt, ?_, ?_, ?_⟩
      · simpa [solve] using hle
      · simp [solve]
      · intro i hi
        simp [solve, Function.update_noteq hi]

/-! ## The loop over the years -/

theorem yearLoop_succ (orc : Nat → SolveResult) (s : LoopState) (n : Nat) :
    (List.range (n + 1)).foldl (fun a k => yearStep orc a (k + 1)) s =
      yearStep orc ((List.range n).foldl (fun a k => yearStep orc a (k + 1)) s) (n + 1) := by
  simp [List.range_succ, List.foldl_append]

theorem yearLoop_frame (orc : Nat → SolveResult) (s : LoopState) (n : Nat) :
    ((List.range n).foldl (fun a k => yearStep orc a (k + 1)) s).iter = s.iter ∧
    ((List.range n).foldl (fun a k => yearStep orc a (k + 1)) s).broke = s.broke ∧
    ((List.range n).foldl (fun a k => yearStep orc a (k + 1)) s).eng.cplex 0 = s.eng.cplex 0 ∧
    ((List.range n).foldl (fun a k => yearStep orc a (k + 1)) s).eng.solution = s.eng.solution := by
  apply foldl_inv (fun a : LoopState => a.iter = s.iter ∧ a.broke = s.broke ∧
    a.eng.cplex 0 = s.eng.cplex 0 ∧ a.eng.solution = s.eng.solution)
  · exact ⟨rfl, rfl, rfl, rfl⟩
  · intro x b ⟨h1, h2, h3, h4⟩
    obtain ⟨f1, f2, f3, f4⟩ := yearStep_frame orc x b
    exact ⟨f1.trans h1, f2.trans h2, f3.trans h3, f4.trans h4⟩

theorem yearLoop_ext (orc : Nat → SolveResult) (s : LoopState) (n : Nat) :
    ExtBy mild s.eng ((List.range n).foldl (fun a k => yearStep orc a (k + 1)) s).eng :=
  ExtBy.foldl (fun a : LoopState => a.eng) _ _ _ (fun x b => yearStep_ext orc x b)

/-- If the loop over the years `1 .. n` ends with both counters at zero, every
year was solved to optimality and its objective is covered by the estimate. -/
theorem yearLoop_nocut (orc : Nat → SolveResult) (s : LoopState) (n : Nat)
    (h : ((List.range n).foldl (fun a k => yearStep orc a (k + 1)) s).OptCuts +
      ((List.range n).foldl (fun a k => yearStep orc a (k + 1)) s).FeasCuts = 0) :
    ∀ k, k < n →
      (((List.range n).foldl (fun a k => yearStep orc a (k + 1)) s).eng.cplex (k + 1)).status =
        Status.optimal ∧
      (((List.range n).foldl (fun a k => yearStep orc a (k + 1)) s).eng.cplex (k + 1)).objval *
        (999 / 1000) < rd s.eng.solution k ∧
      ∃ m, ((List.range n).foldl (fun a k => yearStep orc a (k + 1)) s).eng.cplex (k + 1) = orc m := by
  induction n with
  | zero => intro k hk; omega
  | succ n ih =>
    rw [yearLoop_succ] at h ⊢
    obtain ⟨h0, hst, hobj, hans, hfr⟩ := yearStep_nocut orc _ n h
    have hsol := (yearLoop_frame orc s n).2.2.2
    intro k hk
    by_cases hkn : k = n
    · subst hkn
      exact ⟨hst, by rw [← hsol]; exact hobj, _, hans⟩
    · rw [hfr (k + 1) (by omega)]
      exact ih h0 k (by omega)

/-! ## One iteration of the decomposition loop -/

theorem BendersIter_iter (g : Globals) (orc : Nat → SolveResult) (events : Nat → ℚ) (s : LoopState) :
    (BendersIter g orc events s).iter = s.iter + 1 := by
  unfold BendersIter
  simp only
  split
  · rfl
  · split
    · exact (yearLoop_frame orc _ g.nyears).1
    · exact (yearLoop_frame orc _ g.nyears).1

/-- An iteration whose master solve fails: the loop is left at once, and the
only effect of the iteration is that solve. -/
theorem BendersIter_failed (g : Globals) (orc : Nat → SolveResult) (events : Nat → ℚ)
    (s : LoopState) (h : (orc s.eng.calls).solved = false) :
    (BendersIter g orc events s).broke = true ∧
    (BendersIter g orc events s).eng.cplex 0 = orc s.eng.calls ∧
    (BendersIter g orc events s).eng.trace =
      s.eng.trace ++ [Effect.solve 0 0 (orc s.eng.calls).status] := by
  unfold BendersIter
  simp [solve, h]

/-- An iteration whose master solve succeeds. -/
theorem BendersIter_solved (g : Globals) (orc : Nat → SolveResult) (events : Nat → ℚ)
    (s : LoopState) (h : (orc s.eng.calls).solved = true) :
    (BendersIter g orc events s).broke = s.broke ∧
    (BendersIter g orc events s).eng.cplex 0 = orc s.eng.calls ∧
    (∃ t, (BendersIter g orc events s).eng.trace =
        s.eng.trace ++ Effect.solve 0 0 (orc s.eng.calls).status :: t ∧
        ∀ x ∈ t, mild x = true) ∧
    ((BendersIter g orc events s).OptCuts + (BendersIter g orc events s).FeasCuts > 0 →
      (BendersIter g orc events s).eng.solution = (orc s.eng.calls).values) ∧
    ((BendersIter g orc events s).OptCuts + (BendersIter g orc events s).FeasCuts = 0 →
      ∀ k, k < g.nyears →
        ((BendersIter g orc events s).eng.cplex (k + 1)).status = Status.optimal ∧
        ((BendersIter g orc events s).eng.cplex (k + 1)).objval * (999 / 1000) <
          rd (orc s.eng.calls).values k ∧
        ∃ m, (BendersIter g orc events s).eng.cplex (k + 1) = orc m) := by
  -- the state in which the loop over the years starts
  let e1 := solve orc 0 0 s.eng
  let e3 := CapacityConstraints g events 0 g.nyears (StoreSolution g true e1)
  let st : LoopState := { s with iter := s.iter + 1, OptCuts := 0, FeasCuts := 0, eng := e3 }
  have he1 : e1.cplex 0 = orc s.eng.calls := by simp [e1, solve]
  have he3c : e3.cplex = e1.cplex :=
    (CapacityConstraints_frame g events 0 g.nyears _).1.trans (StoreSolution_cplex g true e1)
  have he3s : e3.solution = (orc s.eng.calls).values := by
    rw [(CapacityConstraints_frame g events 0 g.nyears _).2.1, StoreSolution_master, he1]
  have hext13 : ExtBy mild e1 e3 :=
    ExtBy.trans _ _ _ (StoreSolution_ext g true e1) (CapacityConstraints_ext g events 0 g.nyears _)
  obtain ⟨-, fbroke, fc0, fsol⟩ := yearLoop_frame orc st g.nyears
  have hextY := yearLoop_ext orc st g.nyears
  have hnocut := yearLoop_nocut orc st g.nyears
  -- abbreviations
  generalize hs1 : (List.range g.nyears).foldl (fun a k => yearStep orc a (k + 1)) st = s1
    at fbroke fc0 fsol hextY hnocut
  have hsolved : (!(e1.cplex 0).solved) = false := by rw [he1, h]; rfl
  have key : BendersIter g orc events s =
      if s1.OptCuts + s1.FeasCuts > 0 then
        { s1 with
          eng := (List.range g.nyears).foldl
            (fun e k => applyStep s1.iter s1.status
              ((List.range g.IdxCap.GetSize).foldl (finalizeStep g s1)
                ⟨s1.expr_cut, fun _ => 0⟩).expr_cut e (k + 1)) s1.eng
          expr_cut := ((List.range g.IdxCap.GetSize).foldl (finalizeStep g s1)
                ⟨s1.expr_cut, fun _ => 0⟩).expr_cut }
      else { s1 with eng := StoreDualSolution g (StoreSolution g false s1.eng) } := by
    unfold BendersIter
    simp only [hsolved, Bool.false_eq_true, if_false]
    rw [← hs1]
  have htr1 : ∃ t, s1.eng.trace = s.eng.trace ++ Effect.solve 0 0 (orc s.eng.calls).status :: t ∧
      ∀ x ∈ t, mild x = true := by
    obtain ⟨t, ht, hp⟩ := ExtBy.trans _ _ _ hext13 hextY
    refine ⟨t, ?_, hp⟩
    rw [ht]
    simp [e1, solve]
  have extend : ∀ e' : CPLEX, ExtBy mild s1.eng e' →
      ∃ t, e'.trace = s.eng.trace ++ Effect.solve 0 0 (orc s.eng.calls).status :: t ∧
      ∀ x ∈ t, mild x = true := by
    intro e' ⟨t2, ht2, hp2⟩
    obtain ⟨t, ht, hp⟩ := htr1
    refine ⟨t ++ t2, by rw [ht2, ht]; simp, ?_⟩
    intro x hx
    rcases List.mem_append.mp hx with hx | hx
    · exact hp x hx
    · exact hp2 x hx
  rw [key]
  by_cases hc : s1.OptCuts + s1.FeasCuts > 0
  · simp only [hc, if_true]
    have happ : ∀ (ec : Nat → LinExpr),
        ((List.range g.nyears).foldl (fun e k => applyStep s1.iter s1.status ec e (k + 1))
          s1.eng).cplex = s1.eng.cplex ∧
        ((List.range g.nyears).foldl (fun e k => applyStep s1.iter s1.status ec e (k + 1))
          s1.eng).solution = s1.eng.solution := by
      intro ec
      apply foldl_inv (fun a : CPLEX => a.cplex = s1.eng.cplex ∧ a.solution = s1.eng.solution)
      · exact ⟨rfl, rfl⟩
      · intro x b ⟨h1, h2⟩
        obtain ⟨f1, f2⟩ := applyStep_frame s1.iter s1.status ec x (b + 1)
        exact ⟨f1.trans h1, f2.trans h2⟩
    refine ⟨fbroke, ?_, ?_, ?_, ?_⟩
    · rw [(happ _).1, fc0]; show e3.cplex 0 = _; rw [he3c, he1]
    · apply extend
      exact ExtBy.foldl (fun a : CPLEX => a) _ _ _ (fun x b => applyStep_ext _ _ _ x (b + 1))
    · intro _
      rw [(happ _).2, fsol]; exact he3s
    · intro h0; omega
  · simp only [hc, if_false]
    have hfr := StoreDualSolution_frame g (StoreSolution g false s1.eng)
    have hcp : (StoreDualSolution g (StoreSolution g false s1.eng)).cplex = s1.eng.cplex :=
      hfr.1.trans (StoreSolution_cplex g false s1.eng)
    refine ⟨fbroke, ?_, ?_, ?_, ?_⟩
    · rw [hcp, fc0]; show e3.cplex 0 = _; rw [he3c, he1]
    · apply extend
      exact ExtBy.trans _ _ _ (StoreSolution_ext g false s1.eng) (StoreDualSolution_ext g _)
    · intro h0; exact h0.elim
    · intro _ k hk
      rw [hcp]
      have := hnocut (by omega) k hk
      rw [show st.eng.solution = (orc s.eng.calls).values from he3s] at this
      exact this

/-! ## The `while` loop -/

theorem BendersWhile_succ (g : Globals) (orc : Nat → SolveResult) (events : Nat → ℚ) (fuel : Nat)
    (s : LoopState) :
    BendersWhile g orc events (fuel + 1) s =
      if s.OptCuts + s.FeasCuts > 0 ∧ s.iter ≤ 1000 then
        if (BendersIter g orc events s).broke then BendersIter g orc events s
        else BendersWhile g orc events fuel (BendersIter g orc events s)
      else s := rfl

theorem BendersWhile_stop (g : Globals) (orc : Nat → SolveResult) (events : Nat → ℚ) (fuel : Nat)
    (s : LoopState) (h : ¬(s.OptCuts + s.FeasCuts > 0 ∧ s.iter ≤ 1000)) :
    BendersWhile g orc events fuel s = s := by
  cases fuel with
  | zero => rfl
  | succ n => rw [BendersWhile_succ, if_neg h]

theorem countP_master_nil (t : List Effect) (h : ∀ x ∈ t, mild x = true) :
    List.countP isMasterSolve t = 0 := by
  rw [List.countP_eq_zero]
  intro x hx
  simp [mild_not_master x (h x hx)]

theorem BendersIter_masterSolves (g : Globals) (orc : Nat → SolveResult) (events : Nat → ℚ)
    (s : LoopState) :
    masterSolves (BendersIter g orc events s).eng.trace = masterSolves s.eng.trace + 1 := by
  cases h : (orc s.eng.calls).solved with
  | false =>
    rw [(BendersIter_failed g orc events s h).2.2]
    simp [masterSolves, List.countP_append, isMasterSolve]
  | true =>
    obtain ⟨t, ht, hp⟩ := (BendersIter_solved g orc events s h).2.2.1
    rw [ht]
    simp [masterSolves, List.countP_append, List.countP_cons, isMasterSolve,
      countP_master_nil t hp]

/-- Iteration count of the loop: it only grows, never passes 1001 when it
starts at most there, every iteration solves the master exactly once, and
with `1001 - iter` units of fuel the loop ends by `break` or because its
condition fails (the fuel is not what stops it). -/
theorem BendersWhile_count (g : Globals) (orc : Nat → SolveResult) (events : Nat → ℚ) (fuel : Nat)
    (s : LoopState) :
    s.iter ≤ (BendersWhile g orc events fuel s).iter ∧
    (s.iter ≤ 1001 → (BendersWhile g orc events fuel s).iter ≤ 1001) ∧
    masterSolves (BendersWhile g orc events fuel s).eng.trace =
      masterSolves s.eng.trace + ((BendersWhile g orc events fuel s).iter - s.iter) ∧
    (1001 ≤ fuel + s.iter → s.broke = false →
      ((BendersWhile g orc events fuel s).broke = true ∨
        ¬((BendersWhile g orc events fuel s).OptCuts + (BendersWhile g orc events fuel s).FeasCuts > 0
          ∧ (BendersWhile g orc events fuel s).iter ≤ 1000))) := by
  induction fuel generalizing s with
  | zero =>
    refine ⟨le_refl _, fun h => h, by simp [BendersWhile], ?_⟩
    intro h _
    right
    simp only [BendersWhile]
    omega
  | succ n ih =>
    rw [BendersWhile_succ]
    by_cases hc : s.OptCuts + s.FeasCuts > 0 ∧ s.iter ≤ 1000
    · rw [if_pos hc]
      have hi := BendersIter_iter g orc events s
      have hm := BendersIter_masterSolves g orc events s
      by_cases hb : (BendersIter g orc events s).broke = true
      · rw [if_pos hb]
        refine ⟨by omega, fun _ => by omega, by rw [hm, hi]; omega, fun _ _ => Or.inl hb⟩
      · rw [if_neg hb]
        obtain ⟨i1, i2, i3, i4⟩ := ih (BendersIter g orc events s)
        refine ⟨by omega, fun _ => i2 (by omega), by rw [i3, hm]; omega, ?_⟩
        intro hf _
        exact i4 (by omega) (by simpa using hb)
    · rw [if_neg hc]
      exact ⟨le_refl _, fun h => h, by simp, fun _ _ => Or.inr hc⟩

/-- More fuel than `1001 - iter` does not change the result of the loop. -/
theorem BendersWhile_fuel (g : Globals) (orc : Nat → SolveResult) (events : Nat → ℚ)
    (fuel1 fuel2 : Nat) (s : LoopState) (h1 : 1001 ≤ fuel1 + s.iter) (h2 : 1001 ≤ fuel2 + s.iter) :
    BendersWhile g orc events fuel1 s = BendersWhile g orc events fuel2 s := by
  induction fuel1 generalizing s fuel2 with
  | zero =>
    rw [BendersWhile_stop g orc events 0 s (by omega), BendersWhile_stop g orc events fuel2 s (by omega)]
  | succ n ih =>
    by_cases hc : s.OptCuts + s.FeasCuts > 0 ∧ s.iter ≤ 1000
    · cases fuel2 with
      | zero => omega
      | succ m =>
        rw [BendersWhile_succ, BendersWhile_succ, if_pos hc, if_pos hc]
        by_cases hb : (BendersIter g orc events s).broke = true
        · rw [if_pos hb, if_pos hb]
        · rw [if_neg hb, if_neg hb]
          have hi := BendersIter_iter g orc events s
          exact ih m _ (by omega) (by omega)
    · rw [BendersWhile_stop g orc events _ s hc, BendersWhile_stop g orc events _ s hc]

/-- A loop that ends with both counters at zero without `break` ended in an
iteration that solved every year to optimality, each objective covered by the
master estimate of that iteration. -/
theorem BendersWhile_converged (g : Globals) (orc : Nat → SolveResult) (events : Nat → ℚ)
    (fuel : Nat) (s : LoopState) (hs : s.OptCuts + s.FeasCuts > 0) (hsb : s.broke = false)
    (hb : (BendersWhile g orc events fuel s).broke = false)
    (h0 : (BendersWhile g orc events fuel s).OptCuts + (BendersWhile g orc events fuel s).FeasCuts = 0) :
    ∀ k, k < g.nyears →
      ((BendersWhile g orc events fuel s).eng.cplex (k + 1)).status = Status.optimal ∧
      ((BendersWhile g orc events fuel s).eng.cplex (k + 1)).objval * (999 / 1000) <
        rd ((BendersWhile g orc events fuel s).eng.cplex 0).values k := by
  induction fuel generalizing s with
  | zero => simp only [BendersWhile] at h0; omega
  | succ n ih =>
    rw [BendersWhile_succ] at hb h0 ⊢
    by_cases hc : s.OptCuts + s.FeasCuts > 0 ∧ s.iter ≤ 1000
    · rw [if_pos hc] at hb h0 ⊢
      by_cases hbr : (BendersIter g orc events s).broke = true
      · rw [if_pos hbr] at hb
        rw [hbr] at hb; exact absurd hb (by simp)
      · rw [if_neg hbr] at hb h0 ⊢
        have hsolved : (orc s.eng.calls).solved = true := by
          cases hq : (orc s.eng.calls).solved with
          | true => rfl
          | false => exact absurd (BendersIter_failed g orc events s hq).1 hbr
        obtain ⟨q1, q2, -, -, q5⟩ := BendersIter_solved g orc events s hsolved
        by_cases hcut : (BendersIter g orc events s).OptCuts + (BendersIter g orc events s).FeasCuts > 0
        · exact ih _ hcut (by simpa using hbr) hb h0
        · have hstop := BendersWhile_stop g orc events n (BendersIter g orc events s)
            (fun hx => hcut hx.1)
          rw [hstop]
          intro k hk
          have := q5 (by omega) k hk
          rw [q2]
          exact ⟨this.1, this.2.1⟩
    · rw [if_neg hc] at h0; omega

/-- A loop that ends with a positive counter without `break` leaves in
`solution` the master-only copy made by `StoreSolution(true)`. -/
theorem BendersWhile_capped (g : Globals) (orc : Nat → SolveResult) (events : Nat → ℚ)
    (fuel : Nat) (s : LoopState) (hsb : s.broke = false)
    (hb : (BendersWhile g orc events fuel s).broke = false)
    (h0 : (BendersWhile g orc events fuel s).OptCuts + (BendersWhile g orc events fuel s).FeasCuts > 0)
    (hne : (BendersWhile g orc events fuel s).iter ≠ s.iter) :
    (BendersWhile g orc events fuel s).eng.solution =
      ((BendersWhile g orc events fuel s).eng.cplex 0).values := by
  induction fuel generalizing s with
  | zero => simp [BendersWhile] at hne
  | succ n ih =>
    rw [BendersWhile_succ] at hb h0 hne ⊢
    by_cases hc : s.OptCuts + s.FeasCuts > 0 ∧ s.iter ≤ 1000
    · rw [if_pos hc] at hb h0 hne ⊢
      by_cases hbr : (BendersIter g orc events s).broke = true
      · rw [if_pos hbr] at hb
        rw [hbr] at hb; exact absurd hb (by simp)
      · rw [if_neg hbr] at hb h0 hne ⊢
        have hsolved : (orc s.eng.calls).solved = true := by
          cases hq : (orc s.eng.calls).solved with
          | true => rfl
          | false => exact absurd (BendersIter_failed g orc events s hq).1 hbr
        obtain ⟨q1, q2, -, q4, -⟩ := BendersIter_solved g orc events s hsolved
        by_cases hstep : (BendersWhile g orc events n (BendersIter g orc events s)).iter =
            (BendersIter g orc events s).iter
        · -- no further iteration ran: the loop stopped at this state
          by_cases hc1 : (BendersIter g orc events s).OptCuts + (BendersIter g orc events s).FeasCuts > 0
              ∧ (BendersIter g orc events s).iter ≤ 1000
          · cases n with
            | zero =>
              simp only [BendersWhile] at h0 ⊢
              rw [q4 h0, q2]
            | succ m =>
              exfalso
              rw [BendersWhile_succ, if_pos hc1] at hstep
              have hi2 := BendersIter_iter g orc events (BendersIter g orc events s)
              by_cases hb2 : (BendersIter g orc events (BendersIter g orc events s)).broke = true
              · rw [if_pos hb2] at hstep; omega
              · rw [if_neg hb2] at hstep
                have := (BendersWhile_count g orc events m
                  (BendersIter g orc events (BendersIter g orc events s))).1
                omega
          · rw [BendersWhile_stop g orc events n _ hc1] at h0 ⊢
            rw [q4 h0, q2]
        · exact ih _ (by simpa using hbr) hb h0 hstep
    · rw [if_neg hc] at hne; exact absurd rfl hne

/-! ## Trace of the whole loop -/

theorem mild_calm (x : Effect) (h : mild x = true) : calm x = true := by
  cases x with
  | solve ev m st =>
    cases m with
    | zero => cases ev <;> simp [mild] at h
    | succ k => cases ev <;> simpa [calm] using h
  | setUB r sl q => rfl
  | dualWrite ev => rfl

theorem calm_not_failed (x : Effect) (h : calm x = true) (ev : Nat) :
    x ≠ Effect.solve ev 0 Status.infeasible := by
  rintro rfl
  cases ev <;> simp [calm, mild] at h

theorem calm_not_eventFailure (x : Effect) (h : calm x = true) : isEventFailure x = false := by
  cases x with
  | solve ev m st =>
    cases ev with
    | zero => rfl
    | succ n => cases m <;> simp [calm, mild] at h
  | setUB r sl q => rfl
  | dualWrite ev => rfl

theorem solved_false_iff (r : SolveResult) : r.solved = false ↔ r.status = Status.infeasible := by
  simp [SolveResult.solved]

theorem BendersIter_calm (g : Globals) (orc : Nat → SolveResult) (events : Nat → ℚ)
    (s : LoopState) (h : (orc s.eng.calls).solved = true) :
    ExtBy calm s.eng (BendersIter g orc events s).eng := by
  obtain ⟨t, ht, hp⟩ := (BendersIter_solved g orc events s h).2.2.1
  refine ⟨_ :: t, ht, ?_⟩
  intro x hx
  rcases List.mem_cons.mp hx with rfl | hx
  · have : (orc s.eng.calls).status ≠ Status.infeasible := by
      simpa [SolveResult.solved] using h
    simp [calm, this]
  · exact mild_calm x (hp x hx)

/-- Trace of the loop: calm effects only, followed by the failed master solve
when the loop is left through `break`. -/
theorem BendersWhile_trace (g : Globals) (orc : Nat → SolveResult) (events : Nat → ℚ) (fuel : Nat)
    (s : LoopState) (hsb : s.broke = false) :
    ((BendersWhile g orc events fuel s).broke = false →
      ExtBy calm s.eng (BendersWhile g orc events fuel s).eng) ∧
    ((BendersWhile g orc events fuel s).broke = true →
      ((BendersWhile g orc events fuel s).eng.cplex 0).status = Status.infeasible ∧
      (BendersWhile g orc events fuel s).OptCuts = 0 ∧
      (BendersWhile g orc events fuel s).FeasCuts = 0 ∧
      ∃ t, (BendersWhile g orc events fuel s).eng.trace =
          s.eng.trace ++ t ++ [Effect.solve 0 0 Status.infeasible] ∧
        ∀ x ∈ t, calm x = true) := by
  induction fuel generalizing s with
  | zero =>
    simp only [BendersWhile]
    exact ⟨fun _ => ExtBy.refl _, fun h => by rw [hsb] at h; exact absurd h (by simp)⟩
  | succ n ih =>
    rw [BendersWhile_succ]
    by_cases hc : s.OptCuts + s.FeasCuts > 0 ∧ s.iter ≤ 1000
    · rw [if_pos hc]
      cases hq : (orc s.eng.calls).solved with
      | false =>
        obtain ⟨f1, f2, f3⟩ := BendersIter_failed g orc events s hq
        rw [if_pos f1]
        have hst : (orc s.eng.calls).status = Status.infeasible := (solved_false_iff _).mp hq
        refine ⟨fun h => by rw [f1] at h; exact absurd h (by simp), fun _ => ⟨?_, ?_, ?_, ?_⟩⟩
        · rw [f2, hst]
        · unfold BendersIter; simp [solve, hq]
        · unfold BendersIter; simp [solve, hq]
        · exact ⟨[], by rw [f3, hst]; simp, by simp⟩
      | true =>
        obtain ⟨q1, -, -, -, -⟩ := BendersIter_solved g orc events s hq
        have hnb : (BendersIter g orc events s).broke = false := by rw [q1, hsb]
        rw [if_neg (by rw [hnb]; simp)]
        obtain ⟨i1, i2⟩ := ih (BendersIter g orc events s) hnb
        have hcalm := BendersIter_calm g orc events s hq
        refine ⟨fun h => ExtBy.trans _ _ _ hcalm (i1 h), fun h => ?_⟩
        obtain ⟨j1, j2, j3, t, ht, hp⟩ := i2 h
        obtain ⟨t0, ht0, hp0⟩ := hcalm
        refine ⟨j1, j2, j3, t0 ++ t, by rw [ht, ht0]; simp, ?_⟩
        intro x hx
        rcases List.mem_append.mp hx with hx | hx
        · exact hp0 x hx
        · exact hp x hx
    · rw [if_neg hc]
      exact ⟨fun _ => ExtBy.refl _, fun h => by rw [hsb] at h; exact absurd h (by simp)⟩

/-! ## The resiliency block -/

theorem mild_resilWork (x : Effect) (h : mild x = true) : isResilWork x = true := by
  cases x with
  | solve ev m st =>
    cases m with
    | zero => cases ev <;> simp [mild] at h
    | succ k => rfl
  | setUB r sl q => rfl
  | dualWrite ev => rfl

theorem resilWork_not_master (x : Effect) (h : isResilWork x = true) : isMasterSolve x = false := by
  cases x with
  | solve ev m st =>
    cases m with
    | zero => simp [isResilWork] at h
    | succ k => rfl
  | setUB r sl q => rfl
  | dualWrite ev => rfl

theorem ResilInv.start (e : CPLEX) : ResilInv e.trace e true :=
  ⟨[], by simp, by simp, by simp⟩

theorem ResilInv.mild_ext (base : List Effect) (e1 e2 : CPLEX) (flag : Bool)
    (h : ResilInv base e1 flag) (hx : ExtBy mild e1 e2) : ResilInv base e2 flag := by
  obtain ⟨t, ht, hw, hf⟩ := h
  obtain ⟨t2, ht2, hp2⟩ := hx
  refine ⟨t ++ t2, by rw [ht2, ht, List.append_assoc], ?_, ?_⟩
  · intro x hx
    rcases List.mem_append.mp hx with hx | hx
    · exact hw x hx
    · exact mild_resilWork x (hp2 x hx)
  · rw [hf]
    constructor
    · intro h x hx
      rcases List.mem_append.mp hx with hx | hx
      · exact h x hx
      · exact calm_not_eventFailure x (mild_calm x (hp2 x hx))
    · intro h x hx
      exact h x (List.mem_append.mpr (Or.inl hx))

theorem resilBaseStep_inv (g : Globals) (orc : Nat → SolveResult) (events : Nat → ℚ)
    (base : List Effect) (r : ResilState) (k : Nat) (h : ResilInv base r.eng r.ResilOptimal) :
    ResilInv base (resilBaseStep g orc events r (k + 1)).eng
      (resilBaseStep g orc events r (k + 1)).ResilOptimal := by
  unfold resilBaseStep
  simp only
  split
  · simp only
    split
    · exact ResilInv.mild_ext _ _ _ _ h
        (ExtBy.trans _ _ _ (CapacityConstraints_ext g events 0 0 r.eng) (solve_year_ext orc k _))
    · exact h
  · exact h

theorem eventYearStep_inv (g : Globals) (orc : Nat → SolveResult) (events : Nat → ℚ)
    (base : List Effect) (ev : Nat) (a : EventState) (k : Nat)
    (h : ResilInv base a.rs.eng a.rs.ResilOptimal) :
    ResilInv base (eventYearStep g orc events (ev + 1) a (k + 1)).rs.eng
      (eventYearStep g orc events (ev + 1) a (k + 1)).rs.ResilOptimal := by
  unfold eventYearStep
  simp only
  split
  · exact h
  · split
    · obtain ⟨t, ht, hw, hf⟩ := h
      split
      · rename_i hst
        refine ⟨t ++ [Effect.solve (ev + 1) (k + 1) (orc a.rs.eng.calls).status],
          by simp [solve, ht], ?_, ?_⟩
        · intro x hx
          rcases List.mem_append.mp hx with hx | hx
          · exact hw x hx
          · rw [List.mem_singleton.mp hx]; rfl
        · simp only [Bool.false_eq_true, false_iff, not_forall]
          refine ⟨Effect.solve (ev + 1) (k + 1) (orc a.rs.eng.calls).status, by simp, ?_⟩
          simpa [isEventFailure, solve] using hst
      · rename_i hst
        refine ⟨t ++ [Effect.solve (ev + 1) (k + 1) (orc a.rs.eng.calls).status],
          by simp [solve, ht], ?_, ?_⟩
        · intro x hx
          rcases List.mem_append.mp hx with hx | hx
          · exact hw x hx
          · rw [List.mem_singleton.mp hx]; rfl
        · simp only
          rw [hf]
          have hok : isEventFailure (Effect.solve (ev + 1) (k + 1) (orc a.rs.eng.calls).status)
              = false := by
            simpa [isEventFailure, solve] using hst
          constructor
          · intro h x hx
            rcases List.mem_append.mp hx with hx | hx
            · exact h x hx
            · rw [List.mem_singleton.mp hx]; exact hok
          · intro h x hx
            exact h x (List.mem_append.mpr (Or.inl hx))
    · exact h

theorem eventStep_inv (g : Globals) (orc : Nat → SolveResult) (events : Nat → ℚ)
    (base : List Effect) (r : ResilState) (ev : Nat) (h : ResilInv base r.eng r.ResilOptimal) :
    ResilInv base (eventStep g orc events r (ev + 1)).eng
      (eventStep g orc events r (ev + 1)).ResilOptimal := by
  unfold eventStep
  simp only
  have h1 : ResilInv base (CapacityConstraints g events (ev + 1) 0 r.eng) r.ResilOptimal :=
    ResilInv.mild_ext _ _ _ _ h (CapacityConstraints_ext g events (ev + 1) 0 r.eng)
  have h2 := foldl_inv (fun a : EventState => ResilInv base a.rs.eng a.rs.ResilOptimal)
    (fun a k => eventYearStep g orc events (ev + 1) a (k + 1)) (List.range g.nyears)
    ⟨{ r with eng := CapacityConstraints g events (ev + 1) 0 r.eng }, true, fun _ => 0⟩ h1
    (fun x b hx => eventYearStep_inv g orc events base ev x b hx)
  split
  · exact ResilInv.mild_ext _ _ _ _ h2 (StoreDualSolutionEvent_ext g _ _ _)
  · exact h2

/-- The two passes of the resiliency block keep `ResilInv`. -/
theorem resilPasses_inv (g : Globals) (orc : Nat → SolveResult) (events : Nat → ℚ) (e : CPLEX) :
    ResilInv e.trace (resilPasses g orc events e).eng (resilPasses g orc events e).ResilOptimal := by
  unfold resilPasses
  simp only
  apply foldl_inv (fun r : ResilState => ResilInv e.trace r.eng r.ResilOptimal)
  · apply foldl_inv (fun r : ResilState => ResilInv e.trace r.eng r.ResilOptimal)
    · exact ResilInv.start e
    · intro x b hx
      exact resilBaseStep_inv g orc events _ x b hx
  · intro x b hx
    exact eventStep_inv g orc events _ x b hx

/-! ## The baseline solve and the whole invocation -/

theorem loopInit_broke (e : CPLEX) : (loopInit e).broke = false := rfl

/-- Trace of the baseline solve started with an empty trace: calm effects
only, followed by the failed master solve if there is one; the flag `optimal`
is false in the latter case. -/
theorem baseline_trace (g : Globals) (orc : Nat → SolveResult) (events : Nat → ℚ)
    (objective : Nat → ℚ) (e : CPLEX) (he : e.trace = []) :
    ((baseline g orc events objective e).optimal = true →
      ∀ x ∈ (baseline g orc events objective e).eng.trace, calm x = true) ∧
    ((baseline g orc events objective e).optimal = false →
      (baseline g orc events objective e).objective = objective ∧
      ((∀ x ∈ (baseline g orc events objective e).eng.trace, calm x = true) ∨
        ∃ t, (baseline g orc events objective e).eng.trace =
            t ++ [Effect.solve 0 0 Status.infeasible] ∧ ∀ x ∈ t, calm x = true)) := by
  unfold baseline
  cases hB : g.useBenders with
  | false =>
    simp only [Bool.not_false, if_true]
    cases hq : (orc e.calls).solved with
    | true =>
      have h1 : ((solve orc 0 0 e).cplex 0).solved = true := by simpa [solve] using hq
      simp only [h1, if_true]
      refine ⟨fun _ => ?_, fun h => by simp at h⟩
      obtain ⟨t, ht, hp⟩ := ExtBy.trans _ _ _ (StoreSolution_ext g false (solve orc 0 0 e))
        (StoreDualSolution_ext g _)
      rw [ht]
      intro x hx
      rcases List.mem_append.mp hx with hx | hx
      · have hst : (orc e.calls).status ≠ Status.infeasible := by
          simpa [SolveResult.solved] using hq
        simp only [solve, he, List.nil_append, List.mem_singleton] at hx
        rw [hx]
        simp [calm, hst]
      · exact mild_calm x (hp x hx)
    | false =>
      have h1 : ((solve orc 0 0 e).cplex 0).solved = false := by simpa [solve] using hq
      simp only [h1, Bool.false_eq_true, if_false]
      refine ⟨fun h => by simp at h, fun _ => ⟨trivial, Or.inr ⟨[], ?_, by simp⟩⟩⟩
      have hst : (orc e.calls).status = Status.infeasible := (solved_false_iff _).mp hq
      simp [solve, he, hst]
  | true =>
    simp only [Bool.not_true, Bool.false_eq_true, if_false]
    obtain ⟨w1, w2⟩ := BendersWhile_trace g orc events 1001 (loopInit e) (loopInit_broke e)
    have hL : BendersWhile g orc events 1001 (loopInit e) = Benders g orc events e := rfl
    rw [hL] at w1 w2
    have calm_all : (Benders g orc events e).broke = false →
        ∀ x ∈ (Benders g orc events e).eng.trace, calm x = true := by
      intro hb
      obtain ⟨t, ht, hp⟩ := w1 hb
      have h0 : (loopInit e).eng.trace = [] := he
      rw [ht, h0]
      simpa using hp
    by_cases hopt : ((Benders g orc events e).eng.cplex 0).status = Status.optimal
    · simp only [hopt, if_true]
      refine ⟨fun _ => ?_, fun h => by simp at h⟩
      apply calm_all
      cases hb : (Benders g orc events e).broke with
      | false => rfl
      | true =>
        have := (w2 hb).1
        rw [hopt] at this
        exact absurd this (by simp)
    · simp only [hopt, if_false]
      refine ⟨fun h => by simp at h, fun _ => ⟨trivial, ?_⟩⟩
      cases hb : (Benders g orc events e).broke with
      | false => exact Or.inl (calm_all hb)
      | true =>
        obtain ⟨-, -, -, t, ht, hp⟩ := w2 hb
        have h0 : (loopInit e).eng.trace = [] := he
        exact Or.inr ⟨t, by rw [ht, h0]; simp, hp⟩

theorem sentinel_spec (g : Globals) (objective : Nat → ℚ) (i : Nat) (hi : i < g.Nobj) :
    sentinel g objective i = (10 : ℚ) ^ 30 := by
  unfold sentinel
  generalize g.Nobj = n at hi
  induction n with
  | zero => omega
  | succ n ih =>
    rw [List.range_succ, List.foldl_append]
    simp only [List.foldl_cons, List.foldl_nil]
    by_cases h : i = n
    · subst h; simp
    · rw [Function.update_noteq h]
      exact ih (by omega)

theorem resilSum_eq (g : Globals) (ResilObj : Nat → ℚ) :
    resilSum g ResilObj = ((List.range g.Nevents).map ResilObj).sum := by
  unfold resilSum
  generalize g.Nevents = n
  induction n with
  | zero => simp
  | succ n ih => simp [List.range_succ, List.foldl_append, ih]

/-- Shape of the trace of an invocation whose baseline is optimal and that
evaluates events: the calm trace of the baseline followed by the effects of
the resiliency block. -/
theorem SolveIndividual_resil (g : Globals) (orc : Nat → SolveResult) (objective : Nat → ℚ)
    (events : Nat → ℚ) (returnString : Option (List ℚ)) (e : CPLEX)
    (hopt : (baseline g orc events objective { e with trace := [] }).optimal = true)
    (hN : 0 < g.Nevents) :
    (SolveIndividual g orc objective events returnString e).eng.trace =
      (resilPasses g orc events (baseline g orc events objective { e with trace := [] }).eng).eng.trace ∧
    (SolveIndividual g orc objective events returnString e).ResilObj =
      (resilPasses g orc events (baseline g orc events objective { e with trace := [] }).eng).ResilObj ∧
    (SolveIndividual g orc objective events returnString e).objective (g.SustObj.length + 1) =
      if (resilPasses g orc events
          (baseline g orc events objective { e with trace := [] }).eng).ResilOptimal = true then
        resilSum g (resilPasses g orc events
          (baseline g orc events objective { e with trace := [] }).eng).ResilObj / g.Nevents
      else (10 : ℚ) ^ 9 := by
  unfold SolveIndividual
  simp only [hopt, Bool.not_true, Bool.false_eq_true, if_false, hN, gt_iff_lt, if_true]
  refine ⟨trivial, trivial, ?_⟩
  split <;> simp

/-! ## Claims about `SolveIndividual` -/

/-- C4: if a solve of the master problem (Benders mode, whatever the
iteration) or of the single combined model (non-Benders mode) fails, then
`SolveIndividual` sets `objective[i] = 1e30` for every `i < Nobj`, and the
failed solve is the last effect of the invocation: no Capacity-Linking bound
is rewritten, no year model is solved and no dual vector is modified after
it; it is also the only failed master solve of the invocation. -/
theorem C4_master_failure (g : Globals) (orc : Nat → SolveResult) (objective : Nat → ℚ)
    (events : Nat → ℚ) (returnString : Option (List ℚ)) (e : CPLEX) (ev : Nat)
    (hfail : Effect.solve ev 0 Status.infeasible ∈
      (SolveIndividual g orc objective events returnString e).eng.trace) :
    (∀ i, i < g.Nobj →
      (SolveIndividual g orc objective events returnString e).objective i = (10 : ℚ) ^ 30) ∧
    ∃ t, (SolveIndividual g orc objective events returnString e).eng.trace =
        t ++ [Effect.solve 0 0 Status.infeasible] ∧
      ∀ x ∈ t, ∀ ev2, x ≠ Effect.solve ev2 0 Status.infeasible := by
  obtain ⟨b1, b2⟩ := baseline_trace g orc events objective { e with trace := [] } rfl
  cases hopt : (baseline g orc events objective { e with trace := [] }).optimal with
  | true =>
    exfalso
    have hcalm := b1 hopt
    have hmem : Effect.solve ev 0 Status.infeasible ∈
        (baseline g orc events objective { e with trace := [] }).eng.trace ∨
        ∃ t : List Effect, (∀ x ∈ t, isResilWork x = true) ∧
          Effect.solve ev 0 Status.infeasible ∈ t := by
      by_cases hN : 0 < g.Nevents
      · obtain ⟨htr, -, -⟩ := SolveIndividual_resil g orc objective events returnString e hopt hN
        obtain ⟨t, ht, hw, -⟩ := resilPasses_inv g orc events
          (baseline g orc events objective { e with trace := [] }).eng
        rw [htr, ht] at hfail
        rcases List.mem_append.mp hfail with h | h
        · exact Or.inl h
        · exact Or.inr ⟨t, hw, h⟩
      · left
        unfold SolveIndividual at hfail
        simp only [hopt, Bool.not_true, Bool.false_eq_true, if_false, gt_iff_lt, hN] at hfail
        exact hfail
    rcases hmem with h | ⟨t, hw, h⟩
    · exact calm_not_failed _ (hcalm _ h) ev rfl
    · have := hw _ h
      simp [isResilWork] at this
  | false =>
    obtain ⟨hobj, htr⟩ := b2 hopt
    have hout : (SolveIndividual g orc objective events returnString e).eng.trace =
        (baseline g orc events objective { e with trace := [] }).eng.trace ∧
        (SolveIndividual g orc objective events returnString e).objective =
          sentinel g (baseline g orc events objective { e with trace := [] }).objective := by
      unfold SolveIndividual
      simp [hopt]
    rw [hout.1] at hfail ⊢
    rw [hout.2]
    refine ⟨fun i hi => sentinel_spec g _ i hi, ?_⟩
    rcases htr with hall | ⟨t, ht, hp⟩
    · exact absurd rfl (calm_not_failed (Effect.solve ev 0 Status.infeasible) (hall _ hfail) ev)
    · exact ⟨t, ht, fun x hx ev2 => calm_not_failed x (hp x hx) ev2⟩

/-- C8: when the decomposition loop ends because an iteration generated no
cut (both counters are zero and the loop was not left through `break`), the
latest solve of every year model `j` in `1 .. nyears` ended with status
optimal, and the master primal value at position `j - 1` is at least `0.999`
times the objective of that solve. -/
theorem C8_convergence_postcondition (g : Globals) (orc : Nat → SolveResult) (events : Nat → ℚ)
    (e : CPLEX) (hb : (Benders g orc events e).broke = false)
    (h0 : (Benders g orc events e).OptCuts + (Benders g orc events e).FeasCuts = 0) :
    ∀ j, 1 ≤ j → j ≤ g.nyears →
      ((Benders g orc events e).eng.cplex j).status = Status.optimal ∧
      rd ((Benders g orc events e).eng.cplex 0).values (j - 1) ≥
        999 / 1000 * ((Benders g orc events e).eng.cplex j).objval := by
  intro j h1 hj
  have h := BendersWhile_converged g orc events 1001 (loopInit e) (by simp [loopInit]) rfl hb h0
    (j - 1) (by omega)
  rw [show j - 1 + 1 = j by omega] at h
  have hL : BendersWhile g orc events 1001 (loopInit e) = Benders g orc events e := rfl
  rw [hL] at h
  refine ⟨h.1, ?_⟩
  have := h.2
  rw [ge_iff_le, mul_comm]
  exact this.le

/-! ## The iteration cap -/

/-- If every iteration keeps the loop going (no `break`, a positive counter),
the loop ends only at the cap, with `iter = 1001`. -/
theorem BendersWhile_always_cuts (g : Globals) (orc : Nat → SolveResult) (events : Nat → ℚ)
    (hI : ∀ s : LoopState, s.broke = false →
      (BendersIter g orc events s).broke = false ∧
      (BendersIter g orc events s).OptCuts + (BendersIter g orc events s).FeasCuts > 0)
    (fuel : Nat) (s : LoopState) (hsb : s.broke = false) (hs : s.OptCuts + s.FeasCuts > 0) :
    (BendersWhile g orc events fuel s).broke = false ∧
    (BendersWhile g orc events fuel s).OptCuts + (BendersWhile g orc events fuel s).FeasCuts > 0 := by
  induction fuel generalizing s with
  | zero => exact ⟨hsb, hs⟩
  | succ n ih =>
    rw [BendersWhile_succ]
    by_cases hc : s.OptCuts + s.FeasCuts > 0 ∧ s.iter ≤ 1000
    · rw [if_pos hc]
      obtain ⟨k1, k2⟩ := hI s hsb
      rw [if_neg (by rw [k1]; simp)]
      exact ih _ k1 k2
    · rw [if_neg hc]
      exact ⟨hsb, hs⟩

theorem Benders_at_cap (g : Globals) (orc : Nat → SolveResult) (events : Nat → ℚ)
    (hI : ∀ s : LoopState, s.broke = false →
      (BendersIter g orc events s).broke = false ∧
      (BendersIter g orc events s).OptCuts + (BendersIter g orc events s).FeasCuts > 0)
    (e : CPLEX) :
    (Benders g orc events e).broke = false ∧
    (Benders g orc events e).OptCuts + (Benders g orc events e).FeasCuts > 0 ∧
    (Benders g orc events e).iter = 1001 := by
  obtain ⟨a1, a2⟩ := BendersWhile_always_cuts g orc events hI 1001 (loopInit e) rfl
    (by simp [loopInit])
  obtain ⟨-, c2, -, c4⟩ := BendersWhile_count g orc events 1001 (loopInit e)
  have hL : BendersWhile g orc events 1001 (loopInit e) = Benders g orc events e := rfl
  rw [hL] at a1 a2 c2 c4
  refine ⟨a1, a2, ?_⟩
  have h1 := c2 (by simp [loopInit])
  rcases c4 (by simp [loopInit]) rfl with h | h
  · rw [a1] at h; exact absurd h (by simp)
  · omega

/-- With the solver `orcCuts` every iteration on `gOne` raises a counter. -/
theorem orcCuts_iter (s : LoopState) (hsb : s.broke = false) :
    (BendersIter gOne orcCuts evOne s).broke = false ∧
    (BendersIter gOne orcCuts evOne s).OptCuts + (BendersIter gOne orcCuts evOne s).FeasCuts > 0 := by
  have hq : (orcCuts s.eng.calls).solved = true := by simp [orcCuts, SolveResult.solved]
  obtain ⟨q1, -, -, -, q5⟩ := BendersIter_solved gOne orcCuts evOne s hq
  refine ⟨q1.trans hsb, ?_⟩
  by_contra hcon
  have h0 : (BendersIter gOne orcCuts evOne s).OptCuts +
      (BendersIter gOne orcCuts evOne s).FeasCuts = 0 := by omega
  obtain ⟨-, hlt, m, hm⟩ := q5 h0 0 (by simp [gOne])
  rw [hm] at hlt
  norm_num [orcCuts, rd] at hlt

theorem BendersWhile_inv (g : Globals) (orc : Nat → SolveResult) (events : Nat → ℚ)
    (P : LoopState → Prop) (hstep : ∀ s, P s → P (BendersIter g orc events s))
    (fuel : Nat) (s : LoopState) (h : P s) : P (BendersWhile g orc events fuel s) := by
  induction fuel generalizing s with
  | zero => exact h
  | succ n ih =>
    rw [BendersWhile_succ]
    split
    · split
      · exact hstep s h
      · exact ih _ (hstep s h)
    · exact h

theorem BendersIter_master (g : Globals) (orc : Nat → SolveResult) (events : Nat → ℚ)
    (s : LoopState) : (BendersIter g orc events s).eng.cplex 0 = orc s.eng.calls := by
  cases hq : (orc s.eng.calls).solved with
  | false => exact (BendersIter_failed g orc events s hq).2.1
  | true => exact (BendersIter_solved g orc events s hq).2.1

/-- After at least one iteration the state of the master model is an answer
of the solver. -/
theorem Benders_master_answer (g : Globals) (orc : Nat → SolveResult) (events : Nat → ℚ)
    (e : CPLEX) :
    (Benders g orc events e).iter = 0 ∨ ∃ m, (Benders g orc events e).eng.cplex 0 = orc m := by
  apply BendersWhile_inv g orc events (fun s => s.iter = 0 ∨ ∃ m, s.eng.cplex 0 = orc m)
  · intro s _
    exact Or.inr ⟨_, BendersIter_master g orc events s⟩
  · exact Or.inl rfl

/-- The resiliency block and the final bookkeeping solve no master model:
the master solves of an invocation are those of its baseline solve. -/
theorem SolveIndividual_masterSolves (g : Globals) (orc : Nat → SolveResult)
    (objective : Nat → ℚ) (events : Nat → ℚ) (returnString : Option (List ℚ)) (e : CPLEX) :
    masterSolves (SolveIndividual g orc objective events returnString e).eng.trace =
      masterSolves (baseline g orc events objective { e with trace := [] }).eng.trace := by
  cases hopt : (baseline g orc events objective { e with trace := [] }).optimal with
  | false =>
    unfold SolveIndividual
    simp [hopt]
  | true =>
    by_cases hN : 0 < g.Nevents
    · obtain ⟨htr, -, -⟩ := SolveIndividual_resil g orc objective events returnString e hopt hN
      obtain ⟨t, ht, hw, -⟩ := resilPasses_inv g orc events
        (baseline g orc events objective { e with trace := [] }).eng
      rw [htr, ht, masterSolves, List.countP_append]
      have : List.countP isMasterSolve t = 0 := by
        rw [List.countP_eq_zero]
        intro x hx
        simp [resilWork_not_master x (hw x hx)]
      simp [this, masterSolves]
    · unfold SolveIndividual
      simp [hopt, hN]

theorem baseline_eng_benders (g : Globals) (orc : Nat → SolveResult) (events : Nat → ℚ)
    (objective : Nat → ℚ) (e : CPLEX) (hB : g.useBenders = true) :
    (baseline g orc events objective e).eng = (Benders g orc events e).eng ∧
    ((baseline g orc events objective e).optimal = true ↔
      ((Benders g orc events e).eng.cplex 0).status = Status.optimal) := by
  unfold baseline
  simp only [hB, Bool.not_true, Bool.false_eq_true, if_false]
  split <;> simp_all

/-- Iteration count of an invocation in Benders mode. -/
theorem iteration_cap (g : Globals) (orc : Nat → SolveResult) (objective : Nat → ℚ)
    (events : Nat → ℚ) (returnString : Option (List ℚ)) (e : CPLEX) (hB : g.useBenders = true) :
    masterSolves (SolveIndividual g orc objective events returnString e).eng.trace =
      (Benders g orc events { e with trace := [] }).iter ∧
    (Benders g orc events { e with trace := [] }).iter ≤ 1001 ∧
    ((Benders g orc events { e with trace := [] }).broke = true ∨
      ¬((Benders g orc events { e with trace := [] }).OptCuts +
          (Benders g orc events { e with trace := [] }).FeasCuts > 0 ∧
        (Benders g orc events { e with trace := [] }).iter ≤ 1000)) ∧
    ∀ fuel, 1001 ≤ fuel →
      BendersWhile g orc events fuel (loopInit { e with trace := [] }) =
        Benders g orc events { e with trace := [] } := by
  obtain ⟨-, c2, c3, c4⟩ := BendersWhile_count g orc events 1001 (loopInit { e with trace := [] })
  have hL : BendersWhile g orc events 1001 (loopInit { e with trace := [] }) =
      Benders g orc events { e with trace := [] } := rfl
  rw [hL] at c2 c3 c4
  refine ⟨?_, c2 (by simp [loopInit]), c4 (by simp [loopInit]) rfl, ?_⟩
  · rw [SolveIndividual_masterSolves, (baseline_eng_benders g orc events objective _ hB).1, c3]
    simp [loopInit, masterSolves]
  · intro fuel hf
    exact BendersWhile_fuel g orc events fuel 1001 _ (by simp [loopInit]; omega) (by simp [loopInit])

/-- C9, amended: in Benders mode, for every sequence of solver answers the
decomposition loop of `SolveIndividual` terminates after at most 1001
iterations: the invocation solves the master once per iteration and at most
1001 times, 1001 units of fuel are never used up before the loop ends by
`break` or because its condition fails, and more fuel gives the same result. -/
theorem C9_iteration_cap_1001 (g : Globals) (orc : Nat → SolveResult) (objective : Nat → ℚ)
    (events : Nat → ℚ) (returnString : Option (List ℚ)) (e : CPLEX) (hB : g.useBenders = true) :
    masterSolves (SolveIndividual g orc objective events returnString e).eng.trace =
      (Benders g orc events { e with trace := [] }).iter ∧
    (Benders g orc events { e with trace := [] }).iter ≤ 1001 ∧
    ((Benders g orc events { e with trace := [] }).broke = true ∨
      ¬((Benders g orc events { e with trace := [] }).OptCuts +
          (Benders g orc events { e with trace := [] }).FeasCuts > 0 ∧
        (Benders g orc events { e with trace := [] }).iter ≤ 1000)) ∧
    ∀ fuel, 1001 ≤ fuel →
      BendersWhile g orc events fuel (loopInit { e with trace := [] }) =
        Benders g orc events { e with trace := [] } :=
  iteration_cap g orc objective events returnString e hB

theorem C9_iteration_cap_1001_witness :
    gOne.useBenders = true ∧
    masterSolves (SolveIndividual gOne orcConv (fun _ => 0) evOne none engOne).eng.trace ≤ 1001 := by
  have h := C9_iteration_cap_1001 gOne orcConv (fun _ => 0) evOne none engOne rfl
  exact ⟨rfl, by rw [h.1]; exact h.2.1⟩

/-- C9, counterexample to the bound 1000: on the one-year instance `gOne`
with a solver whose answers make every iteration generate a cut, one
invocation of `SolveIndividual` runs 1001 iterations of the loop and solves
the master 1001 times. -/
theorem C9_cap_counterexample :
    (Benders gOne orcCuts evOne { engOne with trace := [] }).iter = 1001 ∧
    masterSolves (SolveIndividual gOne orcCuts (fun _ => 0) evOne none engOne).eng.trace = 1001 ∧
    ¬ masterSolves (SolveIndividual gOne orcCuts (fun _ => 0) evOne none engOne).eng.trace ≤ 1000 := by
  have h := iteration_cap gOne orcCuts (fun _ => 0) evOne none engOne rfl
  have hc := (Benders_at_cap gOne orcCuts evOne orcCuts_iter { engOne with trace := [] }).2.2
  refine ⟨hc, by rw [h.1, hc], by rw [h.1, hc]; omega⟩

/-! ## Evaluations at concrete inputs -/

/-- C1 (defect in the code): on a table with the two runs `0 0` and `1 1`
and the values `1 2 3 4`, `SumByRow` returns `[3, 4]`: the first entry of the
second run (value 3) is left out of its sum, whereas the run sums are
`[3, 7]`. -/
theorem C1_SumByRow_drops_first_entry_of_run :
    SumByRow [1, 2, 3, 4] idxRows 0 = [3, 4] ∧ rowSums [1, 2, 3, 4] idxRows 0 = [3, 7] := by
  constructor
  · simp [SumByRow, SumByRowStep, idxRows, Index.GetSize, Index.GetPosition, rd, List.range,
      List.range.loop]
    norm_num
  · simp [rowSums, rowRuns, idxRows, Index.GetSize, Index.GetPosition, rd, List.range,
      List.range.loop, List.splitBy, List.splitBy.loop]
    norm_num

/-- C2 (defect in the code): on `gEm` the emission segment decoded by
`StoreSolution` is `[100, 1]`: the second emission entry, which the emission
table records for year 2, is read from the array of year 1 (the year the flow
table records for its entry 1).  Pulling by the emission table's own years
gives `[100, 200]`. -/
theorem C2_emission_segment_reads_flow_table_year :
    (StoreSolutionBenders gEm varsolEm).take gEm.IdxEm.GetSize = [100, 1] ∧
    (pullOwnYear gEm.IdxEm varsolEm (Function.update (fun _ => 0) 0 gEm.nyears)).solution =
      [100, 200] ∧
    gEm.IdxEm.GetYear 1 = 2 ∧ gEm.IdxArc.GetYear 1 = 1 := by
  refine ⟨?_, ?_, rfl, rfl⟩
  · simp [StoreSolutionBenders, gEm, decodeYear, decodeMaster, decodeCap, Index.GetSize,
      Index.GetYear, rd, List.range, List.range.loop, bump, Function.update, varsolEm]
  · simp [pullOwnYear, gEm, decodeYear, Index.GetSize, Index.GetYear, rd, List.range,
      List.range.loop, bump, Function.update, varsolEm]

/-- C7 (defect in the code): on `gDual` (`Nevents = 0`, one node-balance
entry) the baseline dual vector has one entry after the first invocation of
`SolveIndividual` and two entries after the second one, although both
invocations end with an optimal baseline: `StoreDualSolution()` clears the
vectors `0 .. Nevents - 1` only. -/
theorem C7_dual_vector_grows_across_invocations :
    gDual.IdxNode.GetSize = 1 ∧
    engDual1.dualsolution 0 = [3] ∧
    engDual2.dualsolution 0 = [3, 3] ∧
    (engDual2.dualsolution gDual.Nevents).length ≠ gDual.IdxNode.GetSize := by
  have h1 : engDual1.dualsolution 0 = [3] := by
    simp [engDual1, SolveIndividual, baseline, gDual, solve, orcDual, SolveResult.solved,
      StoreSolution, StoreDualSolution, dualAdd, Index.GetSize, rd, List.range, List.range.loop,
      LoadProblem]
  have h2 : engDual2.dualsolution 0 = [3, 3] := by
    simp [engDual2, SolveIndividual, baseline, gDual, solve, orcDual, SolveResult.solved,
      StoreSolution, StoreDualSolution, dualAdd, Index.GetSize, rd, List.range, List.range.loop]
    rw [h1]; rfl
  refine ⟨rfl, h1, h2, ?_⟩
  simp [gDual, Index.GetSize] at h2 ⊢
  rw [h2]
  simp

/-! ## Runs of the loop on the one-year instance -/

/-- A pass for year `k+1` whose answer is optimal with an objective covered
by the estimate leaves both counters as they are. -/
theorem yearStep_quiet (orc : Nat → SolveResult) (s : LoopState) (k : Nat)
    (hst : (orc s.eng.calls).status = Status.optimal)
    (hcov : ¬ rd s.eng.solution k ≤ (orc s.eng.calls).objval * (999 / 1000)) :
    (yearStep orc s (k + 1)).OptCuts = s.OptCuts ∧
    (yearStep orc s (k + 1)).FeasCuts = s.FeasCuts := by
  unfold yearStep
  have h1 : ((solve orc 0 (k + 1) s.eng).cplex (k + 1)).status = Status.optimal := by
    simpa [solve] using hst
  have h2 : ¬ rd (solve orc 0 (k + 1) s.eng).solution k ≤
      ((solve orc 0 (k + 1) s.eng).cplex (k + 1)).objval * (999 / 1000) := by
    simpa [solve] using hcov
  simp [h1, h2]

theorem yearLoop_quiet (orc : Nat → SolveResult) (s : LoopState) (n : Nat)
    (hall : ∀ m k, k < n → (orc m).status = Status.optimal ∧
      ¬ rd s.eng.solution k ≤ (orc m).objval * (999 / 1000)) :
    ((List.range n).foldl (fun a k => yearStep orc a (k + 1)) s).OptCuts = s.OptCuts ∧
    ((List.range n).foldl (fun a k => yearStep orc a (k + 1)) s).FeasCuts = s.FeasCuts := by
  induction n with
  | zero => exact ⟨rfl, rfl⟩
  | succ n ih =>
    rw [yearLoop_succ]
    obtain ⟨i1, i2⟩ := ih (fun m k hk => hall m k (by omega))
    have hsol := (yearLoop_frame orc s n).2.2.2
    obtain ⟨q1, q2⟩ := yearStep_quiet orc ((List.range n).foldl (fun a k => yearStep orc a (k + 1)) s)
      n (hall _ n (by omega)).1 (by rw [hsol]; exact (hall _ n (by omega)).2)
    exact ⟨q1.trans i1, q2.trans i2⟩

/-- The counters an iteration ends with are those of its loop over the years. -/
theorem BendersIter_counters (g : Globals) (orc : Nat → SolveResult) (events : Nat → ℚ)
    (s : LoopState) (h : (orc s.eng.calls).solved = true) :
    (BendersIter g orc events s).OptCuts =
      ((List.range g.nyears).foldl (fun a k => yearStep orc a (k + 1))
        { s with iter := s.iter + 1, OptCuts := 0, FeasCuts := 0,
                 eng := CapacityConstraints g events 0 g.nyears
                   (StoreSolution g true (solve orc 0 0 s.eng)) }).OptCuts ∧
    (BendersIter g orc events s).FeasCuts =
      ((List.range g.nyears).foldl (fun a k => yearStep orc a (k + 1))
        { s with iter := s.iter + 1, OptCuts := 0, FeasCuts := 0,
                 eng := CapacityConstraints g events 0 g.nyears
                   (StoreSolution g true (solve orc 0 0 s.eng)) }).FeasCuts := by
  have hsolved : (!((solve orc 0 0 s.eng).cplex 0).solved) = false := by
    simp [solve, h]
  unfold BendersIter
  simp only [hsolved, Bool.false_eq_true, if_false]
  split <;> exact ⟨rfl, rfl⟩

/-- With the solver `orcConv` an iteration on `gOne` raises no counter. -/
theorem orcConv_iter (s : LoopState) (hsb : s.broke = false) :
    (BendersIter gOne orcConv evOne s).broke = false ∧
    (BendersIter gOne orcConv evOne s).OptCuts + (BendersIter gOne orcConv evOne s).FeasCuts = 0 := by
  have hq : (orcConv s.eng.calls).solved = true := rfl
  obtain ⟨q1, -, -, -, -⟩ := BendersIter_solved gOne orcConv evOne s hq
  refine ⟨q1.trans hsb, ?_⟩
  obtain ⟨c1, c2⟩ := BendersIter_counters gOne orcConv evOne s hq
  have hsol : (CapacityConstraints gOne evOne 0 gOne.nyears
      (StoreSolution gOne true (solve orcConv 0 0 s.eng))).solution = [10, 5, 7] := by
    rw [(CapacityConstraints_frame gOne evOne 0 gOne.nyears _).2.1, StoreSolution_master]
    simp [solve, orcConv]
  obtain ⟨y1, y2⟩ := yearLoop_quiet orcConv
    { s with iter := s.iter + 1, OptCuts := 0, FeasCuts := 0,
             eng := CapacityConstraints gOne evOne 0 gOne.nyears
               (StoreSolution gOne true (solve orcConv 0 0 s.eng)) } gOne.nyears (by
      intro m k hk
      have hk0 : k = 0 := by simp [gOne] at hk; omega
      subst hk0
      refine ⟨rfl, ?_⟩
      show ¬ rd (CapacityConstraints gOne evOne 0 gOne.nyears
        (StoreSolution gOne true (solve orcConv 0 0 s.eng))).solution 0 ≤ _
      rw [hsol]
      norm_num [rd, orcConv])
  rw [c1, c2, y1, y2]
  rfl

/-- The loop runs its first iteration, and that iteration is the whole loop
when it leaves through `break` or raises no counter. -/
theorem Benders_first (g : Globals) (orc : Nat → SolveResult) (events : Nat → ℚ) (e : CPLEX) :
    1 ≤ (Benders g orc events e).iter ∧
    ((BendersIter g orc events (loopInit e)).broke = true ∨
      (BendersIter g orc events (loopInit e)).OptCuts +
        (BendersIter g orc events (loopInit e)).FeasCuts = 0 →
      Benders g orc events e = BendersIter g orc events (loopInit e)) := by
  have hL : Benders g orc events e = BendersWhile g orc events (1000 + 1) (loopInit e) := rfl
  have hc : (loopInit e).OptCuts + (loopInit e).FeasCuts > 0 ∧ (loopInit e).iter ≤ 1000 := by
    simp [loopInit]
  have hi := BendersIter_iter g orc events (loopInit e)
  rw [hL, BendersWhile_succ, if_pos hc]
  constructor
  · split
    · rw [hi]; omega
    · have := (BendersWhile_count g orc events 1000 (BendersIter g orc events (loopInit e))).1
      omega
  · intro h
    split
    · rfl
    · rename_i hb
      rcases h with h | h
      · exact absurd h hb
      · exact BendersWhile_stop g orc events 1000 _ (by omega)

theorem SolveIndividual_not_optimal (g : Globals) (orc : Nat → SolveResult)
    (objective : Nat → ℚ) (events : Nat → ℚ) (returnString : Option (List ℚ)) (e : CPLEX)
    (hopt : (baseline g orc events objective { e with trace := [] }).optimal = false) :
    (SolveIndividual g orc objective events returnString e).eng.trace =
      (baseline g orc events objective { e with trace := [] }).eng.trace := by
  unfold SolveIndividual
  simp [hopt]

/-- On `gOne` with the solver `orcConv` the baseline is optimal. -/
theorem orcConv_optimal (objective : Nat → ℚ) (e : CPLEX) :
    (baseline gOne orcConv evOne objective e).optimal = true := by
  rw [(baseline_eng_benders gOne orcConv evOne objective e rfl).2]
  have h1 := (Benders_first gOne orcConv evOne e).1
  rcases Benders_master_answer gOne orcConv evOne e with h | ⟨m, hm⟩
  · omega
  · rw [hm]; rfl

/-- On `gOne` with the solver `orcFail` the trace of an invocation is the
single failed master solve. -/
theorem orcFail_trace (objective : Nat → ℚ) (returnString : Option (List ℚ)) (e : CPLEX) :
    (SolveIndividual gOne orcFail objective evOne returnString e).eng.trace =
      [Effect.solve 0 0 Status.infeasible] := by
  have hq : (orcFail (loopInit { e with trace := [] }).eng.calls).solved = false := rfl
  obtain ⟨f1, f2, f3⟩ := BendersIter_failed gOne orcFail evOne (loopInit { e with trace := [] }) hq
  have hB := (Benders_first gOne orcFail evOne { e with trace := [] }).2 (Or.inl f1)
  obtain ⟨b1, b2⟩ := baseline_eng_benders gOne orcFail evOne objective { e with trace := [] } rfl
  have hopt : (baseline gOne orcFail evOne objective { e with trace := [] }).optimal = false := by
    cases hx : (baseline gOne orcFail evOne objective { e with trace := [] }).optimal with
    | false => rfl
    | true =>
      have := b2.mp hx
      rw [hB, f2] at this
      simp [orcFail] at this
  rw [SolveIndividual_not_optimal _ _ _ _ _ _ hopt, b1, hB, f3]
  simp [loopInit, orcFail]

theorem C4_master_failure_witness :
    Effect.solve 0 0 Status.infeasible ∈
      (SolveIndividual gOne orcFail (fun _ => 0) evOne none engOne).eng.trace ∧
    ∀ i, i < gOne.Nobj →
      (SolveIndividual gOne orcFail (fun _ => 0) evOne none engOne).objective i = (10 : ℚ) ^ 30 :=
  ⟨by rw [orcFail_trace]; simp,
    (C4_master_failure gOne orcFail (fun _ => 0) evOne none engOne 0
      (by rw [orcFail_trace]; simp)).1⟩

theorem C8_convergence_postcondition_witness :
    (Benders gOne orcConv evOne engOne).broke = false ∧
    (Benders gOne orcConv evOne engOne).OptCuts + (Benders gOne orcConv evOne engOne).FeasCuts = 0 ∧
    ((Benders gOne orcConv evOne engOne).eng.cplex 1).status = Status.optimal ∧
    rd ((Benders gOne orcConv evOne engOne).eng.cplex 0).values (1 - 1) ≥
      999 / 1000 * ((Benders gOne orcConv evOne engOne).eng.cplex 1).objval := by
  obtain ⟨k1, k2⟩ := orcConv_iter (loopInit engOne) rfl
  have hB := (Benders_first gOne orcConv evOne engOne).2 (Or.inr k2)
  have hb : (Benders gOne orcConv evOne engOne).broke = false := by rw [hB]; exact k1
  have h0 : (Benders gOne orcConv evOne engOne).OptCuts +
      (Benders gOne orcConv evOne engOne).FeasCuts = 0 := by rw [hB]; exact k2
  exact ⟨hb, h0, C8_convergence_postcondition gOne orcConv evOne engOne hb h0 1 (le_refl 1)
    (by decide)⟩

/-- C10 (defect in the code): on `gOne` with the solver `orcCuts` the loop is
stopped by the cap while its last iteration still generated a cut and the
master is optimal; the solution vector handed to the metrics and to the
resiliency block is then the master-only copy `[0, 5, 7]` made by
`StoreSolution(true)` (estimate first), not the canonical decode, whose first
entry is the capacity 5; the "emission" sum read at `startEm` is that
capacity. -/
theorem C10_cap_exit_keeps_master_copy :
    (Benders gOne orcCuts evOne { engOne with trace := [] }).iter = 1001 ∧
    (Benders gOne orcCuts evOne { engOne with trace := [] }).OptCuts +
      (Benders gOne orcCuts evOne { engOne with trace := [] }).FeasCuts > 0 ∧
    (baseline gOne orcCuts evOne (fun _ => 0) { engOne with trace := [] }).optimal = true ∧
    (baseline gOne orcCuts evOne (fun _ => 0) { engOne with trace := [] }).eng.solution =
      [0, 5, 7] ∧
    rd (StoreSolution gOne false
      (baseline gOne orcCuts evOne (fun _ => 0) { engOne with trace := [] }).eng).solution 0 = 5 ∧
    SumByRow (baseline gOne orcCuts evOne (fun _ => 0) { engOne with trace := [] }).eng.solution
      gOne.IdxEm gOne.startEm = [5] := by
  obtain ⟨a1, a2, a3⟩ := Benders_at_cap gOne orcCuts evOne orcCuts_iter { engOne with trace := [] }
  obtain ⟨b1, b2⟩ := baseline_eng_benders gOne orcCuts evOne (fun _ => 0)
    { engOne with trace := [] } rfl
  have hm : (Benders gOne orcCuts evOne { engOne with trace := [] }).eng.cplex 0 =
      ⟨Status.optimal, 10, [0, 5, 7], [2], [1]⟩ := by
    rcases Benders_master_answer gOne orcCuts evOne { engOne with trace := [] } with h | ⟨m, hm⟩
    · omega
    · rw [hm]; rfl
  have hsol : (Benders gOne orcCuts evOne { engOne with trace := [] }).eng.solution = [0, 5, 7] := by
    have := BendersWhile_capped gOne orcCuts evOne 1001 (loopInit { engOne with trace := [] }) rfl
      a1 a2 (by
        have hL : BendersWhile gOne orcCuts evOne 1001 (loopInit { engOne with trace := [] }) =
          Benders gOne orcCuts evOne { engOne with trace := [] } := rfl
        rw [hL, a3]; simp [loopInit])
    have hL : BendersWhile gOne orcCuts evOne 1001 (loopInit { engOne with trace := [] }) =
      Benders gOne orcCuts evOne { engOne with trace := [] } := rfl
    rw [hL] at this
    rw [this, hm]
  refine ⟨a3, a2, ?_, ?_, ?_, ?_⟩
  · rw [b2, hm]
  · rw [b1, hsol]
  · have hdec : ∀ E : CPLEX,
        rd (StoreSolution gOne false E).solution 0 = rd (E.cplex 0).values 1 := by
      intro E
      simp [StoreSolution, StoreSolutionBenders, gOne, decodeYear, decodeMaster, decodeCap,
        Index.GetSize, Index.GetYear, rd, List.range, List.range.loop, bump, Function.update]
    rw [b1, hdec, hm]
    simp [rd]
  · rw [b1, hsol]
    simp [SumByRow, SumByRowStep, gOne, Index.GetSize, Index.GetPosition, rd, List.range,
      List.range.loop]

/-! ## `CapacityConstraints` against the slots of `LoadProblem` -/

theorem getD_set (l : List (List ℚ)) (i j : Nat) (a : List ℚ) :
    (l.set i a).getD j [] = if i = j ∧ i < l.length then a else l.getD j [] := by
  simp only [List.getD_eq_getElem?_getD, List.getElem?_set]
  by_cases hij : i = j
  · subst hij
    by_cases hlt : i < l.length
    · simp [hlt]
    · have hle : l.length ≤ i := by omega
      simp [hlt, List.getElem?_eq_none hle]
  · simp [hij]

theorem rd_set (l : List ℚ) (i j : Nat) (a : ℚ) :
    rd (l.set i a) j = if i = j ∧ i < l.length then a else rd l j := by
  unfold rd
  simp only [List.getD_eq_getElem?_getD, List.getElem?_set]
  by_cases hij : i = j
  · subst hij
    by_cases hlt : i < l.length
    · simp [hlt]
    · have hle : l.length ≤ i := by omega
      simp [hlt, List.getElem?_eq_none hle]
  · simp [hij]

theorem set_getD_self (l : List Nat) (i : Nat) : l.set i (l.getD i 0) = l := by
  induction l generalizing i with
  | nil => simp
  | cons a t ih =>
    cases i with
    | zero => simp
    | succ n => simpa using ih n

theorem map_length_getD (l : List (List ℚ)) (r : Nat) :
    (l.map List.length).getD r 0 = (l.getD r []).length := by
  induction l generalizing r with
  | nil => simp
  | cons a t ih =>
    cases r with
    | zero => simp
    | succ n => simpa using ih n

theorem capCount_succ (g : Globals) (n r : Nat) :
    capCount g (n + 1) r = capCount g n r + if capRow g n = r then 1 else 0 := by
  unfold capCount
  rw [List.range_succ, List.filter_append, List.length_append]
  by_cases h : capRow g n = r <;> simp [List.filter, h]

theorem capCount_mono (g : Globals) (r : Nat) {n m : Nat} (h : n ≤ m) :
    capCount g n r ≤ capCount g m r := by
  induction m with
  | zero =>
    have : n = 0 := by omega
    rw [this]
  | succ m ih =>
    by_cases hn : n = m + 1
    · rw [hn]
    · have := ih (by omega)
      rw [capCount_succ]
      omega

theorem capCount_lt (g : Globals) {i n : Nat} (h : i < n) :
    capCount g i (capRow g i) < capCount g n (capRow g i) := by
  have h1 := capCount_mono g (capRow g i) (show i + 1 ≤ n by omega)
  rw [capCount_succ] at h1
  simp only [if_true] at h1
  omega

/-- Shape of the slots built by `LoadProblem`: `nyears` rows, and row `r`
holds as many slots as the capacity table has entries of year `r + 1`. -/
theorem LoadCapLoop_shape (g : Globals) (n : Nat) (hn : n ≤ g.IdxCap.GetSize)
    (hy : ∀ i, i < g.IdxCap.GetSize → 1 ≤ g.IdxCap.GetYear i ∧ g.IdxCap.GetYear i ≤ g.nyears) :
    (LoadCapLoop g n).length = g.nyears ∧
    ∀ r, ((LoadCapLoop g n).getD r []).length = capCount g n r := by
  induction n with
  | zero =>
    refine ⟨by simp [LoadCapLoop], fun r => ?_⟩
    simp only [LoadCapLoop, List.range_zero, List.foldl_nil, capCount, List.filter_nil,
      List.length_nil]
    rw [List.getD_eq_getElem?_getD]
    by_cases hr : r < g.nyears
    · simp [List.getElem?_replicate, hr]
    · simp [List.getElem?_replicate, hr]
  | succ n ih =>
    obtain ⟨h1, h2⟩ := ih (by omega)
    have hstep : LoadCapLoop g (n + 1) =
        (LoadCapLoop g n).set (capRow g n) ((LoadCapLoop g n).getD (capRow g n) [] ++ [0]) := by
      simp [LoadCapLoop, List.range_succ, List.foldl_append, capRow]
    have hrow : capRow g n < g.nyears := by
      have := hy n (by omega)
      unfold capRow
      omega
    rw [hstep]
    refine ⟨by rw [List.length_set, h1], fun r => ?_⟩
    rw [getD_set, capCount_succ]
    by_cases hr : capRow g n = r
    · rw [if_pos ⟨hr, by rw [h1]; exact hrow⟩, if_pos hr, List.length_append, h2, hr]
      rfl
    · rw [if_neg (fun h => hr h.1), if_neg hr, h2]
      rfl

theorem LoadCapCuts_eq (g : Globals) : LoadCapCuts g = LoadCapLoop g g.IdxCap.GetSize := rfl

theorem capSlot_eq_count (g : Globals) (i : Nat) (hi : i < g.IdxCap.GetSize)
    (hy : ∀ i, i < g.IdxCap.GetSize → 1 ≤ g.IdxCap.GetYear i ∧ g.IdxCap.GetYear i ≤ g.nyears) :
    capSlot g i = capCount g i (capRow g i) := by
  unfold capSlot capCount
  congr 1
  apply List.filter_congr
  intro j hj
  have hj2 : j < i := List.mem_range.mp hj
  have h1 := hy j (by omega)
  have h2 := hy i hi
  unfold capRow
  by_cases h : g.IdxCap.GetYear j = g.IdxCap.GetYear i
  · simp [h]
  · have : ¬ (g.IdxCap.GetYear j - 1 = g.IdxCap.GetYear i - 1) := by omega
    simp [h, this]

theorem CapacityLoop_succ (g : Globals) (events : Nat → ℚ) (event offset : Nat) (e : CPLEX)
    (n : Nat) :
    CapacityLoop g events event offset e (n + 1) =
      CapacityStep g events event offset (CapacityLoop g events event offset e n) n := by
  simp [CapacityLoop, List.range_succ, List.foldl_append]

theorem CapacityConstraints_eq (g : Globals) (events : Nat → ℚ) (event offset : Nat) (e : CPLEX) :
    CapacityConstraints g events event offset e =
      (CapacityLoop g events event offset e g.IdxCap.GetSize).eng := rfl

/-- Loop invariant of `CapacityConstraints` on slots shaped as `LoadProblem`
built them. -/
theorem CapacityLoop_inv (g : Globals) (events : Nat → ℚ) (event offset : Nat) (e : CPLEX)
    (hy : ∀ i, i < g.IdxCap.GetSize → 1 ≤ g.IdxCap.GetYear i ∧ g.IdxCap.GetYear i ≤ g.nyears)
    (hshape : e.CapCuts.map List.length = (LoadCapCuts g).map List.length)
    (n : Nat) (hn : n ≤ g.IdxCap.GetSize) :
    (∀ r, (CapacityLoop g events event offset e n).copied r = capCount g n r) ∧
    (CapacityLoop g events event offset e n).eng.CapCuts.map List.length =
      e.CapCuts.map List.length ∧
    (CapacityLoop g events event offset e n).eng.solution = e.solution ∧
    (CapacityLoop g events event offset e n).eng.trace =
      e.trace ++ (List.range n).map (fun i =>
        Effect.setUB (capRow g i) (capCount g i (capRow g i))
          (capRhs g events event offset e.solution i)) ∧
    ∀ i, i < n →
      rd ((CapacityLoop g events event offset e n).eng.CapCuts.getD (capRow g i) [])
        (capCount g i (capRow g i)) = capRhs g events event offset e.solution i := by
  induction n with
  | zero =>
    refine ⟨fun r => by simp [CapacityLoop, capCount], rfl, rfl, by simp [CapacityLoop], ?_⟩
    intro i hi; omega
  | succ n ih =>
    obtain ⟨ha, hb, hc, hd, he⟩ := ih (by omega)
    obtain ⟨l1, l2⟩ := LoadCapLoop_shape g g.IdxCap.GetSize (le_refl _) hy
    rw [← LoadCapCuts_eq] at l1 l2
    -- shape of the current slots
    have hlen : (CapacityLoop g events event offset e n).eng.CapCuts.length = g.nyears := by
      have := congrArg List.length (hb.trans hshape)
      simpa [l1] using this
    have hrowlen : ∀ r, ((CapacityLoop g events event offset e n).eng.CapCuts.getD r []).length =
        capCount g g.IdxCap.GetSize r := by
      intro r
      rw [← map_length_getD, hb.trans hshape, map_length_getD, l2]
    have hrow : capRow g n < g.nyears := by
      have := hy n (by omega)
      unfold capRow
      omega
    have hslot : capCount g n (capRow g n) < capCount g g.IdxCap.GetSize (capRow g n) :=
      capCount_lt g (by omega)
    have hstepC : (CapacityLoop g events event offset e (n + 1)).eng.CapCuts =
        (CapacityLoop g events event offset e n).eng.CapCuts.set (capRow g n)
          (((CapacityLoop g events event offset e n).eng.CapCuts.getD (capRow g n) []).set
            (capCount g n (capRow g n)) (capRhs g events event offset e.solution n)) := by
      rw [CapacityLoop_succ]
      simp only [CapacityStep, capRow, capRhs, hc]
      rw [show (CapacityLoop g events event offset e n).copied (g.IdxCap.GetYear n - 1) =
        capCount g n (g.IdxCap.GetYear n - 1) from ha _]
    refine ⟨?_, ?_, ?_, ?_, ?_⟩
    · intro r
      rw [CapacityLoop_succ, capCount_succ]
      simp only [CapacityStep, bump]
      by_cases hr : capRow g n = r
      · subst hr
        simp only [capRow, Function.update_same, if_true]
        rw [ha]
      · rw [if_neg hr]
        have hr2 : r ≠ g.IdxCap.GetYear n - 1 := fun h => hr (by rw [h]; rfl)
        rw [Function.update_noteq hr2, ha]
        rfl
    · rw [hstepC, List.map_set, List.length_set, ← map_length_getD, set_getD_self, hb]
    · rw [CapacityLoop_succ]
      exact hc
    · rw [CapacityLoop_succ]
      simp only [CapacityStep, List.range_succ, List.map_append, List.map_cons, List.map_nil]
      rw [hd, List.append_assoc]
      congr 2
      simp only [capRow, capRhs, hc]
      rw [show (CapacityLoop g events event offset e n).copied (g.IdxCap.GetYear n - 1) =
        capCount g n (g.IdxCap.GetYear n - 1) from ha _]
    · intro i hi
      rw [hstepC, getD_set]
      by_cases hin : i = n
      · subst hin
        rw [if_pos ⟨rfl, by rw [hlen]; exact hrow⟩, rd_set,
          if_pos ⟨rfl, by rw [hrowlen]; exact hslot⟩]
      · have hlt : i < n := by omega
        by_cases hr : capRow g n = capRow g i
        · rw [if_pos ⟨hr, by rw [hlen]; exact hrow⟩, rd_set]
          have hne : capCount g n (capRow g n) ≠ capCount g i (capRow g i) := by
            have := capCount_lt g hlt
            rw [hr]
            omega
          rw [if_neg (fun h => hne h.1), hr]
          exact he i hlt
        · rw [if_neg (fun h => hr h.1)]
          exact he i hlt

/-- Every slot index below the number of entries of a row is the rank of
exactly one entry of that row. -/
theorem capCount_surj (g : Globals) (r : Nat) (n slot : Nat) (h : slot < capCount g n r) :
    ∃ i, i < n ∧ capRow g i = r ∧ capCount g i r = slot := by
  induction n with
  | zero => simp [capCount] at h
  | succ n ih =>
    rw [capCount_succ] at h
    by_cases hs : slot < capCount g n r
    · obtain ⟨i, hi, h1, h2⟩ := ih hs
      exact ⟨i, by omega, h1, h2⟩
    · by_cases hr : capRow g n = r
      · rw [if_pos hr] at h
        exact ⟨n, by omega, hr, by omega⟩
      · rw [if_neg hr] at h
        omega

/-- What `CapacityConstraints` does to the slots built by `LoadProblem`. -/
theorem CapacityConstraints_slots (g : Globals) (events : Nat → ℚ) (event offset : Nat) (e : CPLEX)
    (hy : ∀ i, i < g.IdxCap.GetSize → 1 ≤ g.IdxCap.GetYear i ∧ g.IdxCap.GetYear i ≤ g.nyears)
    (hshape : e.CapCuts.map List.length = (LoadCapCuts g).map List.length) :
    (∀ i, i < g.IdxCap.GetSize →
      g.IdxCap.GetYear i - 1 < e.CapCuts.length ∧
      capSlot g i < (e.CapCuts.getD (g.IdxCap.GetYear i - 1) []).length ∧
      rd ((CapacityConstraints g events event offset e).CapCuts.getD (g.IdxCap.GetYear i - 1) [])
        (capSlot g i) = events (i * (g.Nevents + 1) + event) * rd e.solution (offset + i)) ∧
    (CapacityConstraints g events event offset e).CapCuts.map List.length =
      e.CapCuts.map List.length ∧
    (CapacityConstraints g events event offset e).trace =
      e.trace ++ (List.range g.IdxCap.GetSize).map (fun i =>
        Effect.setUB (g.IdxCap.GetYear i - 1) (capSlot g i)
          (events (i * (g.Nevents + 1) + event) * rd e.solution (offset + i))) ∧
    ∀ row slot, row < e.CapCuts.length → slot < (e.CapCuts.getD row []).length →
      ∃ i, (i < g.IdxCap.GetSize ∧ g.IdxCap.GetYear i - 1 = row ∧ capSlot g i = slot) ∧
        ∀ j, j < g.IdxCap.GetSize ∧ g.IdxCap.GetYear j - 1 = row ∧ capSlot g j = slot → j = i := by
  obtain ⟨-, hb, -, hd, he⟩ := CapacityLoop_inv g events event offset e hy hshape
    g.IdxCap.GetSize (le_refl _)
  obtain ⟨l1, l2⟩ := LoadCapLoop_shape g g.IdxCap.GetSize (le_refl _) hy
  rw [← LoadCapCuts_eq] at l1 l2
  have hlen : e.CapCuts.length = g.nyears := by
    have := congrArg List.length hshape
    simpa [l1] using this
  have hrowlen : ∀ r, (e.CapCuts.getD r []).length = capCount g g.IdxCap.GetSize r := by
    intro r
    rw [← map_length_getD, hshape, map_length_getD, l2]
  rw [CapacityConstraints_eq]
  refine ⟨?_, hb, ?_, ?_⟩
  · intro i hi
    have hyi := hy i hi
    rw [capSlot_eq_count g i hi hy]
    refine ⟨by rw [hlen]; omega, ?_, he i hi⟩
    rw [hrowlen]
    exact capCount_lt g hi
  · rw [hd]
    congr 1
    apply List.map_congr_left
    intro i hi
    rw [capSlot_eq_count g i (List.mem_range.mp hi) hy]
    rfl
  · intro row slot _ hslot
    rw [hrowlen] at hslot
    obtain ⟨i, hi, h1, h2⟩ := capCount_surj g row _ slot hslot
    refine ⟨i, ⟨hi, h1, ?_⟩, ?_⟩
    · rw [capSlot_eq_count g i hi hy, h1, h2]
    · rintro j ⟨hj, hj1, hj2⟩
      rw [capSlot_eq_count g j hj hy] at hj2
      have hj1b : capRow g j = row := hj1
      rw [hj1b] at hj2
      by_contra hne
      rcases Nat.lt_or_gt_of_ne hne with hlt | hgt
      · have := capCount_lt g hlt
        rw [hj1b] at this
        omega
      · have := capCount_lt g hgt
        rw [h1] at this
        omega

/-- C12: on slots shaped as `LoadProblem` built them and with every
capacity-table year in `1 .. nyears`, after
`CapacityConstraints(events, event, offset)` the upper bound of slot `k` of
`CapCuts[y-1]` equals `events[i*(Nevents+1)+event] * solution[offset+i]` for
every entry `i` of year `y` that is the `k`-th entry of its year in table
order; every slot index written is in range, the bound rewrites are exactly
one per entry in table order, every existing slot is the target of exactly
one entry, and the number of slots of every row is unchanged. -/
theorem C12_CapacityConstraints_overwrites_each_slot (g : Globals) (events : Nat → ℚ)
    (event offset : Nat) (e : CPLEX)
    (hy : ∀ i, i < g.IdxCap.GetSize → 1 ≤ g.IdxCap.GetYear i ∧ g.IdxCap.GetYear i ≤ g.nyears)
    (hshape : e.CapCuts.map List.length = (LoadCapCuts g).map List.length) :
    (∀ i, i < g.IdxCap.GetSize →
      g.IdxCap.GetYear i - 1 < e.CapCuts.length ∧
      capSlot g i < (e.CapCuts.getD (g.IdxCap.GetYear i - 1) []).length ∧
      rd ((CapacityConstraints g events event offset e).CapCuts.getD (g.IdxCap.GetYear i - 1) [])
        (capSlot g i) = events (i * (g.Nevents + 1) + event) * rd e.solution (offset + i)) ∧
    (CapacityConstraints g events event offset e).CapCuts.map List.length =
      e.CapCuts.map List.length ∧
    (CapacityConstraints g events event offset e).trace =
      e.trace ++ (List.range g.IdxCap.GetSize).map (fun i =>
        Effect.setUB (g.IdxCap.GetYear i - 1) (capSlot g i)
          (events (i * (g.Nevents + 1) + event) * rd e.solution (offset + i))) ∧
    ∀ row slot, row < e.CapCuts.length → slot < (e.CapCuts.getD row []).length →
      ∃ i, (i < g.IdxCap.GetSize ∧ g.IdxCap.GetYear i - 1 = row ∧ capSlot g i = slot) ∧
        ∀ j, j < g.IdxCap.GetSize ∧ g.IdxCap.GetYear j - 1 = row ∧ capSlot g j = slot → j = i :=
  CapacityConstraints_slots g events event offset e hy hshape

theorem C12_CapacityConstraints_overwrites_each_slot_witness :
    (∀ i, i < gOne.IdxCap.GetSize →
      1 ≤ gOne.IdxCap.GetYear i ∧ gOne.IdxCap.GetYear i ≤ gOne.nyears) ∧
    engOne.CapCuts.map List.length = (LoadCapCuts gOne).map List.length ∧
    (CapacityConstraints gOne evOne 1 0 engOne).CapCuts.map List.length =
      engOne.CapCuts.map List.length := by
  have hy : ∀ i, i < gOne.IdxCap.GetSize →
      1 ≤ gOne.IdxCap.GetYear i ∧ gOne.IdxCap.GetYear i ≤ gOne.nyears := by
    intro i hi
    have h0 : i = 0 := by
      simp [gOne, Index.GetSize] at hi
      exact hi
    subst h0
    exact ⟨le_refl 1, le_refl 1⟩
  exact ⟨hy, rfl,
    (C12_CapacityConstraints_overwrites_each_slot gOne evOne 1 0 engOne hy rfl).2.1⟩

/-! ## The per-event totals `ResilObj` -/

theorem resilPasses_eq (g : Globals) (orc : Nat → SolveResult) (events : Nat → ℚ) (e : CPLEX) :
    resilPasses g orc events e = resilUpTo g orc events e g.Nevents := rfl

theorem resilUpTo_succ (g : Globals) (orc : Nat → SolveResult) (events : Nat → ℚ) (e : CPLEX)
    (n : Nat) :
    resilUpTo g orc events e (n + 1) = eventStep g orc events (resilUpTo g orc events e n) (n + 1) := by
  simp [resilUpTo, List.range_succ, List.foldl_append]

theorem subFold (cond : Nat → Prop) [DecidablePred cond] (c : ℚ) (ro : Nat → ℚ) (n ev : Nat) :
    ((List.range n).foldl (fun ro k => if cond k then Function.update ro k (ro k - c) else ro) ro) ev
      = if ev < n ∧ cond ev then ro ev - c else ro ev := by
  induction n with
  | zero => simp
  | succ n ih =>
    rw [List.range_succ, List.foldl_append]
    simp only [List.foldl_cons, List.foldl_nil]
    by_cases hc : cond n
    · rw [if_pos hc]
      by_cases hev : ev = n
      · subst hev
        rw [Function.update_same, ih, if_neg (by omega), if_pos ⟨by omega, hc⟩]
      · rw [Function.update_noteq hev, ih]
        by_cases h1 : ev < n ∧ cond ev
        · rw [if_pos h1, if_pos ⟨by omega, h1.2⟩]
        · rw [if_neg h1, if_neg (fun h => h1 ⟨by omega, h.2⟩)]
    · rw [if_neg hc, ih]
      by_cases h1 : ev < n ∧ cond ev
      · rw [if_pos h1, if_pos ⟨by omega, h1.2⟩]
      · rw [if_neg h1]
        by_cases hev : ev = n
        · subst hev
          rw [if_neg (fun h => hc h.2)]
        · rw [if_neg (fun h => h1 ⟨by omega, h.2⟩)]

/-- One pass of the baseline accumulation loop, for year `k + 1`. -/
theorem resilBaseStep_spec (g : Globals) (orc : Nat → SolveResult) (events : Nat → ℚ)
    (r : ResilState) (k : Nat) :
    (∀ i, i ≠ k + 1 →
      (resilBaseStep g orc events r (k + 1)).eng.cplex i = r.eng.cplex i) ∧
    (g.useBenders = true → (resilBaseStep g orc events r (k + 1)).eng.cplex = r.eng.cplex) ∧
    ∀ ev, ev < g.Nevents →
      (resilBaseStep g orc events r (k + 1)).ResilObj ev =
        if trigBit g events k = true ∧ eventBit g events k ev = true then
          r.ResilObj ev - ((resilBaseStep g orc events r (k + 1)).eng.cplex (k + 1)).objval
        else r.ResilObj ev := by
  unfold resilBaseStep
  simp only [Nat.add_sub_cancel]
  by_cases ht : events (g.IdxCap.GetSize * (g.Nevents + 1) + k * (g.Nevents + 1)) = 1
  · have htb : trigBit g events k = true := by simp [trigBit, ht]
    simp only [ht, if_true, htb, true_and]
    refine ⟨?_, ?_, ?_⟩
    · intro i hi
      split
      · simp [solve, Function.update_noteq hi, (CapacityConstraints_frame g events 0 0 r.eng).1]
      · rfl
    · intro hB
      simp [hB]
    · intro ev hev
      rw [subFold (fun k2 => events (g.IdxCap.GetSize * (g.Nevents + 1) + k * (g.Nevents + 1) +
        (k2 + 1)) = 1)]
      by_cases hb : events (g.IdxCap.GetSize * (g.Nevents + 1) + k * (g.Nevents + 1) + (ev + 1)) = 1
      · have hbb : eventBit g events k ev = true := by simp [eventBit, hb]
        rw [if_pos ⟨hev, hb⟩, if_pos hbb]
      · have hbb : ¬ eventBit g events k ev = true := by simp [eventBit, hb]
        rw [if_neg (fun h => hb h.2), if_neg hbb]
  · have htb : ¬ trigBit g events k = true := by simp [trigBit, ht]
    simp only [ht, if_false, htb, false_and]
    exact ⟨fun _ _ => trivial, fun _ => trivial, fun _ _ => rfl⟩

theorem resilBase_succ (g : Globals) (orc : Nat → SolveResult) (events : Nat → ℚ) (e : CPLEX)
    (n : Nat) :
    (List.range (n + 1)).foldl (fun r k => resilBaseStep g orc events r (k + 1))
        (⟨e, fun _ => 0, true⟩ : ResilState) =
      resilBaseStep g orc events
        ((List.range n).foldl (fun r k => resilBaseStep g orc events r (k + 1))
          (⟨e, fun _ => 0, true⟩ : ResilState)) (n + 1) := by
  simp [List.range_succ, List.foldl_append]

theorem baseYears_succ (g : Globals) (events : Nat → ℚ) (ev n : Nat) :
    baseYears g events ev (n + 1) = baseYears g events ev n ++
      (if trigBit g events n = true ∧ eventBit g events n ev = true then [n] else []) := by
  unfold baseYears
  rw [List.range_succ, List.filter_append]
  congr 1
  by_cases h : trigBit g events n = true ∧ eventBit g events n ev = true
  · simp [List.filter, h.1, h.2]
  · rw [if_neg h]
    have : (trigBit g events n && eventBit g events n ev) = false := by
      cases h1 : trigBit g events n <;> cases h2 : eventBit g events n ev <;> simp_all
    simp [List.filter, this]

theorem eventYears_succ (g : Globals) (events : Nat → ℚ) (ev n : Nat) :
    eventYears g events ev (n + 1) = eventYears g events ev n ++
      (if eventBit g events n ev = true then [n] else []) := by
  unfold eventYears
  rw [List.range_succ, List.filter_append]
  congr 1
  by_cases h : eventBit g events n ev = true
  · simp [List.filter, h]
  · simp [List.filter, h]

theorem mem_baseYears_lt (g : Globals) (events : Nat → ℚ) (ev n k : Nat)
    (h : k ∈ baseYears g events ev n) : k < n := by
  unfold baseYears at h
  exact List.mem_range.mp (List.mem_filter.mp h).1

theorem mem_eventYears (g : Globals) (events : Nat → ℚ) (ev n k : Nat) :
    k ∈ eventYears g events ev n ↔ k < n ∧ eventBit g events k ev = true := by
  unfold eventYears
  rw [List.mem_filter, List.mem_range]

/-- After the first `n` passes of the baseline accumulation loop the total
of event `ev + 1` is minus the sum of the objectives of the years processed
so far whose trigger bit and event bit are both 1. -/
theorem resilBase_inv (g : Globals) (orc : Nat → SolveResult) (events : Nat → ℚ) (e : CPLEX)
    (n ev : Nat) (hev : ev < g.Nevents) :
    ((List.range n).foldl (fun r k => resilBaseStep g orc events r (k + 1))
        (⟨e, fun _ => 0, true⟩ : ResilState)).ResilObj ev =
      -((baseYears g events ev n).map (fun k =>
        (((List.range n).foldl (fun r k => resilBaseStep g orc events r (k + 1))
          (⟨e, fun _ => 0, true⟩ : ResilState)).eng.cplex (k + 1)).objval)).sum := by
  induction n with
  | zero => simp [baseYears]
  | succ n ih =>
    rw [resilBase_succ]
    obtain ⟨s1, -, s3⟩ := resilBaseStep_spec g orc events
      ((List.range n).foldl (fun r k => resilBaseStep g orc events r (k + 1))
        (⟨e, fun _ => 0, true⟩ : ResilState)) n
    rw [s3 ev hev, baseYears_succ, List.map_append, List.sum_append, ih]
    have hold : (baseYears g events ev n).map (fun k =>
        ((resilBaseStep g orc events
          ((List.range n).foldl (fun r k => resilBaseStep g orc events r (k + 1))
            (⟨e, fun _ => 0, true⟩ : ResilState)) (n + 1)).eng.cplex (k + 1)).objval) =
        (baseYears g events ev n).map (fun k =>
          (((List.range n).foldl (fun r k => resilBaseStep g orc events r (k + 1))
            (⟨e, fun _ => 0, true⟩ : ResilState)).eng.cplex (k + 1)).objval) := by
      apply List.map_congr_left
      intro k hk
      have := mem_baseYears_lt g events ev n k hk
      rw [s1 (k + 1) (by omega)]
    rw [hold]
    by_cases h : trigBit g events n = true ∧ eventBit g events n ev = true
    · rw [if_pos h, if_pos h]
      simp only [List.map_cons, List.map_nil, List.sum_cons, List.sum_nil]
      ring
    · rw [if_neg h, if_neg h]
      simp

theorem resilBase_benders (g : Globals) (orc : Nat → SolveResult) (events : Nat → ℚ) (e : CPLEX)
    (hB : g.useBenders = true) : (resilBase g orc events e).eng.cplex = e.cplex := by
  unfold resilBase
  apply foldl_inv (fun r : ResilState => r.eng.cplex = e.cplex)
  · rfl
  · intro x b hx
    rw [(resilBaseStep_spec g orc events x b).2.1 hB, hx]

theorem StoreDualSolutionEvent_cplex (g : Globals) (event : Nat) (years : Nat → ℚ) (e : CPLEX) :
    (StoreDualSolutionEvent g event years e).cplex = e.cplex := by
  unfold StoreDualSolutionEvent
  apply foldl_inv (fun a : DualAcc => a.eng.cplex = e.cplex)
  · rfl
  · intro x b hx
    simp only
    split <;> exact hx

theorem eventYearStep_inv2 (g : Globals) (orc : Nat → SolveResult) (events : Nat → ℚ)
    (r : ResilState) (ev n : Nat) (a : EventState) (h : EventInv g orc events r ev n a) :
    EventInv g orc events r ev (n + 1) (eventYearStep g orc events (ev + 1) a (n + 1)) := by
  obtain ⟨h1, h2, h3⟩ := h
  unfold eventYearStep
  simp only [Nat.add_sub_cancel]
  cases hf : a.current_feasible with
  | false =>
    simp only [Bool.not_false, if_true]
    refine ⟨h1, fun hc => by rw [hf] at hc; exact absurd hc (by simp), fun _ => ?_⟩
    obtain ⟨k, hk, hrest⟩ := h3 hf
    exact ⟨k, by omega, hrest⟩
  | true =>
    simp only [Bool.not_true, Bool.false_eq_true, if_false]
    obtain ⟨h2a, h2b⟩ := h2 hf
    by_cases hb : events (g.IdxCap.GetSize * (g.Nevents + 1) + n * (g.Nevents + 1) + (ev + 1)) = 1
    · have hbb : eventBit g events n ev = true := by simp [eventBit, hb]
      simp only [hb, if_true]
      have hans : (solve orc (ev + 1) (n + 1) a.rs.eng).cplex (n + 1) = orc a.rs.eng.calls := by
        simp [solve]
      have hother : ∀ i, i ≠ n + 1 →
          (solve orc (ev + 1) (n + 1) a.rs.eng).cplex i = a.rs.eng.cplex i := by
        intro i hi
        simp [solve, Function.update_noteq hi]
      by_cases hst : ((solve orc (ev + 1) (n + 1) a.rs.eng).cplex (n + 1)).status = Status.optimal
      · simp only [hst, ne_eq, not_true_eq_false, if_false]
        refine ⟨?_, fun _ => ⟨?_, ?_⟩, fun hc => by simp at hc⟩
        · intro ev2 hev2
          simp only [Function.update_noteq hev2]
          exact h1 ev2 hev2
        · simp only [Function.update_same]
          rw [eventYears_succ, if_pos hbb, List.map_append, List.sum_append, h2a]
          have hold : (eventYears g events ev n).map (fun k =>
              ((solve orc (ev + 1) (n + 1) a.rs.eng).cplex (k + 1)).objval) =
              (eventYears g events ev n).map (fun k => (a.rs.eng.cplex (k + 1)).objval) := by
            apply List.map_congr_left
            intro k hk
            have := ((mem_eventYears g events ev n k).mp hk).1
            rw [hother (k + 1) (by omega)]
          rw [hold]
          simp only [List.map_cons, List.map_nil, List.sum_cons, List.sum_nil]
          ring
        · intro k hk
          rw [eventYears_succ, if_pos hbb] at hk
          rcases List.mem_append.mp hk with hk | hk
          · have := ((mem_eventYears g events ev n k).mp hk).1
            obtain ⟨m, hm⟩ := h2b k hk
            exact ⟨m, by rw [hother (k + 1) (by omega)]; exact hm⟩
          · rw [List.mem_singleton.mp hk]
            exact ⟨_, hans⟩
      · simp only [hst, ne_eq, not_false_eq_true, if_true]
        refine ⟨?_, fun hc => by simp at hc, fun _ => ⟨n, by omega, hbb, hst, _, hans⟩⟩
        intro ev2 hev2
        simp only [Function.update_noteq hev2]
        exact h1 ev2 hev2
    · have hbb : ¬ eventBit g events n ev = true := by simp [eventBit, hb]
      simp only [hb, if_false]
      refine ⟨h1, fun _ => ⟨?_, ?_⟩, fun hc => by simp at hc⟩
      · rw [eventYears_succ, if_neg hbb, List.append_nil]
        exact h2a
      · intro k hk
        rw [eventYears_succ, if_neg hbb, List.append_nil] at hk
        exact h2b k hk

/-- The evaluation of event `ev + 1`: the totals of the other events are left
alone; either every re-solved year was answered and the total of the event
grew by the sum of their objectives, or some re-solved year was answered
with a status other than optimal. -/
theorem eventStep_spec (g : Globals) (orc : Nat → SolveResult) (events : Nat → ℚ)
    (r : ResilState) (ev : Nat) :
    (∀ ev2, ev2 ≠ ev → (eventStep g orc events r (ev + 1)).ResilObj ev2 = r.ResilObj ev2) ∧
    (((eventStep g orc events r (ev + 1)).ResilObj ev = r.ResilObj ev +
        ((eventYears g events ev g.nyears).map (fun k =>
          ((eventStep g orc events r (ev + 1)).eng.cplex (k + 1)).objval)).sum ∧
      ∀ k ∈ eventYears g events ev g.nyears,
        ∃ m, (eventStep g orc events r (ev + 1)).eng.cplex (k + 1) = orc m) ∨
     ∃ k, k < g.nyears ∧ eventBit g events k ev = true ∧
       ((eventStep g orc events r (ev + 1)).eng.cplex (k + 1)).status ≠ Status.optimal ∧
       ∃ m, (eventStep g orc events r (ev + 1)).eng.cplex (k + 1) = orc m) := by
  have hinit : EventInv g orc events r ev 0
      ⟨{ r with eng := CapacityConstraints g events (ev + 1) 0 r.eng }, true, fun _ => 0⟩ := by
    refine ⟨fun _ _ => rfl, fun _ => ⟨by simp [eventYears], by simp [eventYears]⟩,
      fun hc => by simp at hc⟩
  have hloop : ∀ n, EventInv g orc events r ev n
      ((List.range n).foldl (fun a k => eventYearStep g orc events (ev + 1) a (k + 1))
        ⟨{ r with eng := CapacityConstraints g events (ev + 1) 0 r.eng }, true, fun _ => 0⟩) := by
    intro n
    induction n with
    | zero => exact hinit
    | succ n ih =>
      rw [List.range_succ, List.foldl_append]
      exact eventYearStep_inv2 g orc events r ev n _ ih
  obtain ⟨h1, h2, h3⟩ := hloop g.nyears
  unfold eventStep
  simp only
  cases hf : ((List.range g.nyears).foldl
      (fun a k => eventYearStep g orc events (ev + 1) a (k + 1))
      ⟨{ r with eng := CapacityConstraints g events (ev + 1) 0 r.eng }, true, fun _ => 0⟩).current_feasible with
  | true =>
    simp only [if_true]
    obtain ⟨h2a, h2b⟩ := h2 hf
    refine ⟨h1, Or.inl ⟨?_, ?_⟩⟩
    · simp only [StoreDualSolutionEvent_cplex]
      exact h2a
    · intro k hk
      simp only [StoreDualSolutionEvent_cplex]
      exact h2b k hk
  | false =>
    simp only [Bool.false_eq_true, if_false]
    exact ⟨h1, Or.inr (h3 hf)⟩

/-- The total of an event is settled by its own evaluation: before it, it is
the value left by the baseline accumulation; after it, it no longer changes. -/
theorem resilUpTo_ResilObj (g : Globals) (orc : Nat → SolveResult) (events : Nat → ℚ) (e : CPLEX)
    (ev n : Nat) :
    (n ≤ ev → (resilUpTo g orc events e n).ResilObj ev = (resilBase g orc events e).ResilObj ev) ∧
    (ev < n → (resilUpTo g orc events e n).ResilObj ev =
      (resilUpTo g orc events e (ev + 1)).ResilObj ev) := by
  induction n with
  | zero => exact ⟨fun _ => rfl, fun h => by omega⟩
  | succ n ih =>
    rw [resilUpTo_succ]
    obtain ⟨s1, -⟩ := eventStep_spec g orc events (resilUpTo g orc events e n) n
    constructor
    · intro h
      rw [s1 ev (by omega)]
      exact ih.1 (by omega)
    · intro h
      by_cases hn : ev = n
      · subst hn
        rw [resilUpTo_succ]
      · rw [s1 ev hn]
        exact ih.2 (by omega)

/-- The total of a feasible event: the sum of the objectives of the years
re-solved under the event minus the sum of the baseline objectives of the
years whose trigger bit and event bit are both 1. -/
theorem event_total (g : Globals) (orc : Nat → SolveResult) (events : Nat → ℚ) (e : CPLEX)
    (ev : Nat) (hev : ev < g.Nevents)
    (hfeas : ∀ k, k < g.nyears → eventBit g events k ev = true →
      ((resilUpTo g orc events e (ev + 1)).eng.cplex (k + 1)).status = Status.optimal) :
    (resilPasses g orc events e).ResilObj ev =
      ((eventYears g events ev g.nyears).map (eventObjective g orc events e ev)).sum -
      ((baseYears g events ev g.nyears).map (baseObjective g orc events e)).sum := by
  rw [resilPasses_eq, (resilUpTo_ResilObj g orc events e ev g.Nevents).2 hev]
  have hbase : (resilUpTo g orc events e ev).ResilObj ev =
      -((baseYears g events ev g.nyears).map (baseObjective g orc events e)).sum := by
    rw [(resilUpTo_ResilObj g orc events e ev ev).1 (le_refl _)]
    exact resilBase_inv g orc events e g.nyears ev hev
  obtain ⟨-, s2⟩ := eventStep_spec g orc events (resilUpTo g orc events e ev) ev
  rw [← resilUpTo_succ] at s2
  rcases s2 with ⟨s2a, -⟩ | ⟨k, hk, hb, hst, -⟩
  · rw [s2a, hbase]
    unfold eventObjective
    ring
  · exact absurd (hfeas k hk hb) hst

theorem sum_map_sub (l : List Nat) (f h : Nat → ℚ) :
    (l.map (fun k => f k - h k)).sum = (l.map f).sum - (l.map h).sum := by
  induction l with
  | nil => simp
  | cons a t ih =>
    simp only [List.map_cons, List.sum_cons, ih]
    ring

theorem baseYears_eq_eventYears (g : Globals) (events : Nat → ℚ) (ev n : Nat)
    (hgate : ∀ k, k < n → eventBit g events k ev = true → trigBit g events k = true) :
    baseYears g events ev n = eventYears g events ev n := by
  unfold baseYears eventYears
  apply List.filter_congr
  intro k hk
  have hk2 := List.mem_range.mp hk
  cases hb : eventBit g events k ev with
  | false => simp
  | true => simp [hgate k hk2 hb]

/-- The per-event total that `SolveIndividual` computes for a feasible event. -/
theorem SolveIndividual_event_total (g : Globals) (orc : Nat → SolveResult)
    (objective : Nat → ℚ) (events : Nat → ℚ) (returnString : Option (List ℚ)) (e : CPLEX) (ev : Nat)
    (hopt : (baseline g orc events objective { e with trace := [] }).optimal = true)
    (hev : ev < g.Nevents)
    (hfeas : ∀ k, k < g.nyears → eventBit g events k ev = true →
      ((resilUpTo g orc events (baseline g orc events objective { e with trace := [] }).eng
        (ev + 1)).eng.cplex (k + 1)).status = Status.optimal) :
    (SolveIndividual g orc objective events returnString e).ResilObj ev =
        ((eventYears g events ev g.nyears).map (eventObjective g orc events
          (baseline g orc events objective { e with trace := [] }).eng ev)).sum -
        ((baseYears g events ev g.nyears).map (baseObjective g orc events
          (baseline g orc events objective { e with trace := [] }).eng)).sum ∧
    ((∀ k, k < g.nyears → eventBit g events k ev = true → trigBit g events k = true) →
      (SolveIndividual g orc objective events returnString e).ResilObj ev =
        ((eventYears g events ev g.nyears).map (fun k =>
          eventObjective g orc events
              (baseline g orc events objective { e with trace := [] }).eng ev k -
            baseObjective g orc events
              (baseline g orc events objective { e with trace := [] }).eng k)).sum) := by
  have hro := (SolveIndividual_resil g orc objective events returnString e hopt (by omega)).2.1
  have ht := event_total g orc events (baseline g orc events objective { e with trace := [] }).eng
    ev hev hfeas
  rw [hro]
  refine ⟨ht, fun hgate => ?_⟩
  rw [ht, baseYears_eq_eventYears g events ev g.nyears hgate, sum_map_sub]

/-- With the solver `orcConv` every event is feasible. -/
theorem orcConv_feasible (g : Globals) (events : Nat → ℚ) (e : CPLEX) (ev : Nat) :
    ∀ k, k < g.nyears → eventBit g events k ev = true →
      ((resilUpTo g orcConv events e (ev + 1)).eng.cplex (k + 1)) =
        ⟨Status.optimal, 10, [10, 5, 7], [2], [1]⟩ := by
  intro k hk hb
  obtain ⟨-, s2⟩ := eventStep_spec g orcConv events (resilUpTo g orcConv events e ev) ev
  rw [← resilUpTo_succ] at s2
  rcases s2 with ⟨-, s2b⟩ | ⟨k2, -, -, hst, m, hm⟩
  · obtain ⟨m, hm⟩ := s2b k ((mem_eventYears g events ev g.nyears k).mpr ⟨hk, hb⟩)
    rw [hm]
    rfl
  · rw [hm] at hst
    exact absurd rfl hst

/-- With the solver `orcConv` an iteration on `gOne` raises no counter,
whatever the contingency pattern. -/
theorem orcConv_iter_any (events : Nat → ℚ) (s : LoopState) (hsb : s.broke = false) :
    (BendersIter gOne orcConv events s).broke = false ∧
    (BendersIter gOne orcConv events s).OptCuts + (BendersIter gOne orcConv events s).FeasCuts = 0 := by
  have hq : (orcConv s.eng.calls).solved = true := rfl
  obtain ⟨q1, -, -, -, -⟩ := BendersIter_solved gOne orcConv events s hq
  refine ⟨q1.trans hsb, ?_⟩
  obtain ⟨c1, c2⟩ := BendersIter_counters gOne orcConv events s hq
  have hsol : (CapacityConstraints gOne events 0 gOne.nyears
      (StoreSolution gOne true (solve orcConv 0 0 s.eng))).solution = [10, 5, 7] := by
    rw [(CapacityConstraints_frame gOne events 0 gOne.nyears _).2.1, StoreSolution_master]
    simp [solve, orcConv]
  obtain ⟨y1, y2⟩ := yearLoop_quiet orcConv
    { s with iter := s.iter + 1, OptCuts := 0, FeasCuts := 0,
             eng := CapacityConstraints gOne events 0 gOne.nyears
               (StoreSolution gOne true (solve orcConv 0 0 s.eng)) } gOne.nyears (by
      intro m k hk
      have hk0 : k = 0 := by simp [gOne] at hk; omega
      subst hk0
      refine ⟨rfl, ?_⟩
      show ¬ rd (CapacityConstraints gOne events 0 gOne.nyears
        (StoreSolution gOne true (solve orcConv 0 0 s.eng))).solution 0 ≤ _
      rw [hsol]
      norm_num [rd, orcConv])
  rw [c1, c2, y1, y2]
  rfl

/-- On `gOne` with the solver `orcConv` the loop converges in its first
iteration: the baseline is optimal and the model of year 1 holds an answer
of the solver. -/
theorem orcConv_baseline (events : Nat → ℚ) (objective : Nat → ℚ) (e : CPLEX) :
    (baseline gOne orcConv events objective e).optimal = true ∧
    (baseline gOne orcConv events objective e).eng.cplex 1 =
      ⟨Status.optimal, 10, [10, 5, 7], [2], [1]⟩ := by
  obtain ⟨b1, b2⟩ := baseline_eng_benders gOne orcConv events objective e rfl
  obtain ⟨k1, k2⟩ := orcConv_iter_any events (loopInit e) rfl
  have hB := (Benders_first gOne orcConv events e).2 (Or.inr k2)
  have hq : (orcConv (loopInit e).eng.calls).solved = true := rfl
  obtain ⟨-, q2, -, -, q5⟩ := BendersIter_solved gOne orcConv events (loopInit e) hq
  constructor
  · rw [b2, hB, q2]
    rfl
  · rw [b1, hB]
    obtain ⟨-, -, m, hm⟩ := q5 k2 0 (Nat.lt_succ_self 0)
    simp only [Nat.zero_add] at hm
    rw [hm]
    rfl

/-- C11, amended: for every contingency pattern and every event `ev + 1` in
`1 .. Nevents` whose re-solved years are all feasible, `ResilObj[ev]` equals
the sum, over the years whose bit of the event is 1, of the objective of the
year re-solved under the event, minus the sum, over the years whose trigger
bit and bit of the event are both 1, of the baseline objective of the year;
when every year that carries the bit of the event also carries the trigger
bit, this is the sum over those years of (objective under the event minus
baseline objective). -/
theorem C11_event_total_gated_by_trigger (g : Globals) (orc : Nat → SolveResult)
    (objective : Nat → ℚ) (events : Nat → ℚ) (returnString : Option (List ℚ)) (e : CPLEX) (ev : Nat)
    (hopt : (baseline g orc events objective { e with trace := [] }).optimal = true)
    (hev : ev < g.Nevents)
    (hfeas : ∀ k, k < g.nyears → eventBit g events k ev = true →
      ((resilUpTo g orc events (baseline g orc events objective { e with trace := [] }).eng
        (ev + 1)).eng.cplex (k + 1)).status = Status.optimal) :
    (SolveIndividual g orc objective events returnString e).ResilObj ev =
        ((eventYears g events ev g.nyears).map (eventObjective g orc events
          (baseline g orc events objective { e with trace := [] }).eng ev)).sum -
        ((baseYears g events ev g.nyears).map (baseObjective g orc events
          (baseline g orc events objective { e with trace := [] }).eng)).sum ∧
    ((∀ k, k < g.nyears → eventBit g events k ev = true → trigBit g events k = true) →
      (SolveIndividual g orc objective events returnString e).ResilObj ev =
        ((eventYears g events ev g.nyears).map (fun k =>
          eventObjective g orc events
              (baseline g orc events objective { e with trace := [] }).eng ev k -
            baseObjective g orc events
              (baseline g orc events objective { e with trace := [] }).eng k)).sum) :=
  SolveIndividual_event_total g orc objective events returnString e ev hopt hev hfeas

theorem C11_event_total_gated_by_trigger_witness :
    (baseline gOne orcConv evOne (fun _ => 0) { engOne with trace := [] }).optimal = true ∧
    0 < gOne.Nevents ∧
    (∀ k, k < gOne.nyears → eventBit gOne evOne k 0 = true →
      ((resilUpTo gOne orcConv evOne
        (baseline gOne orcConv evOne (fun _ => 0) { engOne with trace := [] }).eng
        (0 + 1)).eng.cplex (k + 1)).status = Status.optimal) ∧
    (SolveIndividual gOne orcConv (fun _ => 0) evOne none engOne).ResilObj 0 =
      ((eventYears gOne evOne 0 gOne.nyears).map (eventObjective gOne orcConv evOne
        (baseline gOne orcConv evOne (fun _ => 0) { engOne with trace := [] }).eng 0)).sum -
      ((baseYears gOne evOne 0 gOne.nyears).map (baseObjective gOne orcConv evOne
        (baseline gOne orcConv evOne (fun _ => 0) { engOne with trace := [] }).eng)).sum := by
  have hopt := (orcConv_baseline evOne (fun _ => 0) { engOne with trace := [] }).1
  have hfeas : ∀ k, k < gOne.nyears → eventBit gOne evOne k 0 = true →
      ((resilUpTo gOne orcConv evOne
        (baseline gOne orcConv evOne (fun _ => 0) { engOne with trace := [] }).eng
        (0 + 1)).eng.cplex (k + 1)).status = Status.optimal := by
    intro k hk hb
    rw [orcConv_feasible gOne evOne _ 0 k hk hb]
  exact ⟨hopt, by decide, hfeas,
    (C11_event_total_gated_by_trigger gOne orcConv (fun _ => 0) evOne none engOne 0 hopt
      (by decide) hfeas).1⟩

/-- C11, counterexample: on `gOne` with the pattern `evGate` (year 1 carries
the bit of event 1 but not the trigger bit) and a solver that answers every
solve "optimal, objective 10", event 1 is feasible and `ResilObj[0]` is 10,
the objective of year 1 under the event, whereas the sum over the years of
the event of (objective under the event minus baseline objective) is 0. -/
theorem C11_trigger_gate_counterexample :
    (∀ k, k < gOne.nyears → eventBit gOne evGate k 0 = true →
      ((resilUpTo gOne orcConv evGate
        (baseline gOne orcConv evGate (fun _ => 0) { engOne with trace := [] }).eng
        (0 + 1)).eng.cplex (k + 1)).status = Status.optimal) ∧
    (SolveIndividual gOne orcConv (fun _ => 0) evGate none engOne).ResilObj 0 = 10 ∧
    ((eventYears gOne evGate 0 gOne.nyears).map (fun k =>
      eventObjective gOne orcConv evGate
          (baseline gOne orcConv evGate (fun _ => 0) { engOne with trace := [] }).eng 0 k -
        baseObjective gOne orcConv evGate
          (baseline gOne orcConv evGate (fun _ => 0) { engOne with trace := [] }).eng k)).sum = 0 := by
  obtain ⟨hopt, hyear⟩ := orcConv_baseline evGate (fun _ => 0) { engOne with trace := [] }
  have hfeas : ∀ k, k < gOne.nyears → eventBit gOne evGate k 0 = true →
      ((resilUpTo gOne orcConv evGate
        (baseline gOne orcConv evGate (fun _ => 0) { engOne with trace := [] }).eng
        (0 + 1)).eng.cplex (k + 1)).status = Status.optimal := by
    intro k hk hb
    rw [orcConv_feasible gOne evGate _ 0 k hk hb]
  have hbit : eventBit gOne evGate 0 0 = true := by
    simp [eventBit, gOne, evGate, Index.GetSize]
  have htrig : trigBit gOne evGate 0 = false := by
    simp [trigBit, gOne, evGate, Index.GetSize]
  have hEv : eventYears gOne evGate 0 gOne.nyears = [0] := by
    have h1 : gOne.nyears = 0 + 1 := rfl
    rw [h1, eventYears_succ, if_pos hbit]
    rfl
  have hBase : baseYears gOne evGate 0 gOne.nyears = [] := by
    have h1 : gOne.nyears = 0 + 1 := rfl
    rw [h1, baseYears_succ, if_neg (by rw [htrig]; simp)]
    rfl
  have hEvObj : eventObjective gOne orcConv evGate
      (baseline gOne orcConv evGate (fun _ => 0) { engOne with trace := [] }).eng 0 0 = 10 := by
    unfold eventObjective
    rw [orcConv_feasible gOne evGate _ 0 0 (by decide) hbit]
  have hBaseObj : baseObjective gOne orcConv evGate
      (baseline gOne orcConv evGate (fun _ => 0) { engOne with trace := [] }).eng 0 = 10 := by
    unfold baseObjective
    simp only [Nat.zero_add]
    rw [resilBase_benders gOne orcConv evGate _ rfl, hyear]
  refine ⟨hfeas, ?_, ?_⟩
  · rw [(SolveIndividual_event_total gOne orcConv (fun _ => 0) evGate none engOne 0 hopt
      (by decide) hfeas).1, hEv, hBase]
    simp [hEvObj]
  · rw [hEv]
    simp [hEvObj, hBaseObj]

/-! ## The flag `ResilOptimal` and the resiliency score -/

theorem eventYearStep_flag (g : Globals) (orc : Nat → SolveResult) (events : Nat → ℚ)
    (r : ResilState) (ev n : Nat) (a : EventState) (h : EventFlagInv g events r ev n a) :
    EventFlagInv g events r ev (n + 1) (eventYearStep g orc events (ev + 1) a (n + 1)) := by
  obtain ⟨h2, h3⟩ := h
  unfold eventYearStep
  simp only [Nat.add_sub_cancel]
  cases hf : a.current_feasible with
  | false =>
    simp only [Bool.not_false, if_true]
    refine ⟨fun hc => by rw [hf] at hc; exact absurd hc (by simp), fun _ => ?_⟩
    obtain ⟨hfl, k, hk, hrest⟩ := h3 hf
    exact ⟨hfl, k, by omega, hrest⟩
  | true =>
    simp only [Bool.not_true, Bool.false_eq_true, if_false]
    obtain ⟨h2a, h2b⟩ := h2 hf
    by_cases hb : events (g.IdxCap.GetSize * (g.Nevents + 1) + n * (g.Nevents + 1) + (ev + 1)) = 1
    · have hbb : eventBit g events n ev = true := by simp [eventBit, hb]
      simp only [hb, if_true]
      have hother : ∀ i, i ≠ n + 1 →
          (solve orc (ev + 1) (n + 1) a.rs.eng).cplex i = a.rs.eng.cplex i := by
        intro i hi
        simp [solve, Function.update_noteq hi]
      by_cases hst : ((solve orc (ev + 1) (n + 1) a.rs.eng).cplex (n + 1)).status = Status.optimal
      · simp only [hst, ne_eq, not_true_eq_false, if_false]
        refine ⟨fun _ => ⟨h2a, ?_⟩, fun hc => by simp at hc⟩
        intro k hk
        rw [eventYears_succ, if_pos hbb] at hk
        rcases List.mem_append.mp hk with hk | hk
        · have := ((mem_eventYears g events ev n k).mp hk).1
          rw [hother (k + 1) (by omega)]
          exact h2b k hk
        · rw [List.mem_singleton.mp hk]
          exact hst
      · simp only [hst, ne_eq, not_false_eq_true, if_true]
        exact ⟨fun hc => by simp at hc, fun _ => ⟨rfl, n, by omega, hbb, hst⟩⟩
    · have hbb : ¬ eventBit g events n ev = true := by simp [eventBit, hb]
      simp only [hb, if_false]
      refine ⟨fun _ => ⟨h2a, ?_⟩, fun hc => by simp at hc⟩
      intro k hk
      rw [eventYears_succ, if_neg hbb, List.append_nil] at hk
      exact h2b k hk

/-- The evaluation of event `ev + 1` and the flag: the flag stays true
exactly when it was true and every year that carries the bit of the event
holds, after the evaluation, a state with status optimal. -/
theorem eventStep_flag (g : Globals) (orc : Nat → SolveResult) (events : Nat → ℚ)
    (r : ResilState) (ev : Nat) :
    (eventStep g orc events r (ev + 1)).ResilOptimal = true ↔
      r.ResilOptimal = true ∧
      ∀ k, k < g.nyears → eventBit g events k ev = true →
        ((eventStep g orc events r (ev + 1)).eng.cplex (k + 1)).status = Status.optimal := by
  have hloop : ∀ n, EventFlagInv g events r ev n
      ((List.range n).foldl (fun a k => eventYearStep g orc events (ev + 1) a (k + 1))
        ⟨{ r with eng := CapacityConstraints g events (ev + 1) 0 r.eng }, true, fun _ => 0⟩) := by
    intro n
    induction n with
    | zero =>
      exact ⟨fun _ => ⟨rfl, by simp [eventYears]⟩, fun hc => by simp at hc⟩
    | succ n ih =>
      rw [List.range_succ, List.foldl_append]
      exact eventYearStep_flag g orc events r ev n _ ih
  obtain ⟨h2, h3⟩ := hloop g.nyears
  unfold eventStep
  simp only
  cases hf : ((List.range g.nyears).foldl
      (fun a k => eventYearStep g orc events (ev + 1) a (k + 1))
      ⟨{ r with eng := CapacityConstraints g events (ev + 1) 0 r.eng }, true, fun _ => 0⟩).current_feasible with
  | true =>
    simp only [if_true]
    obtain ⟨h2a, h2b⟩ := h2 hf
    simp only [StoreDualSolutionEvent_cplex]
    rw [h2a]
    constructor
    · intro hr
      exact ⟨hr, fun k hk hb => h2b k ((mem_eventYears g events ev g.nyears k).mpr ⟨hk, hb⟩)⟩
    · intro hr
      exact hr.1
  | false =>
    simp only [Bool.false_eq_true, if_false]
    obtain ⟨hfl, k, hk, hb, hst⟩ := h3 hf
    rw [hfl]
    constructor
    · intro hc
      exact absurd hc (by simp)
    · intro hr
      exact absurd (hr.2 k hk hb) hst

theorem resilBase_flag (g : Globals) (orc : Nat → SolveResult) (events : Nat → ℚ) (e : CPLEX) :
    (resilBase g orc events e).ResilOptimal = true := by
  unfold resilBase
  apply foldl_inv (fun r : ResilState => r.ResilOptimal = true)
  · rfl
  · intro x b hx
    unfold resilBaseStep
    simp only
    split
    · exact hx
    · exact hx

/-- After the events `1 .. n` the flag `ResilOptimal` is true exactly when,
for each of these events, every year that carries its bit holds a state with
status optimal once the event has been evaluated. -/
theorem resilUpTo_flag (g : Globals) (orc : Nat → SolveResult) (events : Nat → ℚ) (e : CPLEX)
    (n : Nat) :
    (resilUpTo g orc events e n).ResilOptimal = true ↔
      ∀ ev k, ev < n → k < g.nyears → eventBit g events k ev = true →
        ((resilUpTo g orc events e (ev + 1)).eng.cplex (k + 1)).status = Status.optimal := by
  induction n with
  | zero =>
    constructor
    · intro _ ev k hev
      omega
    · intro _
      exact resilBase_flag g orc events e
  | succ n ih =>
    rw [resilUpTo_succ, eventStep_flag, ← resilUpTo_succ, ih]
    constructor
    · rintro ⟨h1, h2⟩ ev k hev hk hb
      by_cases hn : ev = n
      · subst hn
        exact h2 k hk hb
      · exact h1 ev k (by omega) hk hb
    · intro h
      exact ⟨fun ev k hev hk hb => h ev k (by omega) hk hb, fun k hk hb => h n k (by omega) hk hb⟩

/-- C3: when the baseline solve is optimal and `Nevents > 0`, `SolveIndividual`
writes to `objective[SustObj.size()+1]` the value `1e9` if for some event
`ev + 1` in `1 .. Nevents` some year that carries the bit of the event holds,
once the event has been evaluated, a state whose status is not optimal (the
event met an infeasible year among those it re-solved; the other events may
have produced finite totals), and otherwise the arithmetic mean of the
per-event totals `ResilObj`, their sum divided by `Nevents`. -/
theorem C3_resiliency_score (g : Globals) (orc : Nat → SolveResult) (objective : Nat → ℚ)
    (events : Nat → ℚ) (returnString : Option (List ℚ)) (e : CPLEX)
    (hopt : (baseline g orc events objective { e with trace := [] }).optimal = true)
    (hN : 0 < g.Nevents) :
    ((∃ ev k, ev < g.Nevents ∧ k < g.nyears ∧ eventBit g events k ev = true ∧
        ((resilUpTo g orc events (baseline g orc events objective { e with trace := [] }).eng
          (ev + 1)).eng.cplex (k + 1)).status ≠ Status.optimal) →
      (SolveIndividual g orc objective events returnString e).objective (g.SustObj.length + 1) =
        (10 : ℚ) ^ 9) ∧
    ((∀ ev k, ev < g.Nevents → k < g.nyears → eventBit g events k ev = true →
        ((resilUpTo g orc events (baseline g orc events objective { e with trace := [] }).eng
          (ev + 1)).eng.cplex (k + 1)).status = Status.optimal) →
      (SolveIndividual g orc objective events returnString e).objective (g.SustObj.length + 1) =
        ((List.range g.Nevents).map
          (SolveIndividual g orc objective events returnString e).ResilObj).sum / g.Nevents) := by
  obtain ⟨-, hro, hobj⟩ := SolveIndividual_resil g orc objective events returnString e hopt hN
  have hflag := resilUpTo_flag g orc events
    (baseline g orc events objective { e with trace := [] }).eng g.Nevents
  rw [← resilPasses_eq] at hflag
  rw [hro, hobj]
  constructor
  · rintro ⟨ev, k, hev, hk, hb, hst⟩
    have hno : ¬ (resilPasses g orc events
        (baseline g orc events objective { e with trace := [] }).eng).ResilOptimal = true :=
      fun hc => hst (hflag.mp hc ev k hev hk hb)
    rw [if_neg hno]
  · intro hall
    rw [if_pos (hflag.mpr hall), resilSum_eq]


theorem CapacityConstraints_calls (g : Globals) (events : Nat → ℚ) (event offset : Nat) (e : CPLEX) :
    (CapacityConstraints g events event offset e).calls = e.calls := by
  unfold CapacityConstraints
  apply foldl_inv (fun a : CapAcc => a.eng.calls = e.calls)
  · rfl
  · intro x b h
    exact h

theorem StoreDualSolutionEvent_calls (g : Globals) (event : Nat) (years : Nat → ℚ) (e : CPLEX) :
    (StoreDualSolutionEvent g event years e).calls = e.calls := by
  unfold StoreDualSolutionEvent
  apply foldl_inv (fun a : DualAcc => a.eng.calls = e.calls)
  · rfl
  · intro x b hx
    simp only
    split <;> exact hx

theorem StoreDualSolution_calls (g : Globals) (e : CPLEX) :
    (StoreDualSolution g e).calls = e.calls := by
  unfold StoreDualSolution
  have h1 : ((List.range g.Nevents).foldl dualClear e).calls = e.calls :=
    foldl_inv (fun a : CPLEX => a.calls = e.calls) _ _ _ rfl (fun x b h => h)
  simp only
  split
  · exact foldl_inv (fun a : CPLEX => a.calls = e.calls) _ _ _ h1 (fun x b h => h)
  · exact foldl_inv (fun a : DualAcc => a.eng.calls = e.calls) _ _ _ h1 (fun x b h => h)

theorem StoreSolution_calls (g : Globals) (b : Bool) (e : CPLEX) :
    (StoreSolution g b e).calls = e.calls := by
  unfold StoreSolution
  split <;> rfl

/-- On `gTwo` with the solver `orcTwo` and the pattern `evOne` the baseline
is optimal and has consumed one answer. -/
theorem orcTwo_baseline (objective : Nat → ℚ) :
    (baseline gTwo orcTwo evOne objective { engTwo with trace := [] }).optimal = true ∧
    (baseline gTwo orcTwo evOne objective { engTwo with trace := [] }).eng.calls = 1 := by
  have hq : ((solve orcTwo 0 0 { engTwo with trace := [] }).cplex 0).solved = true := by
    simp [solve, orcTwo, SolveResult.solved, engTwo, LoadProblem]
  unfold baseline
  simp only [gTwo, Bool.not_false, if_true, hq]
  refine ⟨trivial, ?_⟩
  rw [StoreDualSolution_calls, StoreSolution_calls]
  rfl

/-- On a one-year instance, the evaluation of an event whose bit is set for
year 1 consumes exactly one answer of the solver, which becomes the state of
the model of year 1. -/
theorem eventStep_one_year (g : Globals) (orc : Nat → SolveResult) (events : Nat → ℚ)
    (r : ResilState) (ev : Nat) (hny : g.nyears = 1) (hb : eventBit g events 0 ev = true) :
    (eventStep g orc events r (ev + 1)).eng.cplex 1 = orc r.eng.calls ∧
    (eventStep g orc events r (ev + 1)).eng.calls = r.eng.calls + 1 := by
  have hbit : events (g.IdxCap.GetSize * (g.Nevents + 1) + 0 * (g.Nevents + 1) + (ev + 1)) = 1 := by
    simpa [eventBit] using hb
  unfold eventStep
  simp only [hny, List.range_succ, List.range_zero, List.nil_append, List.foldl_cons,
    List.foldl_nil]
  unfold eventYearStep
  simp only [Nat.add_sub_cancel, hbit, Bool.not_true, Bool.false_eq_true, if_false, if_true]
  by_cases hst : ((solve orc (ev + 1) (0 + 1)
      (CapacityConstraints g events (ev + 1) 0 r.eng)).cplex (0 + 1)).status = Status.optimal
  · simp only [hst, ne_eq, not_true_eq_false, if_false, if_true]
    rw [StoreDualSolutionEvent_cplex, StoreDualSolutionEvent_calls]
    simp [solve, CapacityConstraints_calls]
  · simp only [hst, ne_eq, not_false_eq_true, if_true, Bool.false_eq_true, if_false]
    simp [solve, CapacityConstraints_calls]

/-- On a one-year instance solved directly, the baseline accumulation loop
consumes exactly one answer of the solver when year 1 carries the trigger bit. -/
theorem resilBase_one_year (g : Globals) (orc : Nat → SolveResult) (events : Nat → ℚ) (e : CPLEX)
    (hny : g.nyears = 1) (hB : g.useBenders = false) (ht : trigBit g events 0 = true) :
    (resilBase g orc events e).eng.calls = e.calls + 1 := by
  have htr : events (g.IdxCap.GetSize * (g.Nevents + 1) + 0 * (g.Nevents + 1)) = 1 := by
    simpa [trigBit] using ht
  unfold resilBase
  simp only [hny, List.range_succ, List.range_zero, List.nil_append, List.foldl_cons,
    List.foldl_nil]
  unfold resilBaseStep
  simp only [Nat.add_sub_cancel, htr, if_true, hB, Bool.not_false]
  simp [solve, CapacityConstraints_calls]

/-- On `gTwo` with the solver `orcTwo` and the pattern `evOne`: after the
evaluation of event 1 the model of year 1 holds an answer "optimal", after
the evaluation of event 2 it holds the answer "infeasible". -/
theorem orcTwo_events (objective : Nat → ℚ) :
    ((resilUpTo gTwo orcTwo evOne
      (baseline gTwo orcTwo evOne objective { engTwo with trace := [] }).eng (0 + 1)).eng.cplex
        (0 + 1)).status = Status.optimal ∧
    ((resilUpTo gTwo orcTwo evOne
      (baseline gTwo orcTwo evOne objective { engTwo with trace := [] }).eng (1 + 1)).eng.cplex
        (0 + 1)).status = Status.infeasible := by
  have hbit : ∀ ev, eventBit gTwo evOne 0 ev = true := by
    intro ev
    simp [eventBit, evOne]
  have htrig : trigBit gTwo evOne 0 = true := by simp [trigBit, evOne]
  have hc0 := resilBase_one_year gTwo orcTwo evOne
    (baseline gTwo orcTwo evOne objective { engTwo with trace := [] }).eng rfl rfl htrig
  rw [(orcTwo_baseline objective).2] at hc0
  obtain ⟨a1, a2⟩ := eventStep_one_year gTwo orcTwo evOne
    (resilUpTo gTwo orcTwo evOne
      (baseline gTwo orcTwo evOne objective { engTwo with trace := [] }).eng 0) 0 rfl (hbit 0)
  rw [← resilUpTo_succ] at a1 a2
  have hc0b : (resilUpTo gTwo orcTwo evOne
      (baseline gTwo orcTwo evOne objective { engTwo with trace := [] }).eng 0).eng.calls = 1 + 1 :=
    hc0
  rw [hc0b] at a1 a2
  obtain ⟨b1, -⟩ := eventStep_one_year gTwo orcTwo evOne
    (resilUpTo gTwo orcTwo evOne
      (baseline gTwo orcTwo evOne objective { engTwo with trace := [] }).eng (0 + 1)) 1 rfl (hbit 1)
  rw [← resilUpTo_succ, a2] at b1
  simp only [Nat.zero_add] at a1 b1 ⊢
  rw [a1, b1]
  exact ⟨rfl, rfl⟩


theorem C3_resiliency_score_witness :
    ((baseline gTwo orcTwo evOne (fun _ => 0) { engTwo with trace := [] }).optimal = true ∧
      0 < gTwo.Nevents ∧
      ((resilUpTo gTwo orcTwo evOne
        (baseline gTwo orcTwo evOne (fun _ => 0) { engTwo with trace := [] }).eng (0 + 1)).eng.cplex
          (0 + 1)).status = Status.optimal ∧
      ((resilUpTo gTwo orcTwo evOne
        (baseline gTwo orcTwo evOne (fun _ => 0) { engTwo with trace := [] }).eng (1 + 1)).eng.cplex
          (0 + 1)).status = Status.infeasible ∧
      (SolveIndividual gTwo orcTwo (fun _ => 0) evOne none engTwo).objective
        (gTwo.SustObj.length + 1) = (10 : ℚ) ^ 9) ∧
    ((baseline gOne orcConv evOne (fun _ => 0) { engOne with trace := [] }).optimal = true ∧
      0 < gOne.Nevents ∧
      (∀ ev k, ev < gOne.Nevents → k < gOne.nyears → eventBit gOne evOne k ev = true →
        ((resilUpTo gOne orcConv evOne
          (baseline gOne orcConv evOne (fun _ => 0) { engOne with trace := [] }).eng
          (ev + 1)).eng.cplex (k + 1)).status = Status.optimal) ∧
      (SolveIndividual gOne orcConv (fun _ => 0) evOne none engOne).objective
          (gOne.SustObj.length + 1) =
        ((List.range gOne.Nevents).map
          (SolveIndividual gOne orcConv (fun _ => 0) evOne none engOne).ResilObj).sum /
            gOne.Nevents) := by
  have hopt2 := (orcTwo_baseline (fun _ => 0)).1
  obtain ⟨e1, e2⟩ := orcTwo_events (fun _ => 0)
  have hbit : eventBit gTwo evOne 0 1 = true := by simp [eventBit, evOne]
  have hopt1 := (orcConv_baseline evOne (fun _ => 0) { engOne with trace := [] }).1
  have hall : ∀ ev k, ev < gOne.Nevents → k < gOne.nyears → eventBit gOne evOne k ev = true →
      ((resilUpTo gOne orcConv evOne
        (baseline gOne orcConv evOne (fun _ => 0) { engOne with trace := [] }).eng
        (ev + 1)).eng.cplex (k + 1)).status = Status.optimal := by
    intro ev k _ hk hb
    rw [orcConv_feasible gOne evOne _ ev k hk hb]
  refine ⟨⟨hopt2, by decide, e1, e2, ?_⟩, ⟨hopt1, by decide, hall, ?_⟩⟩
  · exact (C3_resiliency_score gTwo orcTwo (fun _ => 0) evOne none engTwo hopt2 (by decide)).1
      ⟨1, 0, by decide, by decide, hbit, by rw [e2]; simp⟩
  · exact (C3_resiliency_score gOne orcConv (fun _ => 0) evOne none engOne hopt1 (by decide)).2 hall

end NETPLAN
